import Mathlib

/-!
Verification development for the Candela Obscura shared dice roller server
(`server.js`): an in-memory session registry with GM election, hidden rolls,
bounded history and delayed cleanup of abandoned sessions.

The server is embedded shallowly: the global mutable state (the `sessions`
map, each connected socket's `socket.data`, and socket.io room membership)
becomes an explicit `ServerState`; every inbound event handler becomes a case
of the step function `stepFn`, which returns the successor state together with
the list of emitted messages, each paired with the socket id it is delivered
to.  Sources of nondeterminism of the real server (`Math.random`, `Date.now`)
are passed in as event parameters.  JS numbers reaching the roll handler are
modelled as `Option ℚ`, `none` standing for a non-finite `Number(...)` result.
-/

namespace DiceServer

/-- Association list lookup, mirroring `Map.get` (keys are unique in all the
maps the server builds, since `Map.set` overwrites). -/
def alGet {α : Type} : List (String × α) → String → Option α
  | [], _ => none
  | (k', v') :: t, k => if k' = k then some v' else alGet t k

/-- Association list update, mirroring `Map.set`: replaces in place if the key
is present, appends otherwise (JS `Map` preserves insertion order). -/
def alSet {α : Type} : List (String × α) → String → α → List (String × α)
  | [], k, v => [(k, v)]
  | (k', v') :: t, k, v => if k' = k then (k, v) :: t else (k', v') :: alSet t k v

/-- Association list removal, mirroring `Map.delete` (removes the first entry
with the key; keys are unique). -/
def alErase {α : Type} : List (String × α) → String → List (String × α)
  | [], _ => []
  | (k', v') :: t, k => if k' = k then t else (k', v') :: alErase t k

/-- One die of a roll: `{value, gilded}` (server.js line 220). -/
structure Die where
  value : Nat
  gilded : Bool
  deriving DecidableEq, Repr

/-- A roll record as built by `makeRoll` (server.js lines 47-57).  `by` is a
Lean keyword, hence the field name `by_`.  `id` and `timestamp` come from
`Date.now`/`Math.random`/`new Date()` and are event parameters in the model. -/
structure Roll where
  id : String
  by_ : String
  sessionId : String
  dice : List Die
  hidden : Bool
  timestamp : String
  clientId : Option String
  deriving DecidableEq, Repr

/-- A `session.users` map entry (server.js line 135). -/
structure UserInfo where
  name : String
  clientId : String
  deriving DecidableEq, Repr

/-- One session object (server.js lines 36-42). `cleanupTimer` holds the id of
the pending grace timer, drawn from the global counter `ServerState.nextTimer`
(distinct ids model distinct `setTimeout` handles). -/
structure Session where
  users : List (String × UserInfo)
  gmClientId : Option String
  gmSocketId : Option String
  history : List Roll
  cleanupTimer : Option Nat
  deriving DecidableEq, Repr

/-- Per-socket state: the `socket.data` fields (server.js lines 106-108) plus
the socket.io rooms the socket has joined (`socket.join` / `socket.leave`). -/
structure SockData where
  sessionId : Option String
  name : Option String
  clientId : Option String
  rooms : List String
  deriving DecidableEq, Repr

/-- The whole server state.  `socks` holds the currently connected sockets;
`usedSids` records every socket id ever connected (socket.io never reuses
ids); `nextTimer` is a fresh-id source for `setTimeout` handles. -/
structure ServerState where
  sessions : List (String × Session)
  socks : List (String × SockData)
  usedSids : List String
  nextTimer : Nat
  deriving DecidableEq, Repr

/-- A participant entry of a presence payload (`buildUsersPayload`); the
`clientId` field is present (`some`) only in the GM-enriched view. -/
structure UserEntry where
  id : String
  name : String
  isGM : Bool
  clientId : Option String
  deriving DecidableEq, Repr

/-- Outbound message payloads of the server. -/
inductive Payload where
  | errorMessage (msg : String)
  | sessionJoined (sessionId : String) (isGM : Bool) (users : List UserEntry)
      (history : List Roll)
  | sessionState (sessionId : String) (isGM : Bool) (users : List UserEntry)
      (history : List Roll)
  | diceRolled (roll : Roll)
  | historyCleared
  | userJoined (users : List UserEntry)
  | userLeft (users : List UserEntry)
  deriving DecidableEq, Repr

/-- A delivered message: target socket id paired with the payload. -/
abbrev Emit := String × Payload

/-- JS `String.prototype.trim`: strip whitespace from both ends, modelled
structurally over the character list (Lean's own `String.trim` is defined by
well-founded recursion on byte positions and does not reduce in the kernel). -/
def jsTrim (s : String) : String :=
  ⟨(((s.data.dropWhile Char.isWhitespace).reverse).dropWhile Char.isWhitespace).reverse⟩

/-- JS `String.prototype.toUpperCase`, modelled character-wise. -/
def jsToUpper (s : String) : String :=
  ⟨s.data.map Char.toUpper⟩

/-- JS `String.prototype.substring(0, n)`, modelled character-wise. -/
def jsSubstring (s : String) (n : Nat) : String :=
  ⟨s.data.take n⟩

/-- `normalizeSessionId` (server.js lines 29-32): falsy input gives `null`,
otherwise trim and upper-case (possibly yielding `""`). -/
def normalizeSessionId (id : Option String) : Option String :=
  match id with
  | none => none
  | some s => if s = "" then none else some (jsToUpper (jsTrim s))

/-- The join handler's effective session id: `normalizeSessionId` followed by
the `if (!normalized)` guard, which also rejects the empty string
(server.js lines 112, 117-120). -/
def joinNormalized (raw : Option String) : Option String :=
  match normalizeSessionId raw with
  | none => none
  | some n => if n = "" then none else some n

/-- `safeName` computation (server.js line 113):
`(name || "Anonymous").trim().substring(0, 24) || "Anonymous"`. -/
def joinSafeName (name : Option String) : String :=
  let base := match name with
    | none => "Anonymous"
    | some s => if s = "" then "Anonymous" else s
  let t := jsSubstring (jsTrim base) 24
  if t = "" then "Anonymous" else t

/-- `safeClientId` computation (server.js lines 114-115):
`(clientId || "").toString().substring(0, 64) || "c-" + Math.random()...`;
the random fallback suffix is the event parameter `freshCid`. -/
def joinSafeClientId (clientId : Option String) (freshCid : String) : String :=
  let c := jsSubstring (clientId.getD "") 64
  if c = "" then "c-" ++ freshCid else c

/-- `socket.data.name || "Anonymous"` (server.js line 199). -/
def rollName (n : Option String) : String :=
  match n with
  | none => "Anonymous"
  | some s => if s = "" then "Anonymous" else s

/-- `buildUsersPayload` (server.js lines 59-73). -/
def buildUsersPayload (sess : Session) (includeClientIds : Bool) : List UserEntry :=
  sess.users.map fun p =>
    { id := p.1
      name := p.2.name
      isGM := decide (sess.gmClientId = some p.2.clientId)
      clientId := if includeClientIds then some p.2.clientId else none }

/-- `buildHistoryForClient` (server.js lines 75-79): the GM (non-null token
equal to `gmClientId`) sees the full history, everyone else the
hidden-filtered subsequence. -/
def buildHistoryForClient (sess : Session) (clientId : Option String) : List Roll :=
  match clientId with
  | some c =>
      if sess.gmClientId = some c then sess.history
      else sess.history.filter fun r => !r.hidden
  | none => sess.history.filter fun r => !r.hidden

/-- History append with the 100-entry cap (server.js lines 231-234): push,
then `shift()` once if the length exceeds 100. -/
def histPush (h : List Roll) (r : Roll) : List Roll :=
  let h' := h ++ [r]
  if 100 < h'.length then h'.drop 1 else h'

/-- `getOrCreateSession` (server.js lines 34-45), returning the (possibly
extended) state together with the session value. -/
def getOrCreateSession (st : ServerState) (sessionId : String) :
    ServerState × Session :=
  match alGet st.sessions sessionId with
  | some s => (st, s)
  | none =>
      let s : Session :=
        { users := [], gmClientId := none, gmSocketId := none, history := [],
          cleanupTimer := none }
      ({ st with sessions := alSet st.sessions sessionId s }, s)

/-- `cleanupSessionIfEmpty` (server.js lines 81-103).  Arms a fresh grace
timer when the session has become empty and none is pending; an already armed
timer is left untouched (`if (session.cleanupTimer) return`). -/
def cleanupSessionIfEmpty (st : ServerState) (sessionId : String) : ServerState :=
  match alGet st.sessions sessionId with
  | none => st
  | some sess =>
      if 0 < sess.users.length then
        if (sess.cleanupTimer).isSome then
          let sessC := { sess with cleanupTimer := none }
          { st with sessions := alSet st.sessions sessionId sessC }
        else st
      else if (sess.cleanupTimer).isSome then st
      else
        let sessA := { sess with cleanupTimer := some st.nextTimer }
        { st with sessions := alSet st.sessions sessionId sessA,
                  nextTimer := st.nextTimer + 1 }

/-- `session.gmSocketId && session.users.has(session.gmSocketId)`
(server.js lines 158, 283, 314). -/
def gmConnectedB (sess : Session) : Bool :=
  match sess.gmSocketId with
  | some g => (alGet sess.users g).isSome
  | none => false

/-- The sockets currently in socket.io room `r`: live sockets that joined the
room and have not left (the transport's room-scoped multicast target). -/
def roomMembers (st : ServerState) (r : String) : List String :=
  (st.socks.filter fun p => decide (r ∈ p.2.rooms)).map Prod.fst

/-- Number of dice the roll loop produces: `for (i = 0; i < nd; i++)` with
`i` an integer and `nd` the sanitized (possibly fractional) count, i.e.
`⌈nd⌉` iterations (for `i : ℕ`, `(i : ℚ) < nd ↔ i < ⌈nd⌉`). -/
def diceCount (nd : ℚ) : Nat := (Int.toNat ⌈nd⌉)

/-- The roll loop (server.js lines 216-221): die `i` gets value
`Math.floor(rand i * 6) + 1` and is gilded iff `i < ng`. -/
def genDice (nd ng : ℚ) (rand : Nat → ℚ) : List Die :=
  (List.range (diceCount nd)).map fun i =>
    { value := (Int.toNat ⌊rand i * 6⌋) + 1, gilded := decide ((i : ℚ) < ng) }

/-- Sanitized dice count (server.js lines 208, 210, 213): coerce, default
non-finite to 1, clamp to `[1, 6]`. -/
def sanitizeNd (numDice : Option ℚ) : ℚ :=
  let nd := numDice.getD 1
  max 1 (min 6 nd)

/-- Sanitized gilded count (server.js lines 209, 211, 214): coerce, default
non-finite to 0, clamp to `[0, nd]`. -/
def sanitizeNg (nd : ℚ) (numGilded : Option ℚ) : ℚ :=
  let ng := numGilded.getD 0
  max 0 (min nd ng)

/-- Inbound events.  Randomness consumed by a handler is resolved into event
parameters: `freshCid` for the generated client-id fallback, `rand` for the
die value stream, `rid`/`ts` for the roll id and timestamp.  `timerFire` is
the cleanup grace timer of a session expiring. -/
inductive Event where
  | connect (sid : String)
  | joinSession (sid : String) (sessionId name clientId : Option String)
      (freshCid : String)
  | refreshSession (sid : String)
  | rollDice (sid : String) (numDice numGilded : Option ℚ) (hidden : Bool)
      (rand : Nat → ℚ) (rid ts : String)
  | clearHistory (sid : String)
  | leaveSession (sid : String)
  | disconnect (sid : String)
  | timerFire (sessionId : String)

/-- The in-place mutations the join handler applies to the session object
(server.js lines 123-143): clear the cleanup timer, register the user, elect
the GM if the room has none yet, and re-attach `gmSocketId` when the joining
token equals the GM's token. -/
def joinFinalSession (st : ServerState) (sid : String) (normalized : String)
    (name clientId : Option String) (freshCid : String) : Session :=
  let safeName := joinSafeName name
  let safeClientId := joinSafeClientId clientId freshCid
  -- clearTimeout(session.cleanupTimer); session.cleanupTimer = null
  let sess1 := { (getOrCreateSession st normalized).2 with cleanupTimer := none }
  -- session.users.set(socket.id, {name, clientId})
  let sess2 := { sess1 with
    users := alSet sess1.users sid ⟨safeName, safeClientId⟩ }
  -- GM election: first clientId wins, persists across reconnect
  let sess3 := { sess2 with
    gmClientId := match sess2.gmClientId with
      | none => some safeClientId
      | some c => some c }
  if sess3.gmClientId = some safeClientId then
    { sess3 with gmSocketId := some sid }
  else sess3

/-- The `joinSession` handler (server.js lines 111-171), starting from the
socket's current data `d`. -/
def joinStep (st : ServerState) (sid : String) (d : SockData)
    (sessionId name clientId : Option String) (freshCid : String) :
    ServerState × List Emit :=
  let safeName := joinSafeName name
  let safeClientId := joinSafeClientId clientId freshCid
  match joinNormalized sessionId with
  | none => (st, [(sid, .errorMessage "Invalid session ID.")])
  | some normalized =>
      let st1 := (getOrCreateSession st normalized).1
      -- socket.data updates and socket.join(normalized)
      let d' : SockData :=
        { sessionId := some normalized, name := some safeName,
          clientId := some safeClientId,
          rooms := if normalized ∈ d.rooms then d.rooms
                   else d.rooms ++ [normalized] }
      let sess4 := joinFinalSession st sid normalized name clientId freshCid
      let isGM := decide (sess4.gmClientId = some safeClientId)
      let st2 := { st1 with
        sessions := alSet st1.sessions normalized sess4,
        socks := alSet st1.socks sid d' }
      let ack : Emit :=
        (sid, .sessionJoined normalized isGM (buildUsersPayload sess4 isGM)
          (buildHistoryForClient sess4 (some safeClientId)))
      let publicUsersPayload := buildUsersPayload sess4 false
      let gmConnected := gmConnectedB sess4
      -- socket.to(normalized) [minus sender] .except(gmSocketId) if connected
      let targets := (roomMembers st2 normalized).filter fun c =>
        decide (c ≠ sid) && !(gmConnected && decide (sess4.gmSocketId = some c))
      let pubEmits := targets.map fun c => (c, Payload.userJoined publicUsersPayload)
      -- if (gmConnected && gmSocketId !== socket.id) io.to(gmSocketId).emit(...)
      -- io.to(g) actually delivers only when socket g is connected
      let gmEmits := match sess4.gmSocketId with
        | some g =>
            if gmConnected && decide (g ≠ sid) && (alGet st2.socks g).isSome then
              [(g, Payload.userJoined (buildUsersPayload sess4 true))]
            else []
        | none => []
      (st2, ack :: (pubEmits ++ gmEmits))

/-- The `rollDice` handler body once the socket is known to be in a live
session (server.js lines 206-245). -/
def rollStep (st : ServerState) (sid : String) (d : SockData) (r : String)
    (sess : Session) (numDice numGilded : Option ℚ) (hidden : Bool)
    (rand : Nat → ℚ) (rid ts : String) : ServerState × List Emit :=
  let nd := sanitizeNd numDice
  let ng := sanitizeNg nd numGilded
  let dice := genDice nd ng rand
  let roll : Roll :=
    { id := rid, by_ := rollName d.name, sessionId := r, dice := dice,
      hidden := hidden, timestamp := ts, clientId := d.clientId }
  let sess' := { sess with history := histPush sess.history roll }
  let st' := { st with sessions := alSet st.sessions r sess' }
  if hidden then
    match sess.gmSocketId with
    | some g =>
        if (alGet st.socks g).isSome then (st', [(g, .diceRolled roll)])
        else (st', [(sid, .errorMessage "Hidden roll: GM not currently connected.")])
    | none => (st', [(sid, .errorMessage "Hidden roll: GM not currently connected.")])
  else
    (st', (roomMembers st' r).map fun c => (c, .diceRolled roll))

/-- The `leaveSession` handler body for a socket attached to live session
`sess` under id `r` (server.js lines 276-297).  Note that, unlike the
disconnect handler, it does NOT clear `gmSocketId`. -/
def leaveStep (st : ServerState) (sid : String) (d : SockData) (r : String)
    (sess : Session) : ServerState × List Emit :=
  let sess' := { sess with users := alErase sess.users sid }
  let rooms' := d.rooms.filter fun x => decide (x ≠ r)
  let d' := { d with sessionId := none, rooms := rooms' }
  let st1 := { st with sessions := alSet st.sessions r sess',
                       socks := alSet st.socks sid d' }
  let pub := buildUsersPayload sess' false
  let gmConnected := gmConnectedB sess'
  let targets := (roomMembers st1 r).filter fun c =>
    decide (c ≠ sid) && !(gmConnected && decide (sess'.gmSocketId = some c))
  let pubEmits := targets.map fun c => (c, Payload.userLeft pub)
  let gmEmits := match sess'.gmSocketId with
    | some g =>
        if gmConnected && decide (g ≠ sid) && (alGet st1.socks g).isSome then
          [(g, Payload.userLeft (buildUsersPayload sess' true))]
        else []
    | none => []
  (cleanupSessionIfEmpty st1 r, pubEmits ++ gmEmits)

/-- The `disconnect` handler body (server.js lines 301-329), after socket.io
has removed the socket (`st0` no longer contains it, so it is in no room). -/
def disconnectStep (st0 : ServerState) (sid : String) (r : String)
    (sess : Session) : ServerState × List Emit :=
  let sess1 := { sess with users := alErase sess.users sid }
  let sess2 :=
    if sess1.gmSocketId = some sid then { sess1 with gmSocketId := none }
    else sess1
  let st1 := { st0 with sessions := alSet st0.sessions r sess2 }
  let pub := buildUsersPayload sess2 false
  let gmConnected := gmConnectedB sess2
  let targets := (roomMembers st1 r).filter fun c =>
    decide (c ≠ sid) && !(gmConnected && decide (sess2.gmSocketId = some c))
  let pubEmits := targets.map fun c => (c, Payload.userLeft pub)
  -- source line 322: `if (gmConnected)` with no `gmSocketId !== socket.id`
  let gmEmits := match sess2.gmSocketId with
    | some g =>
        if gmConnected && (alGet st1.socks g).isSome then
          [(g, Payload.userLeft (buildUsersPayload sess2 true))]
        else []
    | none => []
  (cleanupSessionIfEmpty st1 r, pubEmits ++ gmEmits)

/-- One step of the server: dispatch an event to its handler.  `none` means
the event cannot occur (e.g. a handler event for a socket that is not
connected, or a timer expiry with no armed timer). -/
def stepFn (st : ServerState) (ev : Event) : Option (ServerState × List Emit) :=
  match ev with
  | .connect sid =>
      if sid ∈ st.usedSids then none
      else some
        ({ st with
            socks := st.socks ++ [(sid, ⟨none, none, none, []⟩)],
            usedSids := sid :: st.usedSids }, [])
  | .joinSession sid sessionId name clientId freshCid =>
      match alGet st.socks sid with
      | none => none
      | some d => some (joinStep st sid d sessionId name clientId freshCid)
  | .refreshSession sid =>
      match alGet st.socks sid with
      | none => none
      | some d =>
          match d.sessionId with
          | none => some (st, [(sid, .errorMessage "Not in a session.")])
          | some r =>
              match alGet st.sessions r with
              | none => some (st, [(sid, .errorMessage "Not in a session.")])
              | some sess =>
                  let isGM := match d.clientId with
                    | some c => decide (sess.gmClientId = some c)
                    | none => false
                  some (st, [(sid, .sessionState r isGM
                    (buildUsersPayload sess isGM)
                    (buildHistoryForClient sess d.clientId))])
  | .rollDice sid numDice numGilded hidden rand rid ts =>
      match alGet st.socks sid with
      | none => none
      | some d =>
          match d.sessionId with
          | none => some (st, [(sid, .errorMessage "You must join a session first.")])
          | some r =>
              match alGet st.sessions r with
              | none => some (st, [(sid, .errorMessage "You must join a session first.")])
              | some sess =>
                  some (rollStep st sid d r sess numDice numGilded hidden rand rid ts)
  | .clearHistory sid =>
      match alGet st.socks sid with
      | none => none
      | some d =>
          match d.sessionId with
          | none => some (st, [(sid, .errorMessage "You must join a session first.")])
          | some r =>
              match alGet st.sessions r with
              | none => some (st, [(sid, .errorMessage "You must join a session first.")])
              | some sess =>
                  match d.clientId with
                  | none => some (st, [(sid, .errorMessage "Only the GM can clear history.")])
                  | some c =>
                      if sess.gmClientId = some c then
                        let sess' := { sess with history := ([] : List Roll) }
                        some ({ st with sessions := alSet st.sessions r sess' },
                          (roomMembers st r).map fun t => (t, .historyCleared))
                      else
                        some (st, [(sid, .errorMessage "Only the GM can clear history.")])
  | .leaveSession sid =>
      match alGet st.socks sid with
      | none => none
      | some d =>
          match d.sessionId with
          | none =>
              some ({ st with socks := alSet st.socks sid { d with sessionId := none } }, [])
          | some r =>
              match alGet st.sessions r with
              | none =>
                  some ({ st with socks := alSet st.socks sid { d with sessionId := none } }, [])
              | some sess => some (leaveStep st sid d r sess)
  | .disconnect sid =>
      match alGet st.socks sid with
      | none => none
      | some d =>
          let st0 := { st with socks := alErase st.socks sid }
          match d.sessionId with
          | none => some (st0, [])
          | some r =>
              match alGet st0.sessions r with
              | none => some (st0, [])
              | some sess => some (disconnectStep st0 sid r sess)
  | .timerFire r =>
      match alGet st.sessions r with
      | none => none
      | some sess =>
          match sess.cleanupTimer with
          | none => none
          | some _ =>
              if sess.users.length = 0 ∧ sess.history.length = 0 then
                some ({ st with sessions := alErase st.sessions r }, [])
              else
                let sess' := { sess with cleanupTimer := none }
                some ({ st with sessions := alSet st.sessions r sess' }, [])

/-- The empty server at process start. -/
def init : ServerState :=
  { sessions := [], socks := [], usedSids := [], nextTimer := 0 }

/-- Run a trace of events, threading the state (discarding emissions). -/
def run (st : ServerState) : List Event → Option ServerState
  | [] => some st
  | e :: tr =>
      match stepFn st e with
      | none => none
      | some (st', _) => run st' tr

/-- The state after a trace, defaulting to `init` on an invalid trace (used
only to phrase closed concrete statements). -/
def stateAt (tr : List Event) : ServerState :=
  (run init tr).getD init

/-- The emissions of one step, `[]` when invalid (used only to phrase closed
concrete statements). -/
def emitsAt (st : ServerState) (ev : Event) : List Emit :=
  match stepFn st ev with
  | none => []
  | some p => p.2

/-! ### Association list lemmas -/

theorem alGet_alSet {α : Type} (l : List (String × α)) (k k' : String) (v : α) :
    alGet (alSet l k v) k' = if k = k' then some v else alGet l k' := by
  induction l with
  | nil => by_cases hkk : k = k' <;> simp [alSet, alGet, hkk]
  | cons p t ih =>
      obtain ⟨k0, v0⟩ := p
      by_cases h0 : k0 = k
      · subst h0
        by_cases hkk : k0 = k' <;> simp [alSet, alGet, hkk]
      · by_cases hkk : k0 = k'
        · subst hkk
          have : k ≠ k0 := fun h => h0 h.symm
          simp [alSet, alGet, h0, this]
        · simp [alSet, alGet, h0, hkk, ih]

theorem alGet_alErase_ne {α : Type} (l : List (String × α)) (k k' : String)
    (h : k ≠ k') : alGet (alErase l k) k' = alGet l k' := by
  induction l with
  | nil => simp [alErase, alGet]
  | cons p t ih =>
      obtain ⟨k0, v0⟩ := p
      by_cases h0 : k0 = k
      · subst h0
        have hk : k0 ≠ k' := h
        simp [alErase, alGet, hk]
      · simp [alErase, alGet, h0, ih]

theorem alGet_eq_none_of_not_mem {α : Type} (l : List (String × α)) (k : String)
    (h : k ∉ l.map Prod.fst) : alGet l k = none := by
  induction l with
  | nil => simp [alGet]
  | cons p t ih =>
      obtain ⟨k0, v0⟩ := p
      simp only [List.map_cons, List.mem_cons] at h
      push_neg at h
      have : k0 ≠ k := fun hh => h.1 hh.symm
      simp [alGet, this, ih h.2]

theorem alGet_alErase_self {α : Type} (l : List (String × α)) (k : String)
    (h : (l.map Prod.fst).Nodup) : alGet (alErase l k) k = none := by
  induction l with
  | nil => simp [alErase, alGet]
  | cons p t ih =>
      obtain ⟨k0, v0⟩ := p
      simp only [List.map_cons, List.nodup_cons] at h
      by_cases h0 : k0 = k
      · subst h0
        simp only [alErase, if_pos rfl]
        exact alGet_eq_none_of_not_mem t k0 h.1
      · simp [alErase, alGet, h0, ih h.2]

theorem alGet_append_single_ne {α : Type} (l : List (String × α)) (s k : String)
    (b : α) (h : s ≠ k) : alGet (l ++ [(s, b)]) k = alGet l k := by
  induction l with
  | nil => simp [alGet, h]
  | cons p t ih =>
      obtain ⟨k0, v0⟩ := p
      by_cases h0 : k0 = k <;> simp [alGet, h0, ih]

theorem keys_alSet {α : Type} (l : List (String × α)) (k : String) (v : α) :
    (alSet l k v).map Prod.fst
      = if k ∈ l.map Prod.fst then l.map Prod.fst else l.map Prod.fst ++ [k] := by
  induction l with
  | nil => simp [alSet]
  | cons p t ih =>
      obtain ⟨k0, v0⟩ := p
      by_cases h0 : k0 = k
      · subst h0; simp [alSet]
      · have h1 : k0 ≠ k := h0
        have h2 : k ≠ k0 := Ne.symm h1
        by_cases hmem : k ∈ t.map Prod.fst <;>
          simp [alSet, h1, h2, hmem, ih]

theorem nodup_keys_alSet {α : Type} (l : List (String × α)) (k : String) (v : α)
    (h : (l.map Prod.fst).Nodup) : ((alSet l k v).map Prod.fst).Nodup := by
  rw [keys_alSet]
  split
  · exact h
  · next hmem => simpa using List.Nodup.append h (by simp) (by simpa using hmem)

theorem alErase_sublist {α : Type} (l : List (String × α)) (k : String) :
    (alErase l k).Sublist l := by
  induction l with
  | nil => simp [alErase]
  | cons p t ih =>
      obtain ⟨k0, v0⟩ := p
      by_cases h0 : k0 = k
      · rw [alErase, if_pos h0]
        exact List.sublist_cons_self (k0, v0) t
      · simp only [alErase, if_neg h0]
        exact ih.cons₂ (k0, v0)

theorem nodup_keys_alErase {α : Type} (l : List (String × α)) (k : String)
    (h : (l.map Prod.fst).Nodup) : ((alErase l k).map Prod.fst).Nodup :=
  ((alErase_sublist l k).map Prod.fst).nodup h

/-! ### Run lemmas -/

theorem run_append (l1 l2 : List Event) (st : ServerState) :
    run st (l1 ++ l2)
      = match run st l1 with
        | none => none
        | some s => run s l2 := by
  induction l1 generalizing st with
  | nil => simp [run]
  | cons e t ih =>
      simp only [List.cons_append, run]
      cases stepFn st e with
      | none => rfl
      | some p => exact ih p.1

/-! ### Roll generator lemmas (claim C5) -/

theorem countP_range_lt (k n : ℕ) :
    (List.range n).countP (fun i => decide (i < k)) = min k n := by
  induction n with
  | zero => simp
  | succ n ih =>
      rw [List.range_succ, List.countP_append, ih]
      by_cases h : n < k <;> simp [List.countP_cons, h] <;> omega

theorem sanitizeNd_bounds (numDice : Option ℚ) :
    1 ≤ sanitizeNd numDice ∧ sanitizeNd numDice ≤ 6 := by
  unfold sanitizeNd
  refine ⟨le_max_left _ _, max_le (by norm_num) (min_le_left _ _)⟩

theorem sanitizeNg_bounds (nd : ℚ) (hnd : 1 ≤ nd) (numGilded : Option ℚ) :
    0 ≤ sanitizeNg nd numGilded ∧ sanitizeNg nd numGilded ≤ nd := by
  unfold sanitizeNg
  exact ⟨le_max_left _ _, max_le (by linarith) (min_le_left _ _)⟩

theorem genDice_length (nd ng : ℚ) (rand : Nat → ℚ) :
    (genDice nd ng rand).length = diceCount nd := by
  simp [genDice]

theorem diceCount_bounds (nd : ℚ) (h1 : 1 ≤ nd) (h6 : nd ≤ 6) :
    1 ≤ diceCount nd ∧ diceCount nd ≤ 6 := by
  unfold diceCount
  have hpos : 0 < ⌈nd⌉ := Int.ceil_pos.mpr (by linarith)
  have hle : ⌈nd⌉ ≤ 6 := Int.ceil_le.mpr (by exact_mod_cast h6)
  omega

theorem ratLt_iff_lt_ceilToNat (ng : ℚ) (i : ℕ) (_h0 : 0 ≤ ng) :
    (i : ℚ) < ng ↔ i < Int.toNat ⌈ng⌉ := by
  have hcast : ((i : ℤ) : ℚ) = (i : ℚ) := by push_cast; rfl
  constructor
  · intro h
    have : (i : ℤ) < ⌈ng⌉ := Int.lt_ceil.mpr (by rw [hcast]; exact h)
    omega
  · intro h
    have h2 : (i : ℤ) < ⌈ng⌉ := by omega
    have := Int.lt_ceil.mp h2
    rwa [hcast] at this

theorem genDice_gilded_count (nd ng : ℚ) (rand : Nat → ℚ)
    (h0 : 0 ≤ ng) (hle : ng ≤ nd) :
    (genDice nd ng rand).countP Die.gilded = Int.toNat ⌈ng⌉ := by
  have hstep : (genDice nd ng rand).countP Die.gilded
      = (List.range (diceCount nd)).countP (fun i => decide (i < Int.toNat ⌈ng⌉)) := by
    unfold genDice
    rw [List.countP_map]
    apply List.countP_congr
    intro x _
    simp only [Function.comp_apply, decide_eq_true_eq]
    exact ratLt_iff_lt_ceilToNat ng x h0
  rw [hstep, countP_range_lt]
  have hmono : ⌈ng⌉ ≤ ⌈nd⌉ := Int.ceil_le_ceil hle
  have : Int.toNat ⌈ng⌉ ≤ diceCount nd := by unfold diceCount; omega
  omega

theorem genDice_values (nd ng : ℚ) (rand : Nat → ℚ)
    (hrand : ∀ i, 0 ≤ rand i ∧ rand i < 1) :
    ∀ d ∈ genDice nd ng rand, 1 ≤ d.value ∧ d.value ≤ 6 := by
  intro d hd
  simp only [genDice, List.mem_map, List.mem_range] at hd
  obtain ⟨i, _, rfl⟩ := hd
  refine ⟨by simp, ?_⟩
  have h0 : 0 ≤ rand i := (hrand i).1
  have h1 : rand i < 1 := (hrand i).2
  have hlt : rand i * 6 < 6 := by linarith
  have : ⌊rand i * 6⌋ < (6 : ℤ) := Int.floor_lt.mpr (by exact_mod_cast hlt)
  simp only []
  omega

/-- C5: the claim as stated is false for fractional inputs.  With raw inputs
`numDice = 1`, `numGilded = 0.5` both are finite, the sanitized gilded count
is `1/2`, yet the produced roll has exactly one gilded die, so the number of
gilded dice differs from the sanitized gilded count. -/
theorem C5_counterexample :
    sanitizeNg (sanitizeNd (some 1)) (some (1/2)) = 1/2 ∧
    ((genDice (sanitizeNd (some 1))
        (sanitizeNg (sanitizeNd (some 1)) (some (1/2)))
        (fun _ => 0)).countP Die.gilded : ℚ)
      ≠ sanitizeNg (sanitizeNd (some 1)) (some (1/2)) := by
  constructor
  · norm_num [sanitizeNg, sanitizeNd]
  · norm_num [sanitizeNg, sanitizeNd, genDice, diceCount, List.countP, List.countP.go]

/-- C5 (amended): sanitization is total clamping, never an error: non-finite
inputs default to 1 and 0, `nd` is clamped to `[1,6]` and `ng` to `[0, nd]`;
the produced dice list has `⌈nd⌉ ∈ [1,6]` dice, every die value is in
`{1,...,6}`, exactly `⌈ng⌉` dice are gilded — which equals the sanitized
gilded count whenever that count is an integer, in particular for all integer
inputs — and the gilded dice are exactly the first ones in sequence. -/
theorem C5_roll_sanitization (numDice numGilded : Option ℚ) (rand : Nat → ℚ)
    (hrand : ∀ i, 0 ≤ rand i ∧ rand i < 1) :
    1 ≤ sanitizeNd numDice ∧ sanitizeNd numDice ≤ 6 ∧
    0 ≤ sanitizeNg (sanitizeNd numDice) numGilded ∧
    sanitizeNg (sanitizeNd numDice) numGilded ≤ sanitizeNd numDice ∧
    1 ≤ (genDice (sanitizeNd numDice) (sanitizeNg (sanitizeNd numDice) numGilded) rand).length ∧
    (genDice (sanitizeNd numDice) (sanitizeNg (sanitizeNd numDice) numGilded) rand).length ≤ 6 ∧
    (∀ d ∈ genDice (sanitizeNd numDice) (sanitizeNg (sanitizeNd numDice) numGilded) rand,
       1 ≤ d.value ∧ d.value ≤ 6) ∧
    (genDice (sanitizeNd numDice) (sanitizeNg (sanitizeNd numDice) numGilded) rand).countP
        Die.gilded
      = Int.toNat ⌈sanitizeNg (sanitizeNd numDice) numGilded⌉ ∧
    (∀ n : ℕ, sanitizeNg (sanitizeNd numDice) numGilded = n →
       (genDice (sanitizeNd numDice) (sanitizeNg (sanitizeNd numDice) numGilded) rand).countP
           Die.gilded = n) ∧
    (genDice (sanitizeNd numDice) (sanitizeNg (sanitizeNd numDice) numGilded) rand).map
        Die.gilded
      = (List.range
          (genDice (sanitizeNd numDice) (sanitizeNg (sanitizeNd numDice) numGilded)
            rand).length).map
          (fun (i : ℕ) => decide ((i : ℚ) < sanitizeNg (sanitizeNd numDice) numGilded)) := by
  obtain ⟨hnd1, hnd6⟩ := sanitizeNd_bounds numDice
  obtain ⟨hng0, hngnd⟩ := sanitizeNg_bounds (sanitizeNd numDice) hnd1 numGilded
  obtain ⟨hc1, hc6⟩ := diceCount_bounds (sanitizeNd numDice) hnd1 hnd6
  have hlen := genDice_length (sanitizeNd numDice)
    (sanitizeNg (sanitizeNd numDice) numGilded) rand
  have hcount := genDice_gilded_count (sanitizeNd numDice)
    (sanitizeNg (sanitizeNd numDice) numGilded) rand hng0 hngnd
  refine ⟨hnd1, hnd6, hng0, hngnd, by omega, by omega,
    genDice_values _ _ rand hrand, hcount, ?_, ?_⟩
  · intro n hn
    rw [hcount, hn]
    simp
  · rw [hlen]
    unfold genDice
    rw [List.map_map]
    rfl

/-- C5 witness: the amended theorem evaluated at the concrete request
`numDice = 4`, `numGilded = 1` with a constant randomness source. -/
theorem C5_roll_sanitization_witness :
    1 ≤ sanitizeNd (some 4) ∧ sanitizeNd (some 4) ≤ 6 ∧
    0 ≤ sanitizeNg (sanitizeNd (some 4)) (some 1) ∧
    sanitizeNg (sanitizeNd (some 4)) (some 1) ≤ sanitizeNd (some 4) ∧
    1 ≤ (genDice (sanitizeNd (some 4)) (sanitizeNg (sanitizeNd (some 4)) (some 1)) (fun _ => 1/2)).length ∧
    (genDice (sanitizeNd (some 4)) (sanitizeNg (sanitizeNd (some 4)) (some 1)) (fun _ => 1/2)).length ≤ 6 ∧
    (∀ d ∈ genDice (sanitizeNd (some 4)) (sanitizeNg (sanitizeNd (some 4)) (some 1)) (fun _ => 1/2),
       1 ≤ d.value ∧ d.value ≤ 6) ∧
    (genDice (sanitizeNd (some 4)) (sanitizeNg (sanitizeNd (some 4)) (some 1)) (fun _ => 1/2)).countP
        Die.gilded
      = Int.toNat ⌈sanitizeNg (sanitizeNd (some 4)) (some 1)⌉ ∧
    (∀ n : ℕ, sanitizeNg (sanitizeNd (some 4)) (some 1) = n →
       (genDice (sanitizeNd (some 4)) (sanitizeNg (sanitizeNd (some 4)) (some 1)) (fun _ => 1/2)).countP
           Die.gilded = n) ∧
    (genDice (sanitizeNd (some 4)) (sanitizeNg (sanitizeNd (some 4)) (some 1)) (fun _ => 1/2)).map
        Die.gilded
      = (List.range
          (genDice (sanitizeNd (some 4)) (sanitizeNg (sanitizeNd (some 4)) (some 1))
            (fun _ => 1/2)).length).map
          (fun (i : ℕ) => decide ((i : ℚ) < sanitizeNg (sanitizeNd (some 4)) (some 1))) :=
  C5_roll_sanitization (some 4) (some 1) (fun _ => 1/2)
    (fun i => ⟨by norm_num, by norm_num⟩)

/-! ### History bound (claim C6) -/

theorem foldl_histPush (rs : List Roll) :
    List.foldl histPush [] rs = rs.drop (rs.length - 100) := by
  induction rs using List.reverseRecOn with
  | nil => simp
  | append_singleton rs r ih =>
      rw [List.foldl_append, List.foldl_cons, List.foldl_nil, ih]
      unfold histPush
      by_cases h : rs.length < 100
      · have h1 : rs.length - 100 = 0 := by omega
        have h2 : (rs ++ [r]).length - 100 = 0 := by
          rw [List.length_append]; simp; omega
        simp only [h1, List.drop_zero, h2]
        rw [if_neg (by simp [List.length_append]; omega)]
      · have hlen : (rs.drop (rs.length - 100)).length = 100 := by
          rw [List.length_drop]; omega
        have hcond : 100 < ((rs.drop (rs.length - 100)) ++ [r]).length := by
          rw [List.length_append, hlen]; simp
        rw [if_pos hcond]
        have hd1 : ((rs.drop (rs.length - 100)) ++ [r]).drop 1
            = (rs.drop (rs.length - 100)).drop 1 ++ [r] :=
          List.drop_append_of_le_length (by rw [hlen]; omega)
        rw [hd1, List.drop_drop]
        have h2 : (rs ++ [r]).length - 100 = rs.length - 100 + 1 := by
          rw [List.length_append]; simp; omega
        rw [h2, List.drop_append_of_le_length (by omega)]

/-- C6: a room's history is the oldest-first sequence of appended rolls with
the single oldest entry evicted once the append exceeds 100 entries: folding
the handler's append-with-cap (`histPush`, used verbatim by `rollStep`) over
any sequence of rolls keeps exactly the most recent 100 (all of them while
there are at most 100) in original order, so the length never exceeds 100. -/
theorem C6_history_bound : ∀ rs : List Roll,
    List.foldl histPush [] rs = rs.drop (rs.length - 100) ∧
    (List.foldl histPush [] rs).length = min rs.length 100 := by
  intro rs
  refine ⟨foldl_histPush rs, ?_⟩
  rw [foldl_histPush rs, List.length_drop]
  omega

/-! ### Hidden-roll delivery (claim C4) -/

theorem histPush_getLast (h : List Roll) (r : Roll) :
    (histPush h r).getLast? = some r := by
  simp only [histPush]
  split
  · next hcond =>
      have hlen : 1 ≤ h.length := by
        simp only [List.length_append, List.length_singleton] at hcond
        omega
      rw [List.drop_append_of_le_length hlen, List.getLast?_concat]
  · exact List.getLast?_concat _

/-- The roll record built by the roll handler (`makeRoll` at server.js
lines 223-229, fields as in the source). -/
def mkRollRecord (d : SockData) (r : String) (numDice numGilded : Option ℚ)
    (hidden : Bool) (rand : Nat → ℚ) (rid ts : String) : Roll :=
  { id := rid, by_ := rollName d.name, sessionId := r,
    dice := genDice (sanitizeNd numDice)
      (sanitizeNg (sanitizeNd numDice) numGilded) rand,
    hidden := hidden, timestamp := ts, clientId := d.clientId }

/-- A session with a roll pushed onto its history. -/
def histUpdated (sess : Session) (roll : Roll) : Session :=
  { sess with history := histPush sess.history roll }

theorem rollStep_fst (st : ServerState) (sid : String) (d : SockData)
    (r : String) (sess : Session) (numDice numGilded : Option ℚ) (hidden : Bool)
    (rand : Nat → ℚ) (rid ts : String) :
    (rollStep st sid d r sess numDice numGilded hidden rand rid ts).1
      = { st with sessions := alSet st.sessions r (histUpdated sess (mkRollRecord d r numDice numGilded hidden rand rid ts)) } := by
  simp only [rollStep, mkRollRecord, histUpdated]
  split
  · cases sess.gmSocketId with
    | none => rfl
    | some g => by_cases hl : (alGet st.socks g).isSome <;> simp [hl]
  · rfl

theorem rollStep_snd_hidden (st : ServerState) (sid : String) (d : SockData)
    (r : String) (sess : Session) (numDice numGilded : Option ℚ)
    (rand : Nat → ℚ) (rid ts : String) :
    (rollStep st sid d r sess numDice numGilded true rand rid ts).2
      = (match sess.gmSocketId with
         | some g =>
             if (alGet st.socks g).isSome
               then [(g, Payload.diceRolled
                 (mkRollRecord d r numDice numGilded true rand rid ts))]
               else [(sid, Payload.errorMessage
                 "Hidden roll: GM not currently connected.")]
         | none => [(sid, Payload.errorMessage
             "Hidden roll: GM not currently connected.")]) := by
  cases hgm : sess.gmSocketId with
  | none => simp [rollStep, mkRollRecord, hgm]
  | some g =>
      by_cases hl : (alGet st.socks g).isSome <;>
        simp [rollStep, mkRollRecord, hgm, hl]

/-- C4: a hidden roll by a connection in a session is appended to the room's
history unconditionally (with the cap applied); it is delivered only to the
GM's current connection when that socket is live, and when no GM connection
is live the roller instead receives exactly one soft error message and no
connection receives the roll. -/
theorem C4_hidden_roll_delivery (st : ServerState) (sid : String) (d : SockData)
    (r : String) (sess : Session) (numDice numGilded : Option ℚ)
    (rand : Nat → ℚ) (rid ts : String) (st' : ServerState) (out : List Emit)
    (hd : alGet st.socks sid = some d) (hr : d.sessionId = some r)
    (hs : alGet st.sessions r = some sess)
    (hstep : stepFn st (.rollDice sid numDice numGilded true rand rid ts)
      = some (st', out)) :
    ∃ roll : Roll, roll.hidden = true ∧ roll.sessionId = r ∧
      (∃ sess', alGet st'.sessions r = some sess' ∧
        sess'.history = histPush sess.history roll ∧
        sess'.history.getLast? = some roll) ∧
      ((∃ g, sess.gmSocketId = some g ∧ (alGet st.socks g).isSome = true ∧
          out = [(g, .diceRolled roll)]) ∨
       ((∀ g, sess.gmSocketId = some g → alGet st.socks g = none) ∧
        out = [(sid, .errorMessage "Hidden roll: GM not currently connected.")])) := by
  simp only [stepFn, hd, hr, hs] at hstep
  rw [Option.some.injEq] at hstep
  have hst : st' = (rollStep st sid d r sess numDice numGilded true rand rid ts).1 :=
    (congrArg Prod.fst hstep).symm
  have hout : out = (rollStep st sid d r sess numDice numGilded true rand rid ts).2 :=
    (congrArg Prod.snd hstep).symm
  refine ⟨mkRollRecord d r numDice numGilded true rand rid ts, rfl, rfl, ?_, ?_⟩
  · refine ⟨histUpdated sess (mkRollRecord d r numDice numGilded true rand rid ts),
      ?_, rfl, histPush_getLast _ _⟩
    rw [hst, rollStep_fst]
    simp [alGet_alSet]
  · rw [hout, rollStep_snd_hidden]
    cases hgm : sess.gmSocketId with
    | none => exact Or.inr ⟨fun g hg => (nomatch hg), rfl⟩
    | some g =>
        by_cases hl : (alGet st.socks g).isSome
        · refine Or.inl ⟨g, rfl, hl, ?_⟩
          simp [hl]
        · refine Or.inr ⟨fun g' hg' => ?_, ?_⟩
          · cases hg'
            exact Option.not_isSome_iff_eq_none.mp hl
          · simp [hl]

/-! ### Concrete evaluation lemmas and witness fixtures

The kernel cannot reduce `ℚ` arithmetic (its operations are defined by
well-founded recursion), so the roll-generator applications appearing in
concrete witness steps are evaluated once here and rewritten by `simp`. -/

theorem sanitizeNd_one : sanitizeNd (some 1) = 1 := by
  norm_num [sanitizeNd]

theorem sanitizeNg_one_zero : sanitizeNg 1 (some 0) = 0 := by
  norm_num [sanitizeNg]

theorem genDice_one_zero : genDice 1 0 (fun _ => 0) = [{ value := 1, gilded := false }] := by
  simp [genDice, diceCount, List.range_succ]

/-- Socket data of `"s1"` (GM Gale) in the witness room. -/
def wD1 : SockData := ⟨some "A", some "Gale", some "c1", ["A"]⟩

/-- Socket data of `"s2"` (player Bryn) in the witness room. -/
def wD2 : SockData := ⟨some "A", some "Bryn", some "c2", ["A"]⟩

/-- Witness session: Gale (token `c1`) is GM with a live connection `s1`,
Bryn (token `c2`) is a plain participant; empty history. -/
def wSess : Session :=
  ⟨[("s1", ⟨"Gale", "c1"⟩), ("s2", ⟨"Bryn", "c2"⟩)], some "c1", some "s1", [], none⟩

/-- The hidden roll produced in the witness step. -/
def wRoll : Roll := ⟨"rid", "Bryn", "A", [⟨1, false⟩], true, "ts", some "c2"⟩

/-- Witness session after the hidden roll was recorded. -/
def wSessH : Session :=
  ⟨[("s1", ⟨"Gale", "c1"⟩), ("s2", ⟨"Bryn", "c2"⟩)], some "c1", some "s1", [wRoll], none⟩

/-- Witness server state: room `"A"` with Gale (GM) and Bryn connected
(reached by two connects and two joins from the empty server). -/
def wSt : ServerState := ⟨[("A", wSess)], [("s1", wD1), ("s2", wD2)], ["s2", "s1"], 0⟩

/-- Witness server state after Bryn's hidden roll. -/
def wStH : ServerState := ⟨[("A", wSessH)], [("s1", wD1), ("s2", wD2)], ["s2", "s1"], 0⟩

/-- C4 witness: in the concrete two-member room, Bryn's hidden roll is
recorded in the history and delivered exactly to the GM's connection. -/
theorem C4_hidden_roll_delivery_witness :
    ∃ roll : Roll, roll.hidden = true ∧ roll.sessionId = "A" ∧
      (∃ sess', alGet wStH.sessions "A" = some sess' ∧
        sess'.history = histPush wSess.history roll ∧
        sess'.history.getLast? = some roll) ∧
      ((∃ g, wSess.gmSocketId = some g ∧ (alGet wSt.socks g).isSome = true ∧
          [("s1", Payload.diceRolled wRoll)] = [(g, .diceRolled roll)]) ∨
       ((∀ g, wSess.gmSocketId = some g → alGet wSt.socks g = none) ∧
        [("s1", Payload.diceRolled wRoll)]
          = [("s2", .errorMessage "Hidden roll: GM not currently connected.")])) :=
  C4_hidden_roll_delivery wSt "s2" wD2 "A" wSess (some 1) (some 0) (fun _ => 0)
    "rid" "ts" wStH [("s1", Payload.diceRolled wRoll)]
    (by decide) (by decide) (by decide)
    (by simp only [stepFn, rollStep, sanitizeNd_one, sanitizeNg_one_zero,
          genDice_one_zero]
        decide)

/-! ### clearHistory is GM-only and atomic (claim C9) -/

/-- C9: for a connection in a session, if its identity token equals the
room's `gmIdentityToken` then `clearHistory` empties the room's history
(changing nothing else) and broadcasts `historyCleared` to the whole room;
otherwise the caller alone gets a permission error and the state is
entirely unchanged. -/
theorem C9_clearHistory_gm_only (st : ServerState) (sid : String) (d : SockData)
    (r : String) (sess : Session) (c : String)
    (hd : alGet st.socks sid = some d) (hr : d.sessionId = some r)
    (hs : alGet st.sessions r = some sess) (hc : d.clientId = some c) :
    (sess.gmClientId = some c →
      stepFn st (.clearHistory sid)
        = some ({ st with sessions := alSet st.sessions r { sess with history := ([] : List Roll) } },
            (roomMembers st r).map fun t => (t, Payload.historyCleared))) ∧
    (sess.gmClientId ≠ some c →
      stepFn st (.clearHistory sid)
        = some (st, [(sid, Payload.errorMessage "Only the GM can clear history.")])) := by
  constructor
  · intro h
    simp only [stepFn, hd, hr, hs, hc, if_pos h]
  · intro h
    simp only [stepFn, hd, hr, hs, hc, if_neg h]

/-- C9 witness: in the concrete room with one recorded roll, the GM's
`clearHistory` empties the history and broadcasts room-wide, while Bryn's
attempt is refused with a caller-only permission error and no state change. -/
theorem C9_clearHistory_gm_only_witness :
    (stepFn wStH (.clearHistory "s1")
       = some ({ wStH with sessions := alSet wStH.sessions "A" { wSessH with history := ([] : List Roll) } },
           (roomMembers wStH "A").map fun t => (t, Payload.historyCleared))) ∧
    (stepFn wStH (.clearHistory "s2")
       = some (wStH, [("s2", Payload.errorMessage "Only the GM can clear history.")])) :=
  ⟨(C9_clearHistory_gm_only wStH "s1" wD1 "A" wSessH "c1"
      (by decide) (by decide) (by decide) (by decide)).1 (by decide),
   (C9_clearHistory_gm_only wStH "s2" wD2 "A" wSessH "c2"
      (by decide) (by decide) (by decide) (by decide)).2 (by decide)⟩

/-! ### Cleanup state machine (claim C7) -/

theorem timer_of_gmIf (c : Prop) [Decidable c] (s : Session) (x : Option String) :
    (if c then { s with gmSocketId := x } else s).cleanupTimer = s.cleanupTimer := by
  split <;> rfl

/-- C7: (leave) a transition to zero participants arms a single grace timer,
preserving an already armed one (idempotent arm, so at most one pending
deletion per room); (disconnect) likewise; (fire) at expiry the room is
deleted iff it still has zero participants and empty history, and otherwise
only the timer handle is cleared; (join) a join into a room with an armed
timer cancels it. -/
theorem C7_cleanup_state_machine :
    (∀ st sid d r sess st' out,
      stepFn st (Event.leaveSession sid) = some (st', out) →
      alGet st.socks sid = some d → d.sessionId = some r →
      alGet st.sessions r = some sess → alErase sess.users sid = [] →
      ∃ sess', alGet st'.sessions r = some sess' ∧ sess'.users = [] ∧
        (sess'.cleanupTimer).isSome = true ∧
        (∀ t, sess.cleanupTimer = some t → sess'.cleanupTimer = some t) ∧
        (sess.cleanupTimer = none → sess'.cleanupTimer = some st.nextTimer)) ∧
    (∀ st sid d r sess st' out,
      stepFn st (Event.disconnect sid) = some (st', out) →
      alGet st.socks sid = some d → d.sessionId = some r →
      alGet st.sessions r = some sess → alErase sess.users sid = [] →
      ∃ sess', alGet st'.sessions r = some sess' ∧ sess'.users = [] ∧
        (sess'.cleanupTimer).isSome = true ∧
        (∀ t, sess.cleanupTimer = some t → sess'.cleanupTimer = some t) ∧
        (sess.cleanupTimer = none → sess'.cleanupTimer = some st.nextTimer)) ∧
    (∀ st r sess st' out,
      (st.sessions.map Prod.fst).Nodup →
      stepFn st (Event.timerFire r) = some (st', out) →
      alGet st.sessions r = some sess →
      ((sess.users = [] ∧ sess.history = [] → alGet st'.sessions r = none) ∧
       (¬(sess.users = [] ∧ sess.history = []) →
          alGet st'.sessions r = some { sess with cleanupTimer := none }))) ∧
    (∀ st sid d rRaw nm cid f r st' out,
      stepFn st (Event.joinSession sid rRaw nm cid f) = some (st', out) →
      alGet st.socks sid = some d → joinNormalized rRaw = some r →
      ∃ sess', alGet st'.sessions r = some sess' ∧ sess'.cleanupTimer = none) := by
  refine ⟨?_, ?_, ?_, ?_⟩
  · intro st sid d r sess st' out hstep hd hr hs hempty
    simp only [stepFn, hd, hr, hs] at hstep
    rw [Option.some.injEq] at hstep
    have hst : st' = (leaveStep st sid d r sess).1 := (congrArg Prod.fst hstep).symm
    subst hst
    rcases htimer : sess.cleanupTimer with _ | t
    · refine ⟨{ sess with users := ([] : List (String × UserInfo)), cleanupTimer := some st.nextTimer }, ?_, rfl, rfl, ?_, fun _ => rfl⟩
      · simp [leaveStep, cleanupSessionIfEmpty, alGet_alSet, hempty, htimer]
      · intro t ht
        exact (nomatch ht)
    · refine ⟨{ sess with users := ([] : List (String × UserInfo)), cleanupTimer := some t }, ?_, rfl, rfl, ?_, ?_⟩
      · simp [leaveStep, cleanupSessionIfEmpty, alGet_alSet, hempty, htimer]
      · intro t' ht
        cases ht
        rfl
      · intro hn
        exact (nomatch hn)
  · intro st sid d r sess st' out hstep hd hr hs hempty
    simp only [stepFn, hd, hr, hs] at hstep
    rw [Option.some.injEq] at hstep
    have hst : st' = (disconnectStep { st with socks := alErase st.socks sid } sid r sess).1 :=
      (congrArg Prod.fst hstep).symm
    subst hst
    by_cases hgm : sess.gmSocketId = some sid <;>
      rcases htimer : sess.cleanupTimer with _ | t
    · refine ⟨{ sess with users := ([] : List (String × UserInfo)), gmSocketId := none, cleanupTimer := some st.nextTimer }, ?_, rfl, rfl, ?_, fun _ => rfl⟩
      · simp [disconnectStep, cleanupSessionIfEmpty, alGet_alSet, hempty, htimer, hgm]
      · intro t ht
        exact (nomatch ht)
    · refine ⟨{ sess with users := ([] : List (String × UserInfo)), gmSocketId := none, cleanupTimer := some t }, ?_, rfl, rfl, ?_, ?_⟩
      · simp [disconnectStep, cleanupSessionIfEmpty, alGet_alSet, hempty, htimer, hgm]
      · intro t' ht
        cases ht
        rfl
      · intro hn
        exact (nomatch hn)
    · refine ⟨{ sess with users := ([] : List (String × UserInfo)), cleanupTimer := some st.nextTimer }, ?_, rfl, rfl, ?_, fun _ => rfl⟩
      · simp [disconnectStep, cleanupSessionIfEmpty, alGet_alSet, hempty, htimer, hgm]
      · intro t ht
        exact (nomatch ht)
    · refine ⟨{ sess with users := ([] : List (String × UserInfo)), cleanupTimer := some t }, ?_, rfl, rfl, ?_, ?_⟩
      · simp [disconnectStep, cleanupSessionIfEmpty, alGet_alSet, hempty, htimer, hgm]
      · intro t' ht
        cases ht
        rfl
      · intro hn
        exact (nomatch hn)
  · intro st r sess st' out hWF hstep hs
    simp only [stepFn, hs] at hstep
    rcases ht : sess.cleanupTimer with _ | t
    · rw [ht] at hstep
      cases hstep
    · rw [ht] at hstep
      by_cases hcond : sess.users.length = 0 ∧ sess.history.length = 0
      · rw [if_pos hcond] at hstep
        rw [Option.some.injEq] at hstep
        have hst : st' = { st with sessions := alErase st.sessions r } :=
          (congrArg Prod.fst hstep).symm
        subst hst
        constructor
        · intro _
          exact alGet_alErase_self _ _ hWF
        · intro hn
          exact absurd ⟨List.length_eq_zero.mp hcond.1, List.length_eq_zero.mp hcond.2⟩ hn
      · rw [if_neg hcond] at hstep
        rw [Option.some.injEq] at hstep
        have hst : st' = { st with sessions := alSet st.sessions r { sess with cleanupTimer := none } } :=
          (congrArg Prod.fst hstep).symm
        subst hst
        constructor
        · intro hcase
          exact absurd ⟨by rw [hcase.1]; rfl, by rw [hcase.2]; rfl⟩ hcond
        · intro _
          simp [alGet_alSet]
  · intro st sid d rRaw nm cid f r st' out hstep hd hnorm
    simp only [stepFn, hd] at hstep
    rw [Option.some.injEq] at hstep
    have hst : st' = (joinStep st sid d rRaw nm cid f).1 := (congrArg Prod.fst hstep).symm
    subst hst
    refine ⟨joinFinalSession st sid r nm cid f, ?_, ?_⟩
    · simp only [joinStep, hnorm]
      rw [alGet_alSet]
      simp
    · simp only [joinFinalSession]
      split <;> rfl

/-- Single-occupant witness room: Gale alone in room `"B"`, no timer yet. -/
def wSoloSess : Session := ⟨[("s3", ⟨"Gale", "c3"⟩)], some "c3", some "s3", [], none⟩

/-- Socket data of `"s3"` in the single-occupant witness room. -/
def wSoloD : SockData := ⟨some "B", some "Gale", some "c3", ["B"]⟩

/-- Witness state with the single-occupant room (timer counter at 5). -/
def wSolo : ServerState := ⟨[("B", wSoloSess)], [("s3", wSoloD)], ["s3"], 5⟩

/-- `wSolo` after `"s3"` leaves: empty room, grace timer 5 armed. -/
def wSoloL : ServerState :=
  ⟨[("B", ⟨[], some "c3", some "s3", [], some 5⟩)], [("s3", ⟨none, some "Gale", some "c3", []⟩)], ["s3"], 6⟩

/-- `wSolo` after `"s3"` disconnects: empty room, grace timer 5 armed. -/
def wSoloD2 : ServerState :=
  ⟨[("B", ⟨[], some "c3", none, [], some 5⟩)], [], ["s3"], 6⟩

/-- A drained witness room: zero participants, empty history, timer armed. -/
def wDrainSess : Session := ⟨[], some "c3", none, [], some 5⟩

/-- Witness state with the drained room and one fresh idle socket `"s4"`. -/
def wDrain : ServerState := ⟨[("B", wDrainSess)], [("s4", ⟨none, none, none, []⟩)], ["s4", "s3"], 6⟩

/-- `wDrain` after the grace timer fires: the room is deleted. -/
def wDrainF : ServerState := ⟨[], [("s4", ⟨none, none, none, []⟩)], ["s4", "s3"], 6⟩

/-- `wDrain` after `"s4"` joins room `"B"`: the armed timer is cancelled. -/
def wDrainJ : ServerState :=
  ⟨[("B", ⟨[("s4", ⟨"Nia", "c4"⟩)], some "c3", none, [], none⟩)],
   [("s4", ⟨some "B", some "Nia", some "c4", ["B"]⟩)], ["s4", "s3"], 6⟩

/-- C7 witness: the four legs of the cleanup state machine evaluated on
concrete rooms — leaving or disconnecting the last participant arms the
timer once, firing deletes the empty-history room, and a join cancels an
armed timer. -/
theorem C7_cleanup_state_machine_witness :
    (∃ sess', alGet wSoloL.sessions "B" = some sess' ∧ sess'.users = [] ∧
      (sess'.cleanupTimer).isSome = true ∧
      (∀ t, wSoloSess.cleanupTimer = some t → sess'.cleanupTimer = some t) ∧
      (wSoloSess.cleanupTimer = none → sess'.cleanupTimer = some wSolo.nextTimer)) ∧
    (∃ sess', alGet wSoloD2.sessions "B" = some sess' ∧ sess'.users = [] ∧
      (sess'.cleanupTimer).isSome = true ∧
      (∀ t, wSoloSess.cleanupTimer = some t → sess'.cleanupTimer = some t) ∧
      (wSoloSess.cleanupTimer = none → sess'.cleanupTimer = some wSolo.nextTimer)) ∧
    ((wDrainSess.users = [] ∧ wDrainSess.history = [] → alGet wDrainF.sessions "B" = none) ∧
     (¬(wDrainSess.users = [] ∧ wDrainSess.history = []) →
        alGet wDrainF.sessions "B" = some { wDrainSess with cleanupTimer := none })) ∧
    (∃ sess', alGet wDrainJ.sessions "B" = some sess' ∧ sess'.cleanupTimer = none) :=
  ⟨C7_cleanup_state_machine.1 wSolo "s3" wSoloD "B" wSoloSess wSoloL []
      (by decide) (by decide) (by decide) (by decide) (by decide),
   C7_cleanup_state_machine.2.1 wSolo "s3" wSoloD "B" wSoloSess wSoloD2 []
      (by decide) (by decide) (by decide) (by decide) (by decide),
   C7_cleanup_state_machine.2.2.1 wDrain "B" wDrainSess wDrainF []
      (by decide) (by decide) (by decide),
   C7_cleanup_state_machine.2.2.2 wDrain "s4" ⟨none, none, none, []⟩ (some "b")
      (some "Nia") (some "c4") "f" "B" wDrainJ
      [("s4", Payload.sessionJoined "B" false [⟨"s4", "Nia", false, none⟩] [])]
      (by decide) (by decide) (by decide)⟩

/-! ### Join acknowledgement token exposure (claim C10) -/

theorem buildUsersPayload_false_clientId (sess : Session) :
    ∀ e ∈ buildUsersPayload sess false, e.clientId = none := by
  intro e he
  simp only [buildUsersPayload, List.mem_map] at he
  obtain ⟨p, _, rfl⟩ := he
  rfl

theorem buildUsersPayload_true_clientId (sess : Session) :
    ∀ e ∈ buildUsersPayload sess true, ∃ tok, e.clientId = some tok := by
  intro e he
  simp only [buildUsersPayload, List.mem_map] at he
  obtain ⟨p, _, rfl⟩ := he
  exact ⟨p.2.clientId, rfl⟩

/-- C10: the joiner's own `sessionJoined` acknowledgement carries the
participants list with identity tokens included exactly when the joining
client's token equals the room's `gmIdentityToken` after election (the ack's
exposure is decided by the joiner's own GM status): the ack built with
`buildUsersPayload sess' isGM` exposes a token in every entry when the joiner
is the GM, and no entry of a non-GM join's ack carries a `clientId` field. -/
theorem C10_join_ack_token_exposure (st : ServerState) (sid : String)
    (d : SockData) (rRaw nm cid : Option String) (f r : String)
    (st' : ServerState) (out : List Emit)
    (hd : alGet st.socks sid = some d) (hnorm : joinNormalized rRaw = some r)
    (hstep : stepFn st (.joinSession sid rRaw nm cid f) = some (st', out)) :
    ∃ sess', alGet st'.sessions r = some sess' ∧
      (sid, Payload.sessionJoined r
          (decide (sess'.gmClientId = some (joinSafeClientId cid f)))
          (buildUsersPayload sess'
            (decide (sess'.gmClientId = some (joinSafeClientId cid f))))
          (buildHistoryForClient sess' (some (joinSafeClientId cid f)))) ∈ out ∧
      (sess'.gmClientId = some (joinSafeClientId cid f) →
        ∀ e ∈ buildUsersPayload sess'
            (decide (sess'.gmClientId = some (joinSafeClientId cid f))),
          ∃ tok, e.clientId = some tok) ∧
      (sess'.gmClientId ≠ some (joinSafeClientId cid f) →
        ∀ e ∈ buildUsersPayload sess'
            (decide (sess'.gmClientId = some (joinSafeClientId cid f))),
          e.clientId = none) := by
  simp only [stepFn, hd] at hstep
  rw [Option.some.injEq] at hstep
  have hst : st' = (joinStep st sid d rRaw nm cid f).1 := (congrArg Prod.fst hstep).symm
  have hout : out = (joinStep st sid d rRaw nm cid f).2 := (congrArg Prod.snd hstep).symm
  subst hst
  subst hout
  refine ⟨joinFinalSession st sid r nm cid f, ?_, ?_, ?_, ?_⟩
  · simp only [joinStep, hnorm]
    rw [alGet_alSet]
    simp
  · simp only [joinStep, hnorm]
    exact List.mem_cons_self _ _
  · intro hgm e he
    rw [hgm, decide_eq_true_eq.mpr rfl] at he
    · exact buildUsersPayload_true_clientId _ e (by simpa using he)
  · intro hgm e he
    rw [decide_eq_false hgm] at he
    exact buildUsersPayload_false_clientId _ e he

/-- C10 witness: Nia (token `c4`) joins the drained room whose GM token is
`c3`; her acknowledgement carries the token-free participants view. -/
theorem C10_join_ack_token_exposure_witness :
    ∃ sess', alGet wDrainJ.sessions "B" = some sess' ∧
      ("s4", Payload.sessionJoined "B"
          (decide (sess'.gmClientId = some (joinSafeClientId (some "c4") "f")))
          (buildUsersPayload sess'
            (decide (sess'.gmClientId = some (joinSafeClientId (some "c4") "f"))))
          (buildHistoryForClient sess' (some (joinSafeClientId (some "c4") "f"))))
        ∈ [("s4", Payload.sessionJoined "B" false [⟨"s4", "Nia", false, none⟩] [])] ∧
      (sess'.gmClientId = some (joinSafeClientId (some "c4") "f") →
        ∀ e ∈ buildUsersPayload sess'
            (decide (sess'.gmClientId = some (joinSafeClientId (some "c4") "f"))),
          ∃ tok, e.clientId = some tok) ∧
      (sess'.gmClientId ≠ some (joinSafeClientId (some "c4") "f") →
        ∀ e ∈ buildUsersPayload sess'
            (decide (sess'.gmClientId = some (joinSafeClientId (some "c4") "f"))),
          e.clientId = none) :=
  C10_join_ack_token_exposure wDrain "s4" ⟨none, none, none, []⟩ (some "b")
    (some "Nia") (some "c4") "f" "B" wDrainJ
    [("s4", Payload.sessionJoined "B" false [⟨"s4", "Nia", false, none⟩] [])]
    (by decide) (by decide) (by decide)

/-! ### Session lookup helper lemmas -/

theorem getOrCreate_fst_sessions (st : ServerState) (n r : String) :
    alGet (getOrCreateSession st n).1.sessions r
      = if n = r then some (getOrCreateSession st n).2 else alGet st.sessions r := by
  rcases h : alGet st.sessions n with _ | s
  · simp [getOrCreateSession, h, alGet_alSet]
  · simp only [getOrCreateSession, h]
    split_ifs with hnr
    · subst hnr
      exact h
    · rfl

theorem getOrCreate_snd_of_some (st : ServerState) (n : String) (sess : Session)
    (h : alGet st.sessions n = some sess) : (getOrCreateSession st n).2 = sess := by
  simp [getOrCreateSession, h]

theorem joinFinalSession_gmClientId (st : ServerState) (sid n : String)
    (nm cid : Option String) (f : String) :
    (joinFinalSession st sid n nm cid f).gmClientId
      = (match (getOrCreateSession st n).2.gmClientId with
         | none => some (joinSafeClientId cid f)
         | some c => some c) := by
  simp only [joinFinalSession]
  split <;> rfl

theorem joinFinalSession_gmSocketId_of_gm (st : ServerState) (sid n : String)
    (nm cid : Option String) (f : String)
    (h : (getOrCreateSession st n).2.gmClientId = some (joinSafeClientId cid f)
         ∨ (getOrCreateSession st n).2.gmClientId = none) :
    (joinFinalSession st sid n nm cid f).gmSocketId = some sid := by
  simp only [joinFinalSession]
  rcases h with h | h <;> simp [h]

theorem cleanup_lookup_none (st0 : ServerState) (r0 r : String)
    (h : alGet (cleanupSessionIfEmpty st0 r0).sessions r = none) :
    alGet st0.sessions r = none := by
  unfold cleanupSessionIfEmpty at h
  rcases h0 : alGet st0.sessions r0 with _ | sess0 <;> simp only [h0] at h
  · exact h
  · split_ifs at h <;>
      first
      | exact h
      | (rw [alGet_alSet] at h
         split_ifs at h with hr
         exact h)

theorem cleanup_lookup_some (st0 : ServerState) (r0 r : String) (sess' : Session)
    (h : alGet (cleanupSessionIfEmpty st0 r0).sessions r = some sess') :
    ∃ s0, alGet st0.sessions r = some s0 ∧ sess'.users = s0.users ∧
      sess'.gmClientId = s0.gmClientId ∧ sess'.gmSocketId = s0.gmSocketId ∧
      sess'.history = s0.history := by
  unfold cleanupSessionIfEmpty at h
  rcases h0 : alGet st0.sessions r0 with _ | sess0 <;> simp only [h0] at h
  · exact ⟨sess', h, rfl, rfl, rfl, rfl⟩
  · split_ifs at h
    · rw [alGet_alSet] at h
      split_ifs at h with hr
      · subst hr
        cases h
        exact ⟨sess0, h0, rfl, rfl, rfl, rfl⟩
      · exact ⟨sess', h, rfl, rfl, rfl, rfl⟩
    · exact ⟨sess', h, rfl, rfl, rfl, rfl⟩
    · exact ⟨sess', h, rfl, rfl, rfl, rfl⟩
    · rw [alGet_alSet] at h
      split_ifs at h with hr
      · subst hr
        cases h
        exact ⟨sess0, h0, rfl, rfl, rfl, rfl⟩
      · exact ⟨sess', h, rfl, rfl, rfl, rfl⟩

theorem alSet_alSet_same {α : Type} (l : List (String × α)) (k : String) (a b : α) :
    alSet (alSet l k a) k b = alSet l k b := by
  induction l with
  | nil => simp [alSet]
  | cons p t ih =>
      obtain ⟨k0, v0⟩ := p
      by_cases h : k0 = k
      · subst h
        simp [alSet]
      · simp [alSet, h, ih]

theorem cleanup_sessions_shape (st1 : ServerState) (r0 : String) :
    (cleanupSessionIfEmpty st1 r0).sessions = st1.sessions ∨
    (∃ sessC sess1, alGet st1.sessions r0 = some sess1 ∧
      (cleanupSessionIfEmpty st1 r0).sessions = alSet st1.sessions r0 sessC ∧
      sessC.users = sess1.users ∧ sessC.gmClientId = sess1.gmClientId ∧
      sessC.gmSocketId = sess1.gmSocketId ∧ sessC.history = sess1.history) := by
  unfold cleanupSessionIfEmpty
  rcases h0 : alGet st1.sessions r0 with _ | sess1
  · exact Or.inl rfl
  · simp only []
    split_ifs
    · exact Or.inr ⟨_, sess1, rfl, rfl, rfl, rfl, rfl, rfl⟩
    · exact Or.inl rfl
    · exact Or.inl rfl
    · exact Or.inr ⟨_, sess1, rfl, rfl, rfl, rfl, rfl, rfl⟩

/-- How a step transforms the sessions map, as far as the GM identity token is
concerned: unchanged, a single-key update preserving `gmClientId`, a deletion
by the grace timer, or the join handler's update of the normalized room. -/
theorem step_gmToken_shape (st st' : ServerState) (e : Event) (out : List Emit)
    (hstep : stepFn st e = some (st', out)) :
    (st'.sessions = st.sessions) ∨
    (∃ r0 sess0 sess1, alGet st.sessions r0 = some sess0 ∧
      st'.sessions = alSet st.sessions r0 sess1 ∧
      sess1.gmClientId = sess0.gmClientId) ∨
    (∃ r0, e = Event.timerFire r0 ∧ st'.sessions = alErase st.sessions r0) ∨
    (∃ sid rRaw nm cid f n, e = Event.joinSession sid rRaw nm cid f ∧
      joinNormalized rRaw = some n ∧
      st'.sessions = alSet (getOrCreateSession st n).1.sessions n
        (joinFinalSession st sid n nm cid f)) := by
  cases e with
  | connect sid =>
      simp only [stepFn] at hstep
      split_ifs at hstep
      rw [Option.some.injEq] at hstep
      exact Or.inl (congrArg (fun p => p.1.sessions) hstep).symm
  | joinSession sid rRaw nm cid f =>
      simp only [stepFn] at hstep
      rcases hd0 : alGet st.socks sid with _ | d0
      · simp only [hd0] at hstep
        exact (nomatch hstep)
      · simp only [hd0, Option.some.injEq] at hstep
        have hss : st'.sessions = (joinStep st sid d0 rRaw nm cid f).1.sessions :=
          (congrArg (fun p => p.1.sessions) hstep).symm
        rcases hn : joinNormalized rRaw with _ | n
        · left
          rw [hss]
          simp [joinStep, hn]
        · right; right; right
          refine ⟨sid, rRaw, nm, cid, f, n, rfl, hn, ?_⟩
          rw [hss]
          simp [joinStep, hn]
  | refreshSession sid =>
      simp only [stepFn] at hstep
      rcases hd0 : alGet st.socks sid with _ | d0
      · simp only [hd0] at hstep
        exact (nomatch hstep)
      · simp only [hd0] at hstep
        rcases hr0 : d0.sessionId with _ | r0
        · simp only [hr0, Option.some.injEq] at hstep
          exact Or.inl (congrArg (fun p => p.1.sessions) hstep).symm
        · simp only [hr0] at hstep
          rcases h0 : alGet st.sessions r0 with _ | sess0 <;>
            simp only [h0, Option.some.injEq] at hstep <;>
            exact Or.inl (congrArg (fun p => p.1.sessions) hstep).symm
  | rollDice sid numDice numGilded hidden rand rid ts =>
      simp only [stepFn] at hstep
      rcases hd0 : alGet st.socks sid with _ | d0
      · simp only [hd0] at hstep
        exact (nomatch hstep)
      · simp only [hd0] at hstep
        rcases hr0 : d0.sessionId with _ | r0
        · simp only [hr0, Option.some.injEq] at hstep
          exact Or.inl (congrArg (fun p => p.1.sessions) hstep).symm
        · simp only [hr0] at hstep
          rcases h0 : alGet st.sessions r0 with _ | sess0
          · simp only [h0, Option.some.injEq] at hstep
            exact Or.inl (congrArg (fun p => p.1.sessions) hstep).symm
          · simp only [h0, Option.some.injEq] at hstep
            have hss : st'.sessions
                = (rollStep st sid d0 r0 sess0 numDice numGilded hidden rand rid ts).1.sessions :=
              (congrArg (fun p => p.1.sessions) hstep).symm
            right; left
            refine ⟨r0, sess0,
              histUpdated sess0 (mkRollRecord d0 r0 numDice numGilded hidden rand rid ts),
              h0, ?_, rfl⟩
            rw [hss, rollStep_fst]
  | clearHistory sid =>
      simp only [stepFn] at hstep
      rcases hd0 : alGet st.socks sid with _ | d0
      · simp only [hd0] at hstep
        exact (nomatch hstep)
      · simp only [hd0] at hstep
        rcases hr0 : d0.sessionId with _ | r0
        · simp only [hr0, Option.some.injEq] at hstep
          exact Or.inl (congrArg (fun p => p.1.sessions) hstep).symm
        · simp only [hr0] at hstep
          rcases h0 : alGet st.sessions r0 with _ | sess0
          · simp only [h0, Option.some.injEq] at hstep
            exact Or.inl (congrArg (fun p => p.1.sessions) hstep).symm
          · simp only [h0] at hstep
            rcases hc0 : d0.clientId with _ | c0
            · simp only [hc0, Option.some.injEq] at hstep
              exact Or.inl (congrArg (fun p => p.1.sessions) hstep).symm
            · simp only [hc0] at hstep
              by_cases hc : sess0.gmClientId = some c0
              · rw [if_pos hc, Option.some.injEq] at hstep
                right; left
                exact ⟨r0, sess0, { sess0 with history := ([] : List Roll) }, h0,
                  (congrArg (fun p => p.1.sessions) hstep).symm, rfl⟩
              · rw [if_neg hc, Option.some.injEq] at hstep
                exact Or.inl (congrArg (fun p => p.1.sessions) hstep).symm
  | leaveSession sid =>
      simp only [stepFn] at hstep
      rcases hd0 : alGet st.socks sid with _ | d0
      · simp only [hd0] at hstep
        exact (nomatch hstep)
      · simp only [hd0] at hstep
        rcases hr0 : d0.sessionId with _ | r0
        · simp only [hr0, Option.some.injEq] at hstep
          exact Or.inl (congrArg (fun p => p.1.sessions) hstep).symm
        · simp only [hr0] at hstep
          rcases h0 : alGet st.sessions r0 with _ | sess0
          · simp only [h0, Option.some.injEq] at hstep
            exact Or.inl (congrArg (fun p => p.1.sessions) hstep).symm
          · simp only [h0, Option.some.injEq] at hstep
            have hss : st'.sessions = (leaveStep st sid d0 r0 sess0).1.sessions :=
              (congrArg (fun p => p.1.sessions) hstep).symm
            have hshape := cleanup_sessions_shape
              { st with sessions := alSet st.sessions r0 { sess0 with users := alErase sess0.users sid }, socks := alSet st.socks sid { d0 with sessionId := none, rooms := d0.rooms.filter fun x => decide (x ≠ r0) } } r0
            rcases hshape with hsh | ⟨sessC, sess1, hl1, hsh, _, hgm1, _, _⟩
            · right; left
              refine ⟨r0, sess0, { sess0 with users := alErase sess0.users sid }, h0, ?_, rfl⟩
              rw [hss]
              exact hsh
            · right; left
              have hl1' : sess1 = { sess0 with users := alErase sess0.users sid } := by
                rw [alGet_alSet, if_pos rfl, Option.some.injEq] at hl1
                exact hl1.symm
              refine ⟨r0, sess0, sessC, h0, ?_, ?_⟩
              · rw [hss]
                have heq2 : (leaveStep st sid d0 r0 sess0).1.sessions
                    = alSet (alSet st.sessions r0 { sess0 with users := alErase sess0.users sid }) r0 sessC := hsh
                rw [heq2, alSet_alSet_same]
              · rw [hgm1, hl1']
  | disconnect sid =>
      simp only [stepFn] at hstep
      rcases hd0 : alGet st.socks sid with _ | d0
      · simp only [hd0] at hstep
        exact (nomatch hstep)
      · simp only [hd0] at hstep
        rcases hr0 : d0.sessionId with _ | r0
        · simp only [hr0, Option.some.injEq] at hstep
          exact Or.inl (congrArg (fun p => p.1.sessions) hstep).symm
        · simp only [hr0] at hstep
          rcases h0 : alGet st.sessions r0 with _ | sess0
          · simp only [h0, Option.some.injEq] at hstep
            exact Or.inl (congrArg (fun p => p.1.sessions) hstep).symm
          · simp only [h0, Option.some.injEq] at hstep
            have hss : st'.sessions
                = (disconnectStep { st with socks := alErase st.socks sid } sid r0 sess0).1.sessions :=
              (congrArg (fun p => p.1.sessions) hstep).symm
            simp only [disconnectStep] at hss
            have hshape := cleanup_sessions_shape
              { st with sessions := alSet st.sessions r0 (if ({ sess0 with users := alErase sess0.users sid } : Session).gmSocketId = some sid then { ({ sess0 with users := alErase sess0.users sid } : Session) with gmSocketId := none } else { sess0 with users := alErase sess0.users sid }), socks := alErase st.socks sid } r0
            rcases hshape with hsh | ⟨sessC, sess1, hl1, hsh, _, hgm1, _, _⟩
            · right; left
              refine ⟨r0, sess0,
                (if sess0.gmSocketId = some sid then { sess0 with users := alErase sess0.users sid, gmSocketId := none } else { sess0 with users := alErase sess0.users sid }),
                h0, ?_, ?_⟩
              · rw [hss]
                exact hsh
              · split <;> rfl
            · right; left
              have hgm1' : sess1.gmClientId = sess0.gmClientId := by
                rw [alGet_alSet, if_pos rfl, Option.some.injEq] at hl1
                rw [← hl1]
                split <;> rfl
              refine ⟨r0, sess0, sessC, h0, ?_, ?_⟩
              · rw [hss]
                have heq2 : (cleanupSessionIfEmpty { st with sessions := alSet st.sessions r0 (if ({ sess0 with users := alErase sess0.users sid } : Session).gmSocketId = some sid then { ({ sess0 with users := alErase sess0.users sid } : Session) with gmSocketId := none } else { sess0 with users := alErase sess0.users sid }), socks := alErase st.socks sid } r0).sessions
                    = alSet (alSet st.sessions r0 (if ({ sess0 with users := alErase sess0.users sid } : Session).gmSocketId = some sid then { ({ sess0 with users := alErase sess0.users sid } : Session) with gmSocketId := none } else { sess0 with users := alErase sess0.users sid })) r0 sessC := hsh
                rw [heq2, alSet_alSet_same]
              · rw [hgm1, hgm1']
  | timerFire r0 =>
      simp only [stepFn] at hstep
      rcases h0 : alGet st.sessions r0 with _ | sess0
      · simp only [h0] at hstep
        exact (nomatch hstep)
      · simp only [h0] at hstep
        rcases ht0 : sess0.cleanupTimer with _ | t
        · simp only [ht0] at hstep
          exact (nomatch hstep)
        · simp only [ht0] at hstep
          split_ifs at hstep
          · rw [Option.some.injEq] at hstep
            right; right; left
            exact ⟨r0, rfl, (congrArg (fun p => p.1.sessions) hstep).symm⟩
          · rw [Option.some.injEq] at hstep
            right; left
            exact ⟨r0, sess0, { sess0 with cleanupTimer := none }, h0,
              (congrArg (fun p => p.1.sessions) hstep).symm, rfl⟩

/-- C1: GM-ness is a property of identity, not of connection: once
`gmClientId` of room `r` equals `T`, every event either preserves it or
deletes the room, and only a grace-timer expiry deletes a room; a later join
into `r` with token `T` re-attaches `gmSocketId` to the new connection
without re-election, and the acknowledgement of a join with a different token
carries `isGM = false`. -/
theorem C1_gm_identity_persistence (st st' : ServerState) (e : Event)
    (out : List Emit) (r T : String) (sess : Session)
    (hWF : (st.sessions.map Prod.fst).Nodup)
    (hstep : stepFn st e = some (st', out))
    (hs : alGet st.sessions r = some sess) (hgm : sess.gmClientId = some T) :
    (alGet st'.sessions r = none → e = Event.timerFire r) ∧
    (∀ sess', alGet st'.sessions r = some sess' → sess'.gmClientId = some T) ∧
    (∀ sid rRaw nm cid f, e = Event.joinSession sid rRaw nm cid f →
       joinNormalized rRaw = some r → joinSafeClientId cid f = T →
       ∃ sess', alGet st'.sessions r = some sess' ∧ sess'.gmSocketId = some sid) ∧
    (∀ sid rRaw nm cid f, e = Event.joinSession sid rRaw nm cid f →
       joinNormalized rRaw = some r → joinSafeClientId cid f ≠ T →
       ∀ g us hist, (sid, Payload.sessionJoined r g us hist) ∈ out → g = false) := by
  refine ⟨?_, ?_, ?_, ?_⟩
  · intro hnone
    rcases step_gmToken_shape st st' e out hstep with h1
      | ⟨r0, sess0, sess1, h0, hset, hgm1⟩ | ⟨r0, he, hdel⟩
      | ⟨sid, rRaw, nm, cid, f, n, he, hn, hset⟩
    · rw [h1, hs] at hnone
      cases hnone
    · rw [hset, alGet_alSet] at hnone
      by_cases hr : r0 = r
      · rw [if_pos hr] at hnone
        cases hnone
      · rw [if_neg hr, hs] at hnone
        cases hnone
    · rw [hdel] at hnone
      by_cases hr : r0 = r
      · subst hr
        exact he
      · rw [alGet_alErase_ne _ _ _ hr, hs] at hnone
        cases hnone
    · rw [hset, alGet_alSet] at hnone
      by_cases hr : n = r
      · rw [if_pos hr] at hnone
        cases hnone
      · rw [if_neg hr, getOrCreate_fst_sessions, if_neg hr, hs] at hnone
        cases hnone
  · intro sess' hx
    rcases step_gmToken_shape st st' e out hstep with h1
      | ⟨r0, sess0, sess1, h0, hset, hgm1⟩ | ⟨r0, he, hdel⟩
      | ⟨sid, rRaw, nm, cid, f, n, he, hn, hset⟩
    · rw [h1, hs] at hx
      cases hx
      exact hgm
    · rw [hset, alGet_alSet] at hx
      by_cases hr : r0 = r
      · rw [if_pos hr] at hx
        cases hx
        subst hr
        rw [hs] at h0
        cases h0
        exact hgm1.trans hgm
      · rw [if_neg hr, hs] at hx
        cases hx
        exact hgm
    · rw [hdel] at hx
      by_cases hr : r0 = r
      · subst hr
        rw [alGet_alErase_self _ _ hWF] at hx
        cases hx
      · rw [alGet_alErase_ne _ _ _ hr, hs] at hx
        cases hx
        exact hgm
    · rw [hset, alGet_alSet] at hx
      by_cases hr : n = r
      · rw [if_pos hr] at hx
        cases hx
        subst hr
        rw [joinFinalSession_gmClientId, getOrCreate_snd_of_some _ _ sess hs, hgm]
      · rw [if_neg hr, getOrCreate_fst_sessions, if_neg hr, hs] at hx
        cases hx
        exact hgm
  · intro sid rRaw nm cid f he hnorm htok
    subst he
    simp only [stepFn] at hstep
    rcases hd0 : alGet st.socks sid with _ | d0
    · simp only [hd0] at hstep
      exact (nomatch hstep)
    · simp only [hd0, Option.some.injEq] at hstep
      have hss : st' = (joinStep st sid d0 rRaw nm cid f).1 :=
        (congrArg Prod.fst hstep).symm
      subst hss
      refine ⟨joinFinalSession st sid r nm cid f, ?_, ?_⟩
      · simp only [joinStep, hnorm]
        rw [alGet_alSet]
        simp
      · apply joinFinalSession_gmSocketId_of_gm
        left
        rw [getOrCreate_snd_of_some st r sess hs, hgm, htok]
  · intro sid rRaw nm cid f he hnorm htok g us hist hmem
    subst he
    simp only [stepFn] at hstep
    rcases hd0 : alGet st.socks sid with _ | d0
    · simp only [hd0] at hstep
      exact (nomatch hstep)
    · simp only [hd0, Option.some.injEq] at hstep
      have hout : out = (joinStep st sid d0 rRaw nm cid f).2 :=
        (congrArg Prod.snd hstep).symm
      subst hout
      simp only [joinStep, hnorm] at hmem
      rcases List.mem_cons.mp hmem with hmem1 | hmem2
      · simp only [Prod.mk.injEq, Payload.sessionJoined.injEq] at hmem1
        obtain ⟨-, -, hg, -, -⟩ := hmem1
        rw [hg]
        apply decide_eq_false
        intro hcontra
        rw [joinFinalSession_gmClientId, getOrCreate_snd_of_some st r sess hs, hgm] at hcontra
        rw [Option.some.injEq] at hcontra
        exact htok hcontra.symm
      · rw [List.mem_append] at hmem2
        rcases hmem2 with hpub | hgme
        · rw [List.mem_map] at hpub
          obtain ⟨c, -, heqc⟩ := hpub
          simp at heqc
        · rcases hgms : (joinFinalSession st sid r nm cid f).gmSocketId with _ | g0 <;>
            simp [hgms] at hgme

/-- Witness state: room `"A"` as in `wSt` plus a freshly connected socket
`"s5"` that has not joined anywhere yet. -/
def wStJ : ServerState :=
  ⟨[("A", wSess)], [("s1", wD1), ("s2", wD2), ("s5", ⟨none, none, none, []⟩)], ["s5", "s2", "s1"], 0⟩

/-- `wStJ` after `"s5"` joins room `"A"` with the GM token `c1`: the GM is
re-attached to the new connection. -/
def wStJ2 : ServerState :=
  ⟨[("A", ⟨[("s1", ⟨"Gale", "c1"⟩), ("s2", ⟨"Bryn", "c2"⟩), ("s5", ⟨"Anonymous", "c1"⟩)], some "c1", some "s5", [], none⟩)],
   [("s1", wD1), ("s2", wD2), ("s5", ⟨some "A", some "Anonymous", some "c1", ["A"]⟩)],
   ["s5", "s2", "s1"], 0⟩

/-- The emissions of the GM re-join step of `wStJ`. -/
def wOutJ : List Emit :=
  [("s5", Payload.sessionJoined "A" true
      [⟨"s1", "Gale", true, some "c1"⟩, ⟨"s2", "Bryn", false, some "c2"⟩,
       ⟨"s5", "Anonymous", true, some "c1"⟩] []),
   ("s1", Payload.userJoined
      [⟨"s1", "Gale", true, none⟩, ⟨"s2", "Bryn", false, none⟩,
       ⟨"s5", "Anonymous", true, none⟩]),
   ("s2", Payload.userJoined
      [⟨"s1", "Gale", true, none⟩, ⟨"s2", "Bryn", false, none⟩,
       ⟨"s5", "Anonymous", true, none⟩])]

/-- C1 witness: a new connection joining with the room's GM token `c1` is
re-attached as `gmConnectionId` without re-election. -/
theorem C1_gm_identity_persistence_witness :
    ∃ sess', alGet wStJ2.sessions "A" = some sess' ∧ sess'.gmSocketId = some "s5" :=
  (C1_gm_identity_persistence wStJ wStJ2
      (.joinSession "s5" (some "a") none (some "c1") "f") wOutJ "A" "c1" wSess
      (by decide) (by decide) (by decide) (by decide)).2.2.1
    "s5" (some "a") none (some "c1") "f" rfl (by decide) (by decide)

/-! ### GM reference invariant (claim C3) -/

theorem session_eq_of_fields (a b : Session) (h1 : a.users = b.users)
    (h2 : a.gmClientId = b.gmClientId) (h3 : a.gmSocketId = b.gmSocketId)
    (h4 : a.history = b.history) (h5 : a.cleanupTimer = b.cleanupTimer) : a = b := by
  cases a
  cases b
  congr

theorem joinFinalSession_spec (st : ServerState) (sid n : String)
    (nm cid : Option String) (f : String) :
    ((joinFinalSession st sid n nm cid f).users
        = alSet (getOrCreateSession st n).2.users sid
            ⟨joinSafeName nm, joinSafeClientId cid f⟩) ∧
    ((joinFinalSession st sid n nm cid f).gmClientId
        = match (getOrCreateSession st n).2.gmClientId with
          | none => some (joinSafeClientId cid f)
          | some c => some c) ∧
    ((joinFinalSession st sid n nm cid f).gmSocketId
        = if (match (getOrCreateSession st n).2.gmClientId with
              | none => some (joinSafeClientId cid f)
              | some c => some c)
             = some (joinSafeClientId cid f)
          then some sid else (getOrCreateSession st n).2.gmSocketId) := by
  refine ⟨?_, ?_, ?_⟩ <;>
    · simp only [joinFinalSession]
      split_ifs <;> rfl

theorem getOrCreate_snd_of_none (st : ServerState) (n : String)
    (h : alGet st.sessions n = none) :
    (getOrCreateSession st n).2 = ⟨[], none, none, [], none⟩ := by
  simp [getOrCreateSession, h]

/-- Detailed per-event shape of the sessions map after one step. -/
theorem step_sessions_detail (st st' : ServerState) (e : Event) (out : List Emit)
    (hstep : stepFn st e = some (st', out)) :
    (st'.sessions = st.sessions) ∨
    (∃ r0 sess0 hist1, alGet st.sessions r0 = some sess0 ∧
       st'.sessions = alSet st.sessions r0 { sess0 with history := hist1 }) ∨
    (∃ r0 sess0 t1, alGet st.sessions r0 = some sess0 ∧
       st'.sessions = alSet st.sessions r0 { sess0 with cleanupTimer := t1 }) ∨
    (∃ r0, e = Event.timerFire r0 ∧ st'.sessions = alErase st.sessions r0) ∨
    (∃ sid r0 sess0 t1 d, e = Event.leaveSession sid ∧
       alGet st.sessions r0 = some sess0 ∧ alGet st.socks sid = some d ∧
       d.sessionId = some r0 ∧
       st'.sessions = alSet st.sessions r0 { sess0 with users := alErase sess0.users sid, cleanupTimer := t1 }) ∨
    (∃ sid r0 sess0 t1, e = Event.disconnect sid ∧
       alGet st.sessions r0 = some sess0 ∧
       ((sess0.gmSocketId = some sid ∧
          st'.sessions = alSet st.sessions r0 { sess0 with users := alErase sess0.users sid, gmSocketId := none, cleanupTimer := t1 }) ∨
        (sess0.gmSocketId ≠ some sid ∧
          st'.sessions = alSet st.sessions r0 { sess0 with users := alErase sess0.users sid, cleanupTimer := t1 }))) ∨
    (∃ sid rRaw nm cid f n, e = Event.joinSession sid rRaw nm cid f ∧
       joinNormalized rRaw = some n ∧
       st'.sessions = alSet (getOrCreateSession st n).1.sessions n
         (joinFinalSession st sid n nm cid f)) := by
  cases e with
  | connect sid =>
      simp only [stepFn] at hstep
      split_ifs at hstep
      rw [Option.some.injEq] at hstep
      exact Or.inl (congrArg (fun p => p.1.sessions) hstep).symm
  | joinSession sid rRaw nm cid f =>
      simp only [stepFn] at hstep
      rcases hd0 : alGet st.socks sid with _ | d0
      · simp only [hd0] at hstep
        exact (nomatch hstep)
      · simp only [hd0, Option.some.injEq] at hstep
        have hss : st'.sessions = (joinStep st sid d0 rRaw nm cid f).1.sessions :=
          (congrArg (fun p => p.1.sessions) hstep).symm
        rcases hn : joinNormalized rRaw with _ | n
        · left
          rw [hss]
          simp [joinStep, hn]
        · iterate 6 right
          refine ⟨sid, rRaw, nm, cid, f, n, rfl, hn, ?_⟩
          rw [hss]
          simp [joinStep, hn]
  | refreshSession sid =>
      simp only [stepFn] at hstep
      rcases hd0 : alGet st.socks sid with _ | d0
      · simp only [hd0] at hstep
        exact (nomatch hstep)
      · simp only [hd0] at hstep
        rcases hr0 : d0.sessionId with _ | r0
        · simp only [hr0, Option.some.injEq] at hstep
          exact Or.inl (congrArg (fun p => p.1.sessions) hstep).symm
        · simp only [hr0] at hstep
          rcases h0 : alGet st.sessions r0 with _ | sess0 <;>
            simp only [h0, Option.some.injEq] at hstep <;>
            exact Or.inl (congrArg (fun p => p.1.sessions) hstep).symm
  | rollDice sid numDice numGilded hidden rand rid ts =>
      simp only [stepFn] at hstep
      rcases hd0 : alGet st.socks sid with _ | d0
      · simp only [hd0] at hstep
        exact (nomatch hstep)
      · simp only [hd0] at hstep
        rcases hr0 : d0.sessionId with _ | r0
        · simp only [hr0, Option.some.injEq] at hstep
          exact Or.inl (congrArg (fun p => p.1.sessions) hstep).symm
        · simp only [hr0] at hstep
          rcases h0 : alGet st.sessions r0 with _ | sess0
          · simp only [h0, Option.some.injEq] at hstep
            exact Or.inl (congrArg (fun p => p.1.sessions) hstep).symm
          · simp only [h0, Option.some.injEq] at hstep
            have hss : st'.sessions
                = (rollStep st sid d0 r0 sess0 numDice numGilded hidden rand rid ts).1.sessions :=
              (congrArg (fun p => p.1.sessions) hstep).symm
            right; left
            refine ⟨r0, sess0,
              histPush sess0.history (mkRollRecord d0 r0 numDice numGilded hidden rand rid ts),
              h0, ?_⟩
            rw [hss, rollStep_fst]
            rfl
  | clearHistory sid =>
      simp only [stepFn] at hstep
      rcases hd0 : alGet st.socks sid with _ | d0
      · simp only [hd0] at hstep
        exact (nomatch hstep)
      · simp only [hd0] at hstep
        rcases hr0 : d0.sessionId with _ | r0
        · simp only [hr0, Option.some.injEq] at hstep
          exact Or.inl (congrArg (fun p => p.1.sessions) hstep).symm
        · simp only [hr0] at hstep
          rcases h0 : alGet st.sessions r0 with _ | sess0
          · simp only [h0, Option.some.injEq] at hstep
            exact Or.inl (congrArg (fun p => p.1.sessions) hstep).symm
          · simp only [h0] at hstep
            rcases hc0 : d0.clientId with _ | c0
            · simp only [hc0, Option.some.injEq] at hstep
              exact Or.inl (congrArg (fun p => p.1.sessions) hstep).symm
            · simp only [hc0] at hstep
              by_cases hc : sess0.gmClientId = some c0
              · rw [if_pos hc, Option.some.injEq] at hstep
                right; left
                exact ⟨r0, sess0, [], h0,
                  (congrArg (fun p => p.1.sessions) hstep).symm⟩
              · rw [if_neg hc, Option.some.injEq] at hstep
                exact Or.inl (congrArg (fun p => p.1.sessions) hstep).symm
  | leaveSession sid =>
      simp only [stepFn] at hstep
      rcases hd0 : alGet st.socks sid with _ | d0
      · simp only [hd0] at hstep
        exact (nomatch hstep)
      · simp only [hd0] at hstep
        rcases hr0 : d0.sessionId with _ | r0
        · simp only [hr0, Option.some.injEq] at hstep
          exact Or.inl (congrArg (fun p => p.1.sessions) hstep).symm
        · simp only [hr0] at hstep
          rcases h0 : alGet st.sessions r0 with _ | sess0
          · simp only [h0, Option.some.injEq] at hstep
            exact Or.inl (congrArg (fun p => p.1.sessions) hstep).symm
          · simp only [h0, Option.some.injEq] at hstep
            have hss : st'.sessions = (leaveStep st sid d0 r0 sess0).1.sessions :=
              (congrArg (fun p => p.1.sessions) hstep).symm
            have hshape := cleanup_sessions_shape
              { st with sessions := alSet st.sessions r0 { sess0 with users := alErase sess0.users sid }, socks := alSet st.socks sid { d0 with sessionId := none, rooms := d0.rooms.filter fun x => decide (x ≠ r0) } } r0
            iterate 4 right
            left
            rcases hshape with hsh | ⟨sessC, sess1, hl1, hsh, hu1, hg1, hsk1, hh1⟩
            · exact ⟨sid, r0, sess0, sess0.cleanupTimer, d0, rfl, h0, hd0, hr0,
                by rw [hss]; exact hsh⟩
            · have hl1' : sess1 = { sess0 with users := alErase sess0.users sid } := by
                rw [alGet_alSet, if_pos rfl, Option.some.injEq] at hl1
                exact hl1.symm
              subst hl1'
              refine ⟨sid, r0, sess0, sessC.cleanupTimer, d0, rfl, h0, hd0, hr0, ?_⟩
              rw [hss]
              have heq2 : (leaveStep st sid d0 r0 sess0).1.sessions
                  = alSet (alSet st.sessions r0 { sess0 with users := alErase sess0.users sid }) r0 sessC := hsh
              rw [heq2, alSet_alSet_same]
              congr 1
              exact session_eq_of_fields sessC { sess0 with users := alErase sess0.users sid, cleanupTimer := sessC.cleanupTimer } hu1 hg1 hsk1 hh1 rfl
  | disconnect sid =>
      simp only [stepFn] at hstep
      rcases hd0 : alGet st.socks sid with _ | d0
      · simp only [hd0] at hstep
        exact (nomatch hstep)
      · simp only [hd0] at hstep
        rcases hr0 : d0.sessionId with _ | r0
        · simp only [hr0, Option.some.injEq] at hstep
          exact Or.inl (congrArg (fun p => p.1.sessions) hstep).symm
        · simp only [hr0] at hstep
          rcases h0 : alGet st.sessions r0 with _ | sess0
          · simp only [h0, Option.some.injEq] at hstep
            exact Or.inl (congrArg (fun p => p.1.sessions) hstep).symm
          · simp only [h0, Option.some.injEq] at hstep
            have hss : st'.sessions
                = (disconnectStep { st with socks := alErase st.socks sid } sid r0 sess0).1.sessions :=
              (congrArg (fun p => p.1.sessions) hstep).symm
            simp only [disconnectStep] at hss
            by_cases hgm0 : sess0.gmSocketId = some sid
            · have hsd : (if ({ sess0 with users := alErase sess0.users sid } : Session).gmSocketId = some sid then { ({ sess0 with users := alErase sess0.users sid } : Session) with gmSocketId := none } else { sess0 with users := alErase sess0.users sid }) = { sess0 with users := alErase sess0.users sid, gmSocketId := none } := by
                rw [if_pos hgm0]
              rw [hsd] at hss
              have hshape := cleanup_sessions_shape
                { st with sessions := alSet st.sessions r0 { sess0 with users := alErase sess0.users sid, gmSocketId := none }, socks := alErase st.socks sid } r0
              iterate 5 right
              left
              rcases hshape with hsh | ⟨sessC, sess1, hl1, hsh, hu1, hg1, hsk1, hh1⟩
              · exact ⟨sid, r0, sess0, sess0.cleanupTimer, rfl, h0,
                  Or.inl ⟨hgm0, by rw [hss]; exact hsh⟩⟩
              · have hl1' : sess1 = { sess0 with users := alErase sess0.users sid, gmSocketId := none } := by
                  rw [alGet_alSet, if_pos rfl, Option.some.injEq] at hl1
                  exact hl1.symm
                subst hl1'
                refine ⟨sid, r0, sess0, sessC.cleanupTimer, rfl, h0, Or.inl ⟨hgm0, ?_⟩⟩
                rw [hss]
                have heq2 : (cleanupSessionIfEmpty { st with sessions := alSet st.sessions r0 { sess0 with users := alErase sess0.users sid, gmSocketId := none }, socks := alErase st.socks sid } r0).sessions
                    = alSet (alSet st.sessions r0 { sess0 with users := alErase sess0.users sid, gmSocketId := none }) r0 sessC := hsh
                rw [heq2, alSet_alSet_same]
                congr 1
                exact session_eq_of_fields sessC { sess0 with users := alErase sess0.users sid, gmSocketId := none, cleanupTimer := sessC.cleanupTimer } hu1 hg1 hsk1 hh1 rfl
            · have hsd : (if ({ sess0 with users := alErase sess0.users sid } : Session).gmSocketId = some sid then { ({ sess0 with users := alErase sess0.users sid } : Session) with gmSocketId := none } else { sess0 with users := alErase sess0.users sid }) = { sess0 with users := alErase sess0.users sid } := by
                rw [if_neg hgm0]
              rw [hsd] at hss
              have hshape := cleanup_sessions_shape
                { st with sessions := alSet st.sessions r0 { sess0 with users := alErase sess0.users sid }, socks := alErase st.socks sid } r0
              iterate 5 right
              left
              rcases hshape with hsh | ⟨sessC, sess1, hl1, hsh, hu1, hg1, hsk1, hh1⟩
              · exact ⟨sid, r0, sess0, sess0.cleanupTimer, rfl, h0,
                  Or.inr ⟨hgm0, by rw [hss]; exact hsh⟩⟩
              · have hl1' : sess1 = { sess0 with users := alErase sess0.users sid } := by
                  rw [alGet_alSet, if_pos rfl, Option.some.injEq] at hl1
                  exact hl1.symm
                subst hl1'
                refine ⟨sid, r0, sess0, sessC.cleanupTimer, rfl, h0, Or.inr ⟨hgm0, ?_⟩⟩
                rw [hss]
                have heq2 : (cleanupSessionIfEmpty { st with sessions := alSet st.sessions r0 { sess0 with users := alErase sess0.users sid }, socks := alErase st.socks sid } r0).sessions
                    = alSet (alSet st.sessions r0 { sess0 with users := alErase sess0.users sid }) r0 sessC := hsh
                rw [heq2, alSet_alSet_same]
                congr 1
                exact session_eq_of_fields sessC { sess0 with users := alErase sess0.users sid, cleanupTimer := sessC.cleanupTimer } hu1 hg1 hsk1 hh1 rfl
  | timerFire r0 =>
      simp only [stepFn] at hstep
      rcases h0 : alGet st.sessions r0 with _ | sess0
      · simp only [h0] at hstep
        exact (nomatch hstep)
      · simp only [h0] at hstep
        rcases ht0 : sess0.cleanupTimer with _ | t
        · simp only [ht0] at hstep
          exact (nomatch hstep)
        · simp only [ht0] at hstep
          split_ifs at hstep
          · rw [Option.some.injEq] at hstep
            iterate 3 right
            left
            exact ⟨r0, rfl, (congrArg (fun p => p.1.sessions) hstep).symm⟩
          · rw [Option.some.injEq] at hstep
            right; right; left
            exact ⟨r0, sess0, none, h0,
              (congrArg (fun p => p.1.sessions) hstep).symm⟩

/-- The room structural invariant of the spec: whenever `gmSocketId` is set,
it references a connection currently present in the room's participants map,
and that connection's recorded identity token equals `gmIdentityToken`. -/
def gmInv (st : ServerState) : Prop :=
  ∀ r sess g, alGet st.sessions r = some sess → sess.gmSocketId = some g →
    ∃ info, alGet sess.users g = some info ∧ sess.gmClientId = some info.clientId

/-- The state after Gale creates room `"A"` and then explicitly leaves it. -/
def wC3 : ServerState :=
  ⟨[("A", ⟨[], some "c1", some "s1", [], some 0⟩)],
   [("s1", ⟨none, some "Gale", some "c1", []⟩)], ["s1"], 1⟩

/-- The room of `wC3`: `gmSocketId` still set, participants empty. -/
def wC3sess : Session := ⟨[], some "c1", some "s1", [], some 0⟩

/-- C3 counterexample: the invariant is NOT preserved by `leaveSession`.  In
the reachable state after `connect s1; joinSession s1 "a" Gale c1; leave s1`,
the room still has `gmSocketId = some "s1"` although `"s1"` is no longer in
the participants map (the leave handler, unlike the disconnect handler, never
clears `gmSocketId`). -/
theorem C3_counterexample :
    run init [.connect "s1", .joinSession "s1" (some "a") (some "Gale") (some "c1") "f",
        .leaveSession "s1"] = some wC3 ∧
    alGet wC3.sessions "A" = some wC3sess ∧
    wC3sess.gmSocketId = some "s1" ∧
    alGet wC3sess.users "s1" = none ∧
    ¬ gmInv wC3 := by
  refine ⟨by decide, by decide, by decide, by decide, ?_⟩
  intro h
  obtain ⟨info, hinfo, -⟩ := h "A" wC3sess "s1" (by decide) (by decide)
  rw [show alGet wC3sess.users "s1" = none by decide] at hinfo
  exact (nomatch hinfo)

/-- C3 (amended): the invariant `gmInv` is preserved by connect, join,
refresh, roll, clearHistory, disconnect and timer expiry, and by a leave of a
non-GM connection; the exceptions forced by the code are an explicit leave by
the connection registered as `gmSocketId` (which leaves it dangling, see the
counterexample) and a re-join by that same connection under a different
identity token. -/
theorem C3_gm_reference_invariant (st st' : ServerState) (e : Event)
    (out : List Emit)
    (hWF : (st.sessions.map Prod.fst).Nodup)
    (hstep : stepFn st e = some (st', out))
    (hInv : gmInv st)
    (hNotGmLeave : ∀ sid d r sess, e = Event.leaveSession sid →
       alGet st.socks sid = some d → d.sessionId = some r →
       alGet st.sessions r = some sess → sess.gmSocketId ≠ some sid)
    (hNotGmRejoin : ∀ sid rRaw nm cid f r sess, e = Event.joinSession sid rRaw nm cid f →
       joinNormalized rRaw = some r → alGet st.sessions r = some sess →
       sess.gmSocketId = some sid →
       sess.gmClientId = none ∨ sess.gmClientId = some (joinSafeClientId cid f)) :
    gmInv st' := by
  intro r sess' g hl hg
  rcases step_sessions_detail st st' e out hstep with h1
    | ⟨r0, sess0, hist1, h0, hset⟩
    | ⟨r0, sess0, t1, h0, hset⟩
    | ⟨r0, he, hdel⟩
    | ⟨sid, r0, sess0, t1, d, he, h0, hd, hdr, hset⟩
    | ⟨sid, r0, sess0, t1, he, h0, hcases⟩
    | ⟨sid, rRaw, nm, cid, f, n, he, hn, hset⟩
  · rw [h1] at hl
    exact hInv r sess' g hl hg
  · rw [hset, alGet_alSet] at hl
    by_cases hr : r0 = r
    · rw [if_pos hr] at hl
      cases hl
      subst hr
      exact hInv r0 sess0 g h0 hg
    · rw [if_neg hr] at hl
      exact hInv r sess' g hl hg
  · rw [hset, alGet_alSet] at hl
    by_cases hr : r0 = r
    · rw [if_pos hr] at hl
      cases hl
      subst hr
      exact hInv r0 sess0 g h0 hg
    · rw [if_neg hr] at hl
      exact hInv r sess' g hl hg
  · rw [hdel] at hl
    by_cases hr : r0 = r
    · subst hr
      rw [alGet_alErase_self _ _ hWF] at hl
      cases hl
    · rw [alGet_alErase_ne _ _ _ hr] at hl
      exact hInv r sess' g hl hg
  · rw [hset, alGet_alSet] at hl
    by_cases hr : r0 = r
    · rw [if_pos hr] at hl
      cases hl
      subst hr
      have hgm0 : sess0.gmSocketId = some g := hg
      have hne : sess0.gmSocketId ≠ some sid := hNotGmLeave sid d r0 sess0 he hd hdr h0
      have hgsid : sid ≠ g := by
        intro hh
        subst hh
        exact hne hgm0
      obtain ⟨info, hinfo, hgc⟩ := hInv r0 sess0 g h0 hgm0
      refine ⟨info, ?_, hgc⟩
      show alGet (alErase sess0.users sid) g = some info
      rw [alGet_alErase_ne _ _ _ hgsid]
      exact hinfo
    · rw [if_neg hr] at hl
      exact hInv r sess' g hl hg
  · rcases hcases with ⟨hgm0, hset⟩ | ⟨hgm0, hset⟩
    · rw [hset, alGet_alSet] at hl
      by_cases hr : r0 = r
      · rw [if_pos hr] at hl
        cases hl
        exact (nomatch hg)
      · rw [if_neg hr] at hl
        exact hInv r sess' g hl hg
    · rw [hset, alGet_alSet] at hl
      by_cases hr : r0 = r
      · rw [if_pos hr] at hl
        cases hl
        subst hr
        have hgm0' : sess0.gmSocketId = some g := hg
        have hgsid : sid ≠ g := by
          intro hh
          subst hh
          exact hgm0 hgm0'
        obtain ⟨info, hinfo, hgc⟩ := hInv r0 sess0 g h0 hgm0'
        refine ⟨info, ?_, hgc⟩
        show alGet (alErase sess0.users sid) g = some info
        rw [alGet_alErase_ne _ _ _ hgsid]
        exact hinfo
      · rw [if_neg hr] at hl
        exact hInv r sess' g hl hg
  · rw [hset, alGet_alSet] at hl
    by_cases hr : n = r
    · rw [if_pos hr] at hl
      cases hl
      subst hr
      obtain ⟨hu, hgc, hgs⟩ := joinFinalSession_spec st sid n nm cid f
      rw [hgs] at hg
      by_cases hcond : (match (getOrCreateSession st n).2.gmClientId with
          | none => some (joinSafeClientId cid f)
          | some c => some c) = some (joinSafeClientId cid f)
      · rw [if_pos hcond] at hg
        cases hg
        refine ⟨⟨joinSafeName nm, joinSafeClientId cid f⟩, ?_, ?_⟩
        · rw [hu, alGet_alSet, if_pos rfl]
        · rw [hgc]
          exact hcond
      · rw [if_neg hcond] at hg
        rcases hpre : alGet st.sessions n with _ | sessPre
        · rw [getOrCreate_snd_of_none st n hpre] at hg
          exact (nomatch hg)
        · have hpre2 : (getOrCreateSession st n).2 = sessPre :=
            getOrCreate_snd_of_some st n sessPre hpre
          rw [hpre2] at hg
          obtain ⟨info, hinfo, hgc0⟩ := hInv n sessPre g hpre hg
          have hgsid : sid ≠ g := by
            intro hh
            subst hh
            rcases hNotGmRejoin sid rRaw nm cid f n sessPre he hn hpre hg with hnone | hsome
            · rw [hnone] at hgc0
              exact (nomatch hgc0)
            · apply hcond
              rw [hpre2, hsome]
          refine ⟨info, ?_, ?_⟩
          · rw [hu, hpre2, alGet_alSet, if_neg hgsid]
            exact hinfo
          · rw [hgc, hpre2, hgc0]
    · rw [if_neg hr, getOrCreate_fst_sessions, if_neg hr] at hl
      exact hInv r sess' g hl hg

theorem gmInv_wSt : gmInv wSt := by
  intro r sess g hl hg
  simp only [wSt, alGet] at hl
  split_ifs at hl
  cases hl
  simp only [wSess] at hg
  cases hg
  exact ⟨⟨"Gale", "c1"⟩, by decide, by decide⟩

/-- `wSt` after the GM's socket `"s1"` disconnects: `gmSocketId` cleared. -/
def wStDisc : ServerState :=
  ⟨[("A", ⟨[("s2", ⟨"Bryn", "c2"⟩)], some "c1", none, [], none⟩)],
   [("s2", wD2)], ["s2", "s1"], 0⟩

/-- C3 witness: the amended invariant carried across the GM's disconnect in
the concrete two-member room. -/
theorem C3_gm_reference_invariant_witness : gmInv wStDisc :=
  C3_gm_reference_invariant wSt wStDisc (.disconnect "s1")
    [("s2", Payload.userLeft [⟨"s2", "Bryn", false, none⟩])]
    (by decide) (by decide) gmInv_wSt
    (fun _ _ _ _ heq => (nomatch heq))
    (fun _ _ _ _ _ _ _ heq => (nomatch heq))


/-! ### C8: presence broadcast audience split -/

theorem alGet_isSome_of_mem_keys {α : Type} (l : List (String × α)) (k : String)
    (h : k ∈ l.map Prod.fst) : (alGet l k).isSome = true := by
  induction l with
  | nil => simp at h
  | cons p t ih =>
      obtain ⟨k0, v0⟩ := p
      by_cases h0 : k0 = k
      · simp [alGet, h0]
      · simp only [List.map_cons, List.mem_cons] at h
        rcases h with h | h
        · exact absurd h.symm h0
        · simp [alGet, h0, ih h]

theorem roomMembers_isSome (st : ServerState) (r c : String)
    (h : c ∈ roomMembers st r) : (alGet st.socks c).isSome = true := by
  apply alGet_isSome_of_mem_keys
  simp only [roomMembers, List.mem_map] at h
  rcases h with ⟨p, hp, rfl⟩
  exact List.mem_map.2 ⟨p, List.mem_of_mem_filter hp, rfl⟩

/-- `cleanupSessionIfEmpty` touches only the sessions map and the timer
counter; the socket table (and hence room membership) is unchanged. -/
theorem cleanup_socks (st : ServerState) (r : String) :
    (cleanupSessionIfEmpty st r).socks = st.socks := by
  cases h : alGet st.sessions r with
  | none => simp [cleanupSessionIfEmpty, h]
  | some sess =>
      simp only [cleanupSessionIfEmpty, h]
      split_ifs <;> rfl

/-- Spec-side (C8): the GM's live connection for a presence broadcast — the
room's `gmSocketId` when that socket is registered in the room's participants
map and still connected on the transport; `none` otherwise. -/
def specGmTarget (st : ServerState) (sess : Session) : Option String :=
  match sess.gmSocketId with
  | some g =>
      if (alGet sess.users g).isSome && (alGet st.socks g).isSome then some g
      else none
  | none => none

/-- Spec-side (C8): `c` receives the token-free public presence update — it
is in the room, is not the acting connection, and is not the GM's live
connection. -/
def specPubRecipient (st : ServerState) (sess : Session) (r actor c : String) :
    Prop :=
  c ∈ roomMembers st r ∧ c ≠ actor ∧ specGmTarget st sess ≠ some c

/-- Spec-side (C8): `c` receives the GM-enriched presence update — it is the
GM's live connection and is distinct from the acting connection. -/
def specGmRecipient (st : ServerState) (sess : Session) (actor c : String) :
    Prop :=
  specGmTarget st sess = some c ∧ c ≠ actor

theorem specGmTarget_eq_some (st : ServerState) (sess : Session) (c : String) :
    specGmTarget st sess = some c ↔
      sess.gmSocketId = some c ∧ (alGet sess.users c).isSome = true ∧
        (alGet st.socks c).isSome = true := by
  cases hg : sess.gmSocketId with
  | none => simp [specGmTarget, hg]
  | some g =>
      simp only [specGmTarget, hg, Option.some.injEq]
      by_cases hc : ((alGet sess.users g).isSome && (alGet st.socks g).isSome) = true
      · rw [if_pos hc]
        rw [Bool.and_eq_true] at hc
        obtain ⟨hu, hs⟩ := hc
        simp only [Option.some.injEq]
        constructor
        · rintro rfl; exact ⟨rfl, hu, hs⟩
        · rintro ⟨rfl, -, -⟩; rfl
      · rw [if_neg hc]
        constructor
        · intro h; exact (nomatch h)
        · rintro ⟨rfl, hu, hs⟩
          refine absurd ?_ hc
          rw [Bool.and_eq_true]
          exact ⟨hu, hs⟩

theorem gmConnectedB_eq (sess : Session) (g : String)
    (hg : sess.gmSocketId = some g) :
    gmConnectedB sess = (alGet sess.users g).isSome := by
  simp only [gmConnectedB, hg]

theorem presence_spec_socks_eq (stA stB : ServerState) (h : stA.socks = stB.socks)
    (sess : Session) (r sid c : String) (pv gv v : List UserEntry) :
    ((v = pv ∧ specPubRecipient stA sess r sid c) ∨
      (v = gv ∧ specGmRecipient stA sess sid c)) ↔
    ((v = pv ∧ specPubRecipient stB sess r sid c) ∨
      (v = gv ∧ specGmRecipient stB sess sid c)) := by
  simp only [specPubRecipient, specGmRecipient, specGmTarget, roomMembers, h]

/-- Membership characterization of the presence emit lists all three
membership-change handlers build (server.js lines 156-170, 281-295, 312-326):
the public broadcast reaches exactly the room members other than the actor
and the GM's live connection, and the enriched view reaches exactly the GM's
live connection when distinct from the actor. -/
theorem presence_emits_mem (stE : ServerState) (sess : Session) (r sid : String)
    (mk : List UserEntry → Payload)
    (hinj : ∀ a b, mk a = mk b → a = b)
    (c : String) (v : List UserEntry) :
    ((c, mk v) ∈
      ((((roomMembers stE r).filter fun x =>
            decide (x ≠ sid) &&
              !(gmConnectedB sess && decide (sess.gmSocketId = some x))).map
          fun x => (x, mk (buildUsersPayload sess false))) ++
        (match sess.gmSocketId with
          | some g =>
              if gmConnectedB sess && decide (g ≠ sid) &&
                  (alGet stE.socks g).isSome then
                [(g, mk (buildUsersPayload sess true))]
              else []
          | none => []))) ↔
      ((v = buildUsersPayload sess false ∧ specPubRecipient stE sess r sid c) ∨
        (v = buildUsersPayload sess true ∧ specGmRecipient stE sess sid c)) := by
  simp only [specPubRecipient, specGmRecipient]
  rw [List.mem_append]
  constructor
  · rintro (hp | hgm)
    · rcases List.mem_map.1 hp with ⟨x, hxmem, hxeq⟩
      rw [Prod.mk.injEq] at hxeq
      obtain ⟨rfl, hpv⟩ := hxeq
      have hv : v = buildUsersPayload sess false := (hinj _ _ hpv).symm
      rcases List.mem_filter.1 hxmem with ⟨hmem, hcond⟩
      rw [Bool.and_eq_true] at hcond
      obtain ⟨h1, h2⟩ := hcond
      have h2' : (gmConnectedB sess && decide (sess.gmSocketId = some x)) = false := by
        cases hx : (gmConnectedB sess && decide (sess.gmSocketId = some x)) with
        | false => rfl
        | true => rw [hx] at h2; exact absurd h2 (by decide)
      left
      refine ⟨hv, hmem, of_decide_eq_true h1, ?_⟩
      intro hgt
      rw [specGmTarget_eq_some] at hgt
      obtain ⟨hg1, hg2, _⟩ := hgt
      rw [gmConnectedB_eq sess x hg1, hg2, decide_eq_true hg1] at h2'
      exact absurd h2' (by decide)
    · cases hgs : sess.gmSocketId with
      | none =>
          simp only [hgs] at hgm
          exact absurd hgm (List.not_mem_nil _)
      | some g =>
          simp only [hgs] at hgm
          by_cases hcnd : (gmConnectedB sess && decide (g ≠ sid) &&
              (alGet stE.socks g).isSome) = true
          · rw [if_pos hcnd] at hgm
            have heq := List.mem_singleton.1 hgm
            rw [Prod.mk.injEq] at heq
            obtain ⟨rfl, hmv⟩ := heq
            rw [Bool.and_eq_true, Bool.and_eq_true] at hcnd
            obtain ⟨⟨hA, hB⟩, h3⟩ := hcnd
            right
            refine ⟨hinj _ _ hmv, ?_, of_decide_eq_true hB⟩
            rw [specGmTarget_eq_some]
            refine ⟨hgs, ?_, h3⟩
            rw [← gmConnectedB_eq sess c hgs]
            exact hA
          · rw [if_neg hcnd] at hgm
            exact absurd hgm (List.not_mem_nil _)
  · rintro (⟨rfl, hmem, hsid2, hngt⟩ | ⟨rfl, hgt, hsid2⟩)
    · left
      apply List.mem_map.2
      refine ⟨c, List.mem_filter.2 ⟨hmem, ?_⟩, rfl⟩
      rw [Bool.and_eq_true]
      refine ⟨decide_eq_true hsid2, ?_⟩
      cases hA : gmConnectedB sess with
      | false => rfl
      | true =>
          have : decide (sess.gmSocketId = some c) = false := by
            rw [decide_eq_false_iff_not]
            intro hgc
            apply hngt
            rw [specGmTarget_eq_some]
            refine ⟨hgc, ?_, roomMembers_isSome stE r c hmem⟩
            rw [← gmConnectedB_eq sess c hgc]
            exact hA
          rw [this]
          rfl
    · right
      rw [specGmTarget_eq_some] at hgt
      obtain ⟨hg1, hg2, hg3⟩ := hgt
      simp only [hg1]
      have hcnd : (gmConnectedB sess && decide (c ≠ sid) &&
          (alGet stE.socks c).isSome) = true := by
        rw [Bool.and_eq_true, Bool.and_eq_true]
        refine ⟨⟨?_, decide_eq_true hsid2⟩, hg3⟩
        rw [gmConnectedB_eq sess c hg1]
        exact hg2
      rw [if_pos hcnd]
      exact List.mem_singleton.2 rfl

/-- Variant of `presence_emits_mem` for the disconnect handler, whose GM-emit
guard omits the `gmSocketId !== socket.id` conjunct (server.js line 322); the
conjunct is recovered from the hypothesis that the GM reference cannot be the
disconnecting socket (the handler clears it beforehand, lines 308-310). -/
theorem presence_emits_mem_noact (stE : ServerState) (sess : Session)
    (r sid : String) (mk : List UserEntry → Payload)
    (hinj : ∀ a b, mk a = mk b → a = b)
    (hne : ∀ g, sess.gmSocketId = some g → g ≠ sid)
    (c : String) (v : List UserEntry) :
    ((c, mk v) ∈
      ((((roomMembers stE r).filter fun x =>
            decide (x ≠ sid) &&
              !(gmConnectedB sess && decide (sess.gmSocketId = some x))).map
          fun x => (x, mk (buildUsersPayload sess false))) ++
        (match sess.gmSocketId with
          | some g =>
              if gmConnectedB sess && (alGet stE.socks g).isSome then
                [(g, mk (buildUsersPayload sess true))]
              else []
          | none => []))) ↔
      ((v = buildUsersPayload sess false ∧ specPubRecipient stE sess r sid c) ∨
        (v = buildUsersPayload sess true ∧ specGmRecipient stE sess sid c)) := by
  have hmatch :
      (match sess.gmSocketId with
        | some g =>
            if gmConnectedB sess && (alGet stE.socks g).isSome then
              [(g, mk (buildUsersPayload sess true))]
            else []
        | none => ([] : List Emit)) =
      (match sess.gmSocketId with
        | some g =>
            if gmConnectedB sess && decide (g ≠ sid) &&
                (alGet stE.socks g).isSome then
              [(g, mk (buildUsersPayload sess true))]
            else []
        | none => ([] : List Emit)) := by
    cases hgs : sess.gmSocketId with
    | none => rfl
    | some g =>
        have hg := hne g hgs
        simp [decide_eq_true hg]
  rw [hmatch]
  exact presence_emits_mem stE sess r sid mk hinj c v


/-- C8: presence broadcast audience split — on every membership change (join,
leave, disconnect) the handler sends the token-free public participants view
to exactly the room members other than the acting connection and other than
the GM's live connection; the GM's live connection, when distinct from the
actor, instead receives the token-enriched view; the public view carries no
identity tokens; and the same audience rule (`specPubRecipient` /
`specGmRecipient`) characterizes all three handlers. -/
theorem C8_presence_broadcast :
    (∀ st sid d rRaw nm cid f r st' out,
      alGet st.socks sid = some d →
      joinNormalized rRaw = some r →
      stepFn st (.joinSession sid rRaw nm cid f) = some (st', out) →
      (∀ u ∈ buildUsersPayload (joinFinalSession st sid r nm cid f) false,
          u.clientId = none) ∧
      (∀ c v, (c, Payload.userJoined v) ∈ out ↔
        ((v = buildUsersPayload (joinFinalSession st sid r nm cid f) false ∧
            specPubRecipient st' (joinFinalSession st sid r nm cid f) r sid c) ∨
          (v = buildUsersPayload (joinFinalSession st sid r nm cid f) true ∧
            specGmRecipient st' (joinFinalSession st sid r nm cid f) sid c)))) ∧
    (∀ st sid d r sess st' out,
      alGet st.socks sid = some d →
      d.sessionId = some r →
      alGet st.sessions r = some sess →
      stepFn st (.leaveSession sid) = some (st', out) →
      (∀ u ∈ buildUsersPayload { sess with users := alErase sess.users sid } false,
          u.clientId = none) ∧
      (∀ c v, (c, Payload.userLeft v) ∈ out ↔
        ((v = buildUsersPayload { sess with users := alErase sess.users sid } false ∧
            specPubRecipient st' { sess with users := alErase sess.users sid } r sid c) ∨
          (v = buildUsersPayload { sess with users := alErase sess.users sid } true ∧
            specGmRecipient st' { sess with users := alErase sess.users sid } sid c)))) ∧
    (∀ st sid d r sess st' out,
      alGet st.socks sid = some d →
      d.sessionId = some r →
      alGet st.sessions r = some sess →
      stepFn st (.disconnect sid) = some (st', out) →
      (∀ u ∈ buildUsersPayload
          (if sess.gmSocketId = some sid then
            { sess with users := alErase sess.users sid, gmSocketId := none }
          else { sess with users := alErase sess.users sid }) false,
          u.clientId = none) ∧
      (∀ c v, (c, Payload.userLeft v) ∈ out ↔
        ((v = buildUsersPayload
              (if sess.gmSocketId = some sid then
                { sess with users := alErase sess.users sid, gmSocketId := none }
              else { sess with users := alErase sess.users sid }) false ∧
            specPubRecipient st'
              (if sess.gmSocketId = some sid then
                { sess with users := alErase sess.users sid, gmSocketId := none }
              else { sess with users := alErase sess.users sid }) r sid c) ∨
          (v = buildUsersPayload
              (if sess.gmSocketId = some sid then
                { sess with users := alErase sess.users sid, gmSocketId := none }
              else { sess with users := alErase sess.users sid }) true ∧
            specGmRecipient st'
              (if sess.gmSocketId = some sid then
                { sess with users := alErase sess.users sid, gmSocketId := none }
              else { sess with users := alErase sess.users sid }) sid c)))) := by
  refine ⟨?_, ?_, ?_⟩
  · intro st sid d rRaw nm cid f r st' out hd hnorm hstep
    simp only [stepFn, hd] at hstep
    rw [Option.some.injEq] at hstep
    have hst : st' = (joinStep st sid d rRaw nm cid f).1 :=
      (congrArg Prod.fst hstep).symm
    have hout : out = (joinStep st sid d rRaw nm cid f).2 :=
      (congrArg Prod.snd hstep).symm
    subst hst
    subst hout
    refine ⟨buildUsersPayload_false_clientId _, ?_⟩
    intro c v
    simp only [joinStep, hnorm]
    constructor
    · intro hmem
      rcases List.mem_cons.1 hmem with heq | hmem2
      · exact absurd heq (by simp)
      · exact (presence_emits_mem _ _ r sid Payload.userJoined
          (fun a b h => by injection h) c v).1 hmem2
    · intro h
      exact List.mem_cons_of_mem _ ((presence_emits_mem _ _ r sid Payload.userJoined
        (fun a b h2 => by injection h2) c v).2 h)
  · intro st sid d r sess st' out hd hsid hsess hstep
    simp only [stepFn, hd, hsid, hsess] at hstep
    rw [Option.some.injEq] at hstep
    have hst : st' = (leaveStep st sid d r sess).1 := (congrArg Prod.fst hstep).symm
    have hout : out = (leaveStep st sid d r sess).2 := (congrArg Prod.snd hstep).symm
    subst hst
    subst hout
    refine ⟨buildUsersPayload_false_clientId _, ?_⟩
    intro c v
    simp only [leaveStep]
    refine (presence_emits_mem _ _ r sid Payload.userLeft
      (fun a b h => by injection h) c v).trans ?_
    exact presence_spec_socks_eq _ _ (cleanup_socks _ r).symm _ r sid c _ _ v
  · intro st sid d r sess st' out hd hsid hsess hstep
    simp only [stepFn, hd, hsid, hsess] at hstep
    rw [Option.some.injEq] at hstep
    have hst : st' = (disconnectStep { st with socks := alErase st.socks sid } sid r sess).1 :=
      (congrArg Prod.fst hstep).symm
    have hout : out = (disconnectStep { st with socks := alErase st.socks sid } sid r sess).2 :=
      (congrArg Prod.snd hstep).symm
    subst hst
    subst hout
    by_cases hgm : sess.gmSocketId = some sid
    · rw [if_pos hgm]
      refine ⟨buildUsersPayload_false_clientId _, ?_⟩
      intro c v
      simp only [disconnectStep]
      rw [if_pos hgm]
      refine (presence_emits_mem_noact _ _ r sid Payload.userLeft
        (fun a b h => by injection h) ?_ c v).trans ?_
      · intro g hg
        simp at hg
      · exact presence_spec_socks_eq _ _ (cleanup_socks _ r).symm _ r sid c _ _ v
    · rw [if_neg hgm]
      refine ⟨buildUsersPayload_false_clientId _, ?_⟩
      intro c v
      simp only [disconnectStep]
      rw [if_neg hgm]
      refine (presence_emits_mem_noact _ _ r sid Payload.userLeft
        (fun a b h => by injection h) ?_ c v).trans ?_
      · intro g hg heq
        exact hgm (heq ▸ hg)
      · exact presence_spec_socks_eq _ _ (cleanup_socks _ r).symm _ r sid c _ _ v

/-- Witness state after Bryn (`"s2"`) leaves room `"A"`: her user entry is
removed and her socket detaches from the room, while the GM stays. -/
def wStL : ServerState :=
  ⟨[("A", ⟨[("s1", ⟨"Gale", "c1"⟩)], some "c1", some "s1", [], none⟩)],
   [("s1", wD1), ("s2", ⟨none, some "Bryn", some "c2", []⟩)], ["s2", "s1"], 0⟩

/-- C8 witness: when Bryn leaves the two-member witness room, the single
emitted presence update is the token-enriched view delivered to the GM's
live connection `"s1"`. -/
theorem C8_presence_broadcast_witness :
    ("s1", Payload.userLeft [⟨"s1", "Gale", true, some "c1"⟩]) ∈
        [("s1", Payload.userLeft [⟨"s1", "Gale", true, some "c1"⟩])] ↔
      (([⟨"s1", "Gale", true, some "c1"⟩]
            = buildUsersPayload { wSess with users := alErase wSess.users "s2" } false ∧
          specPubRecipient wStL { wSess with users := alErase wSess.users "s2" } "A" "s2" "s1") ∨
        ([⟨"s1", "Gale", true, some "c1"⟩]
            = buildUsersPayload { wSess with users := alErase wSess.users "s2" } true ∧
          specGmRecipient wStL { wSess with users := alErase wSess.users "s2" } "s2" "s1")) :=
  (C8_presence_broadcast.2.1 wSt "s2" wD2 "A" wSess wStL
      [("s1", Payload.userLeft [⟨"s1", "Gale", true, some "c1"⟩])]
      (by decide) (by decide) (by decide) (by decide)).2 "s1"
      [⟨"s1", "Gale", true, some "c1"⟩]

/-! ### C2: hidden-roll confidentiality -/

/-- The socket id of a `joinSession` event, `none` for every other event. -/
def evJoinSid : Event → Option String
  | .joinSession sid _ _ _ _ => some sid
  | _ => none

/-- The socket ids that issued a `joinSession` along a trace. -/
def joinSids (tr : List Event) : List String := tr.filterMap evJoinSid

/-- Spec-side (C2 amendment): every connection joins at most once along the
trace.  A rejoining socket overwrites its stored identity token while a stale
`gmSocketId` reference to it survives, which is what the counterexample
exploits. -/
def SingleJoin (tr : List Event) : Prop := (joinSids tr).Nodup

/-- Structural well-formedness of a server state: session keys are unique,
socket keys are unique, and every connected socket id has been used. -/
def StWF (st : ServerState) : Prop :=
  (st.sessions.map Prod.fst).Nodup ∧ (st.socks.map Prod.fst).Nodup ∧
    ∀ k ∈ st.socks.map Prod.fst, k ∈ st.usedSids

/-- The rolls a payload carries: a live roll result, or the history inside a
join acknowledgement or a refresh snapshot. -/
def rollsOf : Payload → List Roll
  | .diceRolled roll => [roll]
  | .sessionJoined _ _ _ hist => hist
  | .sessionState _ _ _ hist => hist
  | _ => []

/-- The confidentiality invariant along a trace: a set `gmSocketId` refers to
a socket that joined and whose stored token is the room\'s GM token; history
rolls are keyed to their room; joined socket ids have been used. -/
def C2Inv (tr : List Event) (st : ServerState) : Prop :=
  (∀ r sess g, alGet st.sessions r = some sess → sess.gmSocketId = some g →
    g ∈ joinSids tr ∧ sess.gmClientId ≠ none ∧
      ∀ d, alGet st.socks g = some d → d.clientId = sess.gmClientId) ∧
  (∀ r sess, alGet st.sessions r = some sess →
    ∀ roll ∈ sess.history, roll.sessionId = r) ∧
  (∀ k ∈ joinSids tr, k ∈ st.usedSids)

theorem joinSids_append (l1 l2 : List Event) :
    joinSids (l1 ++ l2) = joinSids l1 ++ joinSids l2 := by
  simp [joinSids]

theorem mem_keys_of_alGet_eq_some {α : Type} (l : List (String × α)) (k : String)
    (v : α) (h : alGet l k = some v) : k ∈ l.map Prod.fst := by
  by_contra hk
  rw [alGet_eq_none_of_not_mem l k hk] at h
  exact (nomatch h)

theorem cleanup_usedSids (st : ServerState) (r : String) :
    (cleanupSessionIfEmpty st r).usedSids = st.usedSids := by
  cases h : alGet st.sessions r with
  | none => simp [cleanupSessionIfEmpty, h]
  | some sess =>
      simp only [cleanupSessionIfEmpty, h]
      split_ifs <;> rfl

theorem mem_histPush (h : List Roll) (roll roll2 : Roll)
    (hm : roll2 ∈ histPush h roll) : roll2 ∈ h ∨ roll2 = roll := by
  have hmem : roll2 ∈ h ++ [roll] := by
    simp only [histPush] at hm
    split_ifs at hm with hl
    · exact List.drop_subset _ _ hm
    · exact hm
  rcases List.mem_append.1 hmem with h1 | h2
  · exact Or.inl h1
  · exact Or.inr (List.mem_singleton.1 h2)

theorem joinFinalSession_history (st : ServerState) (sid n : String)
    (nm cid : Option String) (f : String) :
    (joinFinalSession st sid n nm cid f).history
      = (getOrCreateSession st n).2.history := by
  simp only [joinFinalSession]
  split <;> rfl

theorem joinStep_fst_none (st : ServerState) (sid : String) (d : SockData)
    (rRaw nm cid : Option String) (f : String)
    (hn : joinNormalized rRaw = none) :
    (joinStep st sid d rRaw nm cid f).1 = st := by
  simp [joinStep, hn]

theorem joinStep_fst (st : ServerState) (sid : String) (d : SockData)
    (rRaw nm cid : Option String) (f n : String)
    (hn : joinNormalized rRaw = some n) :
    (joinStep st sid d rRaw nm cid f).1
      = { st with
          sessions := alSet st.sessions n (joinFinalSession st sid n nm cid f),
          socks := alSet st.socks sid
            ⟨some n, some (joinSafeName nm), some (joinSafeClientId cid f),
             if n ∈ d.rooms then d.rooms else d.rooms ++ [n]⟩ } := by
  simp only [joinStep, hn]
  cases hx : alGet st.sessions n with
  | some s0 => simp [getOrCreateSession, hx]
  | none => simp [getOrCreateSession, hx, alSet_alSet_same]

theorem leaveStep_fst (st : ServerState) (sid : String) (d : SockData)
    (r : String) (sess : Session) :
    (leaveStep st sid d r sess).1 = cleanupSessionIfEmpty
      { st with
          sessions := alSet st.sessions r { sess with users := alErase sess.users sid },
          socks := alSet st.socks sid { d with sessionId := none, rooms := d.rooms.filter fun x => decide (x ≠ r) } } r :=
  rfl

theorem disconnectStep_fst (st0 : ServerState) (sid r : String) (sess : Session) :
    (disconnectStep st0 sid r sess).1 = cleanupSessionIfEmpty
      { st0 with sessions := alSet st0.sessions r (if ({ sess with users := alErase sess.users sid } : Session).gmSocketId = some sid then { ({ sess with users := alErase sess.users sid } : Session) with gmSocketId := none } else { sess with users := alErase sess.users sid }) } r :=
  rfl

theorem rollStep_snd_false (st : ServerState) (sid : String) (d : SockData)
    (r : String) (sess : Session) (numDice numGilded : Option ℚ)
    (rand : Nat → ℚ) (rid ts : String) :
    (rollStep st sid d r sess numDice numGilded false rand rid ts).2
      = (roomMembers { st with sessions := alSet st.sessions r (histUpdated sess (mkRollRecord d r numDice numGilded false rand rid ts)) } r).map
          fun c => (c, Payload.diceRolled
            (mkRollRecord d r numDice numGilded false rand rid ts)) := by
  simp [rollStep, mkRollRecord, histUpdated]

theorem joinStep_snd_shape (st : ServerState) (sid : String) (d : SockData)
    (rRaw nm cid : Option String) (f n : String)
    (hn : joinNormalized rRaw = some n) :
    ∀ c p, (c, p) ∈ (joinStep st sid d rRaw nm cid f).2 →
      (c = sid ∧ p = Payload.sessionJoined n
          (decide ((joinFinalSession st sid n nm cid f).gmClientId
            = some (joinSafeClientId cid f)))
          (buildUsersPayload (joinFinalSession st sid n nm cid f)
            (decide ((joinFinalSession st sid n nm cid f).gmClientId
              = some (joinSafeClientId cid f))))
          (buildHistoryForClient (joinFinalSession st sid n nm cid f)
            (some (joinSafeClientId cid f)))) ∨
      (∃ u, p = Payload.userJoined u) := by
  intro c p hcp
  simp only [joinStep, hn] at hcp
  rcases List.mem_cons.1 hcp with h | h
  · rw [Prod.mk.injEq] at h
    exact Or.inl ⟨h.1, h.2⟩
  · right
    rcases List.mem_append.1 h with h | h
    · rcases List.mem_map.1 h with ⟨x, -, hxe⟩
      rw [Prod.mk.injEq] at hxe
      exact ⟨_, hxe.2.symm⟩
    · cases hgs : (joinFinalSession st sid n nm cid f).gmSocketId with
      | none =>
          simp only [hgs] at h
          exact absurd h (List.not_mem_nil _)
      | some g =>
          simp only [hgs] at h
          split_ifs at h <;>
            first
            | (have h2 := List.mem_singleton.1 h
               rw [Prod.mk.injEq] at h2
               exact ⟨_, h2.2⟩)
            | exact absurd h (List.not_mem_nil _)

theorem leaveStep_snd_shape (st : ServerState) (sid : String) (d : SockData)
    (r : String) (sess : Session) :
    ∀ c p, (c, p) ∈ (leaveStep st sid d r sess).2 →
      ∃ u, p = Payload.userLeft u := by
  intro c p hcp
  simp only [leaveStep] at hcp
  rcases List.mem_append.1 hcp with h | h
  · rcases List.mem_map.1 h with ⟨x, -, hxe⟩
    rw [Prod.mk.injEq] at hxe
    exact ⟨_, hxe.2.symm⟩
  · cases hgs : sess.gmSocketId with
    | none =>
        simp only [hgs] at h
        exact absurd h (List.not_mem_nil _)
    | some g =>
        simp only [hgs] at h
        split_ifs at h
        · have h2 := List.mem_singleton.1 h
          rw [Prod.mk.injEq] at h2
          exact ⟨_, h2.2⟩
        · exact absurd h (List.not_mem_nil _)

theorem disconnectStep_snd_shape (st0 : ServerState) (sid r : String)
    (sess : Session) :
    ∀ c p, (c, p) ∈ (disconnectStep st0 sid r sess).2 →
      ∃ u, p = Payload.userLeft u := by
  intro c p hcp
  simp only [disconnectStep] at hcp
  rcases List.mem_append.1 hcp with h | h
  · rcases List.mem_map.1 h with ⟨x, -, hxe⟩
    rw [Prod.mk.injEq] at hxe
    exact ⟨_, hxe.2.symm⟩
  · by_cases hgm : sess.gmSocketId = some sid
    · rw [if_pos hgm] at h
      simp only [] at h
      exact absurd h (List.not_mem_nil _)
    · rw [if_neg hgm] at h
      cases hgs : sess.gmSocketId with
      | none =>
          simp only [hgs] at h
          exact absurd h (List.not_mem_nil _)
      | some g =>
          simp only [hgs] at h
          split_ifs at h
          · have h2 := List.mem_singleton.1 h
            rw [Prod.mk.injEq] at h2
            exact ⟨_, h2.2⟩
          · exact absurd h (List.not_mem_nil _)

/-- Session of the C2 counterexample room after the token-swapping rejoin:
`gmClientId` is still Gale\'s first token `c1`, `gmSocketId` still `"s1"`,
but `"s1"`\'s user entry now carries the fresh token `c3`. -/
def cxSess : Session :=
  ⟨[("s1", ⟨"Mara", "c3"⟩), ("s2", ⟨"Bryn", "c2"⟩)], some "c1", some "s1", [], none⟩

/-- Socket data of `"s1"` after its second join (fresh token `c3`). -/
def cxD1 : SockData := ⟨some "A", some "Mara", some "c3", ["A"]⟩

/-- Socket data of `"s2"` (Bryn, token `c2`). -/
def cxD2 : SockData := ⟨some "A", some "Bryn", some "c2", ["A"]⟩

/-- The C2 counterexample state, reached by `cxTrace` from the empty server. -/
def cxSt : ServerState :=
  ⟨[("A", cxSess)], [("s1", cxD1), ("s2", cxD2)], ["s2", "s1"], 0⟩

/-- The hidden roll Bryn makes in the counterexample. -/
def cxRoll : Roll := ⟨"rid", "Bryn", "A", [⟨1, false⟩], true, "ts", some "c2"⟩

/-- The counterexample state after Bryn\'s hidden roll is recorded. -/
def cxStH : ServerState :=
  ⟨[("A", ⟨[("s1", ⟨"Mara", "c3"⟩), ("s2", ⟨"Bryn", "c2"⟩)], some "c1", some "s1", [cxRoll], none⟩)],
   [("s1", cxD1), ("s2", cxD2)], ["s2", "s1"], 0⟩

/-- The C2 counterexample trace: Gale founds room `"A"` as GM with token
`c1`, Bryn joins with `c2`, then Gale\'s socket `"s1"` joins again under a
fresh token `c3`. -/
def cxTrace : List Event :=
  [Event.connect "s1",
   Event.joinSession "s1" (some "a") (some "Gale") (some "c1") "f1",
   Event.connect "s2",
   Event.joinSession "s2" (some "a") (some "Bryn") (some "c2") "f2",
   Event.joinSession "s1" (some "a") (some "Mara") (some "c3") "f3"]

/-- C2 counterexample: in the reachable state `cxSt` the stale
`gmSocketId = "s1"` survives a token-swapping rejoin, so Bryn\'s hidden roll
is delivered live to connection `"s1"` whose stored identity token `c3`
differs from the room\'s GM identity token `c1` — refuting unconditional
hidden-roll confidentiality. -/
theorem C2_counterexample :
    run init cxTrace = some cxSt ∧
    stepFn cxSt (.rollDice "s2" (some 1) (some 0) true (fun _ => 0) "rid" "ts")
      = some (cxStH, [("s1", Payload.diceRolled cxRoll)]) ∧
    cxRoll.hidden = true ∧
    alGet cxSt.sessions "A" = some cxSess ∧
    cxSess.gmClientId = some "c1" ∧
    alGet cxSt.socks "s1" = some cxD1 ∧
    cxD1.clientId = some "c3" ∧ ("c3" : String) ≠ "c1" := by
  refine ⟨by decide, ?_, by decide, by decide, by decide, by decide, by decide,
    by decide⟩
  simp only [stepFn, rollStep, sanitizeNd_one, sanitizeNg_one_zero,
    genDice_one_zero]
  decide

/-- A step with unchanged state and join list preserves the C2 invariant. -/
theorem C2Inv_keep (tr : List Event) (e : Event) (st : ServerState)
    (hinv : C2Inv tr st) (hJ : joinSids (tr ++ [e]) = joinSids tr) :
    C2Inv (tr ++ [e]) st := by
  refine ⟨?_, hinv.2.1, ?_⟩
  · intro r sess g hl hg
    obtain ⟨hin, hnn, htok⟩ := hinv.1 r sess g hl hg
    exact ⟨by rw [hJ]; exact hin, hnn, htok⟩
  · intro k hk
    rw [hJ] at hk
    exact hinv.2.2 k hk

/-- A join event that leaves the state unchanged (invalid session id)
preserves the C2 invariant when the joining socket id has been used. -/
theorem C2Inv_keep_join (tr : List Event) (e : Event) (sid : String)
    (st : ServerState) (hinv : C2Inv tr st) (hused : sid ∈ st.usedSids)
    (hJ : joinSids (tr ++ [e]) = joinSids tr ++ [sid]) :
    C2Inv (tr ++ [e]) st := by
  refine ⟨?_, hinv.2.1, ?_⟩
  · intro r sess g hl hg
    obtain ⟨hin, hnn, htok⟩ := hinv.1 r sess g hl hg
    exact ⟨by rw [hJ]; exact List.mem_append_left _ hin, hnn, htok⟩
  · intro k hk
    rw [hJ] at hk
    rcases List.mem_append.1 hk with hk | hk
    · exact hinv.2.2 k hk
    · cases List.mem_singleton.1 hk
      exact hused

/-- Every step preserves structural well-formedness. -/
theorem StWF_step (st st' : ServerState) (e : Event) (out : List Emit)
    (hwf : StWF st) (hstep : stepFn st e = some (st', out)) : StWF st' := by
  obtain ⟨hnd1, hnd2, hsub⟩ := hwf
  cases e with
  | connect sid =>
      simp only [stepFn] at hstep
      split_ifs at hstep with hs
      rw [Option.some.injEq] at hstep
      have hst : st' = { st with socks := st.socks ++ [(sid, ⟨none, none, none, []⟩)], usedSids := sid :: st.usedSids } :=
        (congrArg Prod.fst hstep).symm
      subst hst
      refine ⟨hnd1, ?_, ?_⟩
      · rw [List.map_append]
        refine List.Nodup.append hnd2 (by simp) ?_
        intro a ha hb
        simp only [List.map_cons, List.map_nil, List.mem_singleton] at hb
        subst hb
        exact hs (hsub a ha)
      · intro k hk
        rw [List.map_append] at hk
        rcases List.mem_append.1 hk with hk | hk
        · exact List.mem_cons_of_mem _ (hsub k hk)
        · simp only [List.map_cons, List.map_nil, List.mem_singleton] at hk
          subst hk
          exact List.mem_cons_self _ _
  | joinSession sid rRaw nm cid f =>
      simp only [stepFn] at hstep
      rcases hd : alGet st.socks sid with _ | d
      · simp only [hd] at hstep
        exact (nomatch hstep)
      · simp only [hd, Option.some.injEq] at hstep
        have hst : st' = (joinStep st sid d rRaw nm cid f).1 :=
          (congrArg Prod.fst hstep).symm
        subst hst
        rcases hn : joinNormalized rRaw with _ | n
        · rw [joinStep_fst_none st sid d rRaw nm cid f hn]
          exact ⟨hnd1, hnd2, hsub⟩
        · rw [joinStep_fst st sid d rRaw nm cid f n hn]
          refine ⟨nodup_keys_alSet _ _ _ hnd1, nodup_keys_alSet _ _ _ hnd2, ?_⟩
          intro k hk
          rw [keys_alSet] at hk
          split_ifs at hk with hmem
          · exact hsub k hk
          · rcases List.mem_append.1 hk with hk | hk
            · exact hsub k hk
            · cases List.mem_singleton.1 hk
              exact hsub sid (mem_keys_of_alGet_eq_some st.socks sid d hd)
  | refreshSession sid =>
      simp only [stepFn] at hstep
      rcases hd : alGet st.socks sid with _ | d
      · simp only [hd] at hstep
        exact (nomatch hstep)
      · simp only [hd] at hstep
        rcases hr : d.sessionId with _ | r0
        · simp only [hr, Option.some.injEq] at hstep
          have hst : st' = st := (congrArg Prod.fst hstep).symm
          subst hst
          exact ⟨hnd1, hnd2, hsub⟩
        · simp only [hr] at hstep
          rcases hx : alGet st.sessions r0 with _ | sess0
          · simp only [hx, Option.some.injEq] at hstep
            have hst : st' = st := (congrArg Prod.fst hstep).symm
            subst hst
            exact ⟨hnd1, hnd2, hsub⟩
          · simp only [hx, Option.some.injEq] at hstep
            have hst : st' = st := (congrArg Prod.fst hstep).symm
            subst hst
            exact ⟨hnd1, hnd2, hsub⟩
  | rollDice sid nD nG hidden rand rid ts =>
      simp only [stepFn] at hstep
      rcases hd : alGet st.socks sid with _ | d
      · simp only [hd] at hstep
        exact (nomatch hstep)
      · simp only [hd] at hstep
        rcases hr : d.sessionId with _ | r0
        · simp only [hr, Option.some.injEq] at hstep
          have hst : st' = st := (congrArg Prod.fst hstep).symm
          subst hst
          exact ⟨hnd1, hnd2, hsub⟩
        · simp only [hr] at hstep
          rcases hx : alGet st.sessions r0 with _ | sess0
          · simp only [hx, Option.some.injEq] at hstep
            have hst : st' = st := (congrArg Prod.fst hstep).symm
            subst hst
            exact ⟨hnd1, hnd2, hsub⟩
          · simp only [hx, Option.some.injEq] at hstep
            have hst : st' = (rollStep st sid d r0 sess0 nD nG hidden rand rid ts).1 :=
              (congrArg Prod.fst hstep).symm
            subst hst
            rw [rollStep_fst]
            exact ⟨nodup_keys_alSet _ _ _ hnd1, hnd2, hsub⟩
  | clearHistory sid =>
      simp only [stepFn] at hstep
      rcases hd : alGet st.socks sid with _ | d
      · simp only [hd] at hstep
        exact (nomatch hstep)
      · simp only [hd] at hstep
        rcases hr : d.sessionId with _ | r0
        · simp only [hr, Option.some.injEq] at hstep
          have hst : st' = st := (congrArg Prod.fst hstep).symm
          subst hst
          exact ⟨hnd1, hnd2, hsub⟩
        · simp only [hr] at hstep
          rcases hx : alGet st.sessions r0 with _ | sess0
          · simp only [hx, Option.some.injEq] at hstep
            have hst : st' = st := (congrArg Prod.fst hstep).symm
            subst hst
            exact ⟨hnd1, hnd2, hsub⟩
          · simp only [hx] at hstep
            rcases hc : d.clientId with _ | c0
            · simp only [hc, Option.some.injEq] at hstep
              have hst : st' = st := (congrArg Prod.fst hstep).symm
              subst hst
              exact ⟨hnd1, hnd2, hsub⟩
            · simp only [hc] at hstep
              split_ifs at hstep with hgm
              · rw [Option.some.injEq] at hstep
                have hst : st' = { st with sessions := alSet st.sessions r0 { sess0 with history := ([] : List Roll) } } :=
                  (congrArg Prod.fst hstep).symm
                subst hst
                exact ⟨nodup_keys_alSet _ _ _ hnd1, hnd2, hsub⟩
              · rw [Option.some.injEq] at hstep
                have hst : st' = st := (congrArg Prod.fst hstep).symm
                subst hst
                exact ⟨hnd1, hnd2, hsub⟩
  | leaveSession sid =>
      simp only [stepFn] at hstep
      rcases hd : alGet st.socks sid with _ | d
      · simp only [hd] at hstep
        exact (nomatch hstep)
      · simp only [hd] at hstep
        have hkeep : StWF { st with socks := alSet st.socks sid { d with sessionId := none } } := by
          refine ⟨hnd1, nodup_keys_alSet _ _ _ hnd2, ?_⟩
          intro k hk
          rw [keys_alSet] at hk
          split_ifs at hk with hmem
          · exact hsub k hk
          · rcases List.mem_append.1 hk with hk | hk
            · exact hsub k hk
            · cases List.mem_singleton.1 hk
              exact hsub sid (mem_keys_of_alGet_eq_some st.socks sid d hd)
        rcases hr : d.sessionId with _ | r0
        · simp only [hr, Option.some.injEq] at hstep
          have hst : st' = { st with socks := alSet st.socks sid { d with sessionId := none } } :=
            (congrArg Prod.fst hstep).symm
          subst hst
          exact hkeep
        · simp only [hr] at hstep
          rcases hx : alGet st.sessions r0 with _ | sess0
          · simp only [hx, Option.some.injEq] at hstep
            have hst : st' = { st with socks := alSet st.socks sid { d with sessionId := none } } :=
              (congrArg Prod.fst hstep).symm
            subst hst
            exact hkeep
          · simp only [hx, Option.some.injEq] at hstep
            have hst : st' = (leaveStep st sid d r0 sess0).1 :=
              (congrArg Prod.fst hstep).symm
            subst hst
            rw [leaveStep_fst]
            refine ⟨?_, ?_, ?_⟩
            · rcases cleanup_sessions_shape _ r0 with hsh | ⟨sessC, sess1, -, hsh, -, -, -, -⟩ <;>
                rw [hsh]
              · exact nodup_keys_alSet _ _ _ hnd1
              · exact nodup_keys_alSet _ _ _ (nodup_keys_alSet _ _ _ hnd1)
            · rw [cleanup_socks]
              exact nodup_keys_alSet _ _ _ hnd2
            · intro k hk
              rw [cleanup_socks] at hk
              rw [cleanup_usedSids]
              rw [keys_alSet] at hk
              split_ifs at hk with hmem
              · exact hsub k hk
              · rcases List.mem_append.1 hk with hk | hk
                · exact hsub k hk
                · cases List.mem_singleton.1 hk
                  exact hsub sid (mem_keys_of_alGet_eq_some st.socks sid d hd)
  | disconnect sid =>
      simp only [stepFn] at hstep
      rcases hd : alGet st.socks sid with _ | d
      · simp only [hd] at hstep
        exact (nomatch hstep)
      · simp only [hd] at hstep
        have hkeep : StWF { st with socks := alErase st.socks sid } := by
          refine ⟨hnd1, nodup_keys_alErase _ _ hnd2, ?_⟩
          intro k hk
          exact hsub k (((alErase_sublist st.socks sid).map Prod.fst).subset hk)
        rcases hr : d.sessionId with _ | r0
        · simp only [hr, Option.some.injEq] at hstep
          have hst : st' = { st with socks := alErase st.socks sid } :=
            (congrArg Prod.fst hstep).symm
          subst hst
          exact hkeep
        · simp only [hr] at hstep
          rcases hx : alGet st.sessions r0 with _ | sess0
          · simp only [hx, Option.some.injEq] at hstep
            have hst : st' = { st with socks := alErase st.socks sid } :=
              (congrArg Prod.fst hstep).symm
            subst hst
            exact hkeep
          · simp only [hx, Option.some.injEq] at hstep
            have hst : st' = (disconnectStep { st with socks := alErase st.socks sid } sid r0 sess0).1 :=
              (congrArg Prod.fst hstep).symm
            subst hst
            rw [disconnectStep_fst]
            refine ⟨?_, ?_, ?_⟩
            · rcases cleanup_sessions_shape _ r0 with hsh | ⟨sessC, sess1, -, hsh, -, -, -, -⟩ <;>
                rw [hsh]
              · exact nodup_keys_alSet _ _ _ hnd1
              · exact nodup_keys_alSet _ _ _ (nodup_keys_alSet _ _ _ hnd1)
            · rw [cleanup_socks]
              exact nodup_keys_alErase _ _ hnd2
            · intro k hk
              rw [cleanup_socks] at hk
              rw [cleanup_usedSids]
              exact hsub k (((alErase_sublist st.socks sid).map Prod.fst).subset hk)
  | timerFire r0 =>
      simp only [stepFn] at hstep
      rcases hx : alGet st.sessions r0 with _ | sess0
      · simp only [hx] at hstep
        exact (nomatch hstep)
      · simp only [hx] at hstep
        rcases ht : sess0.cleanupTimer with _ | t0
        · simp only [ht] at hstep
          exact (nomatch hstep)
        · simp only [ht] at hstep
          split_ifs at hstep with hemp
          · rw [Option.some.injEq] at hstep
            have hst : st' = { st with sessions := alErase st.sessions r0 } :=
              (congrArg Prod.fst hstep).symm
            subst hst
            refine ⟨nodup_keys_alErase _ _ hnd1, hnd2, hsub⟩
          · rw [Option.some.injEq] at hstep
            have hst : st' = { st with sessions := alSet st.sessions r0 { sess0 with cleanupTimer := none } } :=
              (congrArg Prod.fst hstep).symm
            subst hst
            exact ⟨nodup_keys_alSet _ _ _ hnd1, hnd2, hsub⟩

/-- Every step from a well-formed state preserves the C2 invariant, provided
a joining socket has not joined before (the `SingleJoin` side condition). -/
theorem C2Inv_step (tr : List Event) (st st' : ServerState) (e : Event)
    (out : List Emit) (hwf : StWF st) (hinv : C2Inv tr st)
    (hfresh : ∀ sid rRaw nm cid f, e = .joinSession sid rRaw nm cid f →
      sid ∉ joinSids tr)
    (hstep : stepFn st e = some (st', out)) :
    C2Inv (tr ++ [e]) st' := by
  cases e with
  | connect sid =>
      have hJ : joinSids (tr ++ [Event.connect sid]) = joinSids tr := by
        rw [joinSids_append]
        exact List.append_nil _
      simp only [stepFn] at hstep
      split_ifs at hstep with hs
      rw [Option.some.injEq] at hstep
      have hst : st' = { st with socks := st.socks ++ [(sid, ⟨none, none, none, []⟩)], usedSids := sid :: st.usedSids } :=
        (congrArg Prod.fst hstep).symm
      subst hst
      refine ⟨?_, hinv.2.1, ?_⟩
      · intro r sess g hl hg
        obtain ⟨hin, hnn, htok⟩ := hinv.1 r sess g hl hg
        refine ⟨by rw [hJ]; exact hin, hnn, ?_⟩
        intro d2 hd2
        have hgne : g ≠ sid := fun he => hs (he ▸ hinv.2.2 g hin)
        rw [alGet_append_single_ne st.socks sid g _ (Ne.symm hgne)] at hd2
        exact htok d2 hd2
      · intro k hk
        rw [hJ] at hk
        exact List.mem_cons_of_mem _ (hinv.2.2 k hk)
  | joinSession sid rRaw nm cid f =>
      have hJ : joinSids (tr ++ [Event.joinSession sid rRaw nm cid f]) = joinSids tr ++ [sid] := by
        rw [joinSids_append]
        rfl
      have hfr : sid ∉ joinSids tr := hfresh sid rRaw nm cid f rfl
      simp only [stepFn] at hstep
      rcases hd : alGet st.socks sid with _ | d
      · simp only [hd] at hstep
        exact (nomatch hstep)
      · simp only [hd, Option.some.injEq] at hstep
        have hst : st' = (joinStep st sid d rRaw nm cid f).1 :=
          (congrArg Prod.fst hstep).symm
        subst hst
        have hused : sid ∈ st.usedSids :=
          hwf.2.2 sid (mem_keys_of_alGet_eq_some st.socks sid d hd)
        rcases hn : joinNormalized rRaw with _ | n
        · rw [joinStep_fst_none st sid d rRaw nm cid f hn]
          exact C2Inv_keep_join tr _ sid _ hinv hused hJ
        · rw [joinStep_fst st sid d rRaw nm cid f n hn]
          refine ⟨?_, ?_, ?_⟩
          · intro r sess g hl hg
            rw [alGet_alSet] at hl
            by_cases hnr : n = r
            · subst hnr
              rw [if_pos rfl] at hl
              injection hl with hl
              subst hl
              obtain ⟨hu4, hg4, hs4⟩ := joinFinalSession_spec st sid n nm cid f
              rw [hs4] at hg
              by_cases hc : (match (getOrCreateSession st n).2.gmClientId with
                  | none => some (joinSafeClientId cid f)
                  | some c => some c) = some (joinSafeClientId cid f)
              · rw [if_pos hc] at hg
                injection hg with hg
                subst hg
                refine ⟨by rw [hJ]; exact List.mem_append_right _ (List.mem_singleton.2 rfl), ?_, ?_⟩
                · rw [hg4, hc]
                  exact Option.some_ne_none _
                · intro d2 hd2
                  rw [alGet_alSet, if_pos rfl] at hd2
                  injection hd2 with hd2
                  subst hd2
                  rw [hg4, hc]
              · rw [if_neg hc] at hg
                rcases hx : alGet st.sessions n with _ | s0
                · rw [getOrCreate_snd_of_none st n hx] at hg
                  exact (nomatch hg)
                · rw [getOrCreate_snd_of_some st n s0 hx] at hg
                  obtain ⟨hin, hnn, htok⟩ := hinv.1 n s0 g hx hg
                  have hgne : g ≠ sid := fun he => hfr (he ▸ hin)
                  refine ⟨by rw [hJ]; exact List.mem_append_left _ hin, ?_, ?_⟩
                  · rw [hg4, getOrCreate_snd_of_some st n s0 hx]
                    rcases hgc : s0.gmClientId with _ | c0
                    · exact absurd hgc hnn
                    · simp [hgc]
                  · intro d2 hd2
                    rw [alGet_alSet, if_neg (fun he => hgne he.symm)] at hd2
                    have htd := htok d2 hd2
                    rw [hg4, getOrCreate_snd_of_some st n s0 hx]
                    rcases hgc : s0.gmClientId with _ | c0
                    · exact absurd hgc hnn
                    · simp only [hgc]
                      rw [htd]
                      exact hgc
            · rw [if_neg hnr] at hl
              obtain ⟨hin, hnn, htok⟩ := hinv.1 r sess g hl hg
              have hgne : g ≠ sid := fun he => hfr (he ▸ hin)
              refine ⟨by rw [hJ]; exact List.mem_append_left _ hin, hnn, ?_⟩
              intro d2 hd2
              rw [alGet_alSet, if_neg (fun he => hgne he.symm)] at hd2
              exact htok d2 hd2
          · intro r sess hl roll hm
            rw [alGet_alSet] at hl
            by_cases hnr : n = r
            · subst hnr
              rw [if_pos rfl] at hl
              injection hl with hl
              subst hl
              rw [joinFinalSession_history] at hm
              rcases hx : alGet st.sessions n with _ | s0
              · rw [getOrCreate_snd_of_none st n hx] at hm
                exact absurd hm (List.not_mem_nil _)
              · rw [getOrCreate_snd_of_some st n s0 hx] at hm
                exact hinv.2.1 n s0 hx roll hm
            · rw [if_neg hnr] at hl
              exact hinv.2.1 r sess hl roll hm
          · intro k hk
            rw [hJ] at hk
            rcases List.mem_append.1 hk with hk | hk
            · exact hinv.2.2 k hk
            · cases List.mem_singleton.1 hk
              exact hused
  | refreshSession sid =>
      have hJ : joinSids (tr ++ [Event.refreshSession sid]) = joinSids tr := by
        rw [joinSids_append]
        exact List.append_nil _
      simp only [stepFn] at hstep
      rcases hd : alGet st.socks sid with _ | d
      · simp only [hd] at hstep
        exact (nomatch hstep)
      · simp only [hd] at hstep
        rcases hr : d.sessionId with _ | r0
        · simp only [hr, Option.some.injEq] at hstep
          have hst : st' = st := (congrArg Prod.fst hstep).symm
          subst hst
          exact C2Inv_keep tr _ _ hinv hJ
        · simp only [hr] at hstep
          rcases hx : alGet st.sessions r0 with _ | sess0
          · simp only [hx, Option.some.injEq] at hstep
            have hst : st' = st := (congrArg Prod.fst hstep).symm
            subst hst
            exact C2Inv_keep tr _ _ hinv hJ
          · simp only [hx, Option.some.injEq] at hstep
            have hst : st' = st := (congrArg Prod.fst hstep).symm
            subst hst
            exact C2Inv_keep tr _ _ hinv hJ
  | rollDice sid nD nG hidden rand rid ts =>
      have hJ : joinSids (tr ++ [Event.rollDice sid nD nG hidden rand rid ts]) = joinSids tr := by
        rw [joinSids_append]
        exact List.append_nil _
      simp only [stepFn] at hstep
      rcases hd : alGet st.socks sid with _ | d
      · simp only [hd] at hstep
        exact (nomatch hstep)
      · simp only [hd] at hstep
        rcases hr : d.sessionId with _ | r0
        · simp only [hr, Option.some.injEq] at hstep
          have hst : st' = st := (congrArg Prod.fst hstep).symm
          subst hst
          exact C2Inv_keep tr _ _ hinv hJ
        · simp only [hr] at hstep
          rcases hx : alGet st.sessions r0 with _ | sess0
          · simp only [hx, Option.some.injEq] at hstep
            have hst : st' = st := (congrArg Prod.fst hstep).symm
            subst hst
            exact C2Inv_keep tr _ _ hinv hJ
          · simp only [hx, Option.some.injEq] at hstep
            have hst : st' = (rollStep st sid d r0 sess0 nD nG hidden rand rid ts).1 :=
              (congrArg Prod.fst hstep).symm
            subst hst
            rw [rollStep_fst]
            refine ⟨?_, ?_, ?_⟩
            · intro r sess g hl hg
              rw [alGet_alSet] at hl
              by_cases hnr : r0 = r
              · subst hnr
                rw [if_pos rfl] at hl
                injection hl with hl
                subst hl
                obtain ⟨hin, hnn, htok⟩ := hinv.1 r0 sess0 g hx hg
                exact ⟨by rw [hJ]; exact hin, hnn, htok⟩
              · rw [if_neg hnr] at hl
                obtain ⟨hin, hnn, htok⟩ := hinv.1 r sess g hl hg
                exact ⟨by rw [hJ]; exact hin, hnn, htok⟩
            · intro r sess hl roll hm
              rw [alGet_alSet] at hl
              by_cases hnr : r0 = r
              · subst hnr
                rw [if_pos rfl] at hl
                injection hl with hl
                subst hl
                rcases mem_histPush sess0.history _ roll hm with h1 | h1
                · exact hinv.2.1 r0 sess0 hx roll h1
                · rw [h1]
                  rfl
              · rw [if_neg hnr] at hl
                exact hinv.2.1 r sess hl roll hm
            · intro k hk
              rw [hJ] at hk
              exact hinv.2.2 k hk
  | clearHistory sid =>
      have hJ : joinSids (tr ++ [Event.clearHistory sid]) = joinSids tr := by
        rw [joinSids_append]
        exact List.append_nil _
      simp only [stepFn] at hstep
      rcases hd : alGet st.socks sid with _ | d
      · simp only [hd] at hstep
        exact (nomatch hstep)
      · simp only [hd] at hstep
        rcases hr : d.sessionId with _ | r0
        · simp only [hr, Option.some.injEq] at hstep
          have hst : st' = st := (congrArg Prod.fst hstep).symm
          subst hst
          exact C2Inv_keep tr _ _ hinv hJ
        · simp only [hr] at hstep
          rcases hx : alGet st.sessions r0 with _ | sess0
          · simp only [hx, Option.some.injEq] at hstep
            have hst : st' = st := (congrArg Prod.fst hstep).symm
            subst hst
            exact C2Inv_keep tr _ _ hinv hJ
          · simp only [hx] at hstep
            rcases hc : d.clientId with _ | c0
            · simp only [hc, Option.some.injEq] at hstep
              have hst : st' = st := (congrArg Prod.fst hstep).symm
              subst hst
              exact C2Inv_keep tr _ _ hinv hJ
            · simp only [hc] at hstep
              split_ifs at hstep with hgm
              · rw [Option.some.injEq] at hstep
                have hst : st' = { st with sessions := alSet st.sessions r0 { sess0 with history := ([] : List Roll) } } :=
                  (congrArg Prod.fst hstep).symm
                subst hst
                refine ⟨?_, ?_, ?_⟩
                · intro r sess g hl hg
                  rw [alGet_alSet] at hl
                  by_cases hnr : r0 = r
                  · subst hnr
                    rw [if_pos rfl] at hl
                    injection hl with hl
                    subst hl
                    obtain ⟨hin, hnn, htok⟩ := hinv.1 r0 sess0 g hx hg
                    exact ⟨by rw [hJ]; exact hin, hnn, htok⟩
                  · rw [if_neg hnr] at hl
                    obtain ⟨hin, hnn, htok⟩ := hinv.1 r sess g hl hg
                    exact ⟨by rw [hJ]; exact hin, hnn, htok⟩
                · intro r sess hl roll hm
                  rw [alGet_alSet] at hl
                  by_cases hnr : r0 = r
                  · subst hnr
                    rw [if_pos rfl] at hl
                    injection hl with hl
                    subst hl
                    exact absurd hm (List.not_mem_nil _)
                  · rw [if_neg hnr] at hl
                    exact hinv.2.1 r sess hl roll hm
                · intro k hk
                  rw [hJ] at hk
                  exact hinv.2.2 k hk
              · rw [Option.some.injEq] at hstep
                have hst : st' = st := (congrArg Prod.fst hstep).symm
                subst hst
                exact C2Inv_keep tr _ _ hinv hJ
  | leaveSession sid =>
      have hJ : joinSids (tr ++ [Event.leaveSession sid]) = joinSids tr := by
        rw [joinSids_append]
        exact List.append_nil _
      simp only [stepFn] at hstep
      rcases hd : alGet st.socks sid with _ | d
      · simp only [hd] at hstep
        exact (nomatch hstep)
      · simp only [hd] at hstep
        have hkeep : C2Inv (tr ++ [Event.leaveSession sid]) { st with socks := alSet st.socks sid { d with sessionId := none } } := by
          refine ⟨?_, hinv.2.1, ?_⟩
          · intro r sess g hl hg
            obtain ⟨hin, hnn, htok⟩ := hinv.1 r sess g hl hg
            refine ⟨by rw [hJ]; exact hin, hnn, ?_⟩
            intro d2 hd2
            rw [alGet_alSet] at hd2
            by_cases hgs : sid = g
            · subst hgs
              rw [if_pos rfl] at hd2
              injection hd2 with hd2
              subst hd2
              exact htok d hd
            · rw [if_neg hgs] at hd2
              exact htok d2 hd2
          · intro k hk
            rw [hJ] at hk
            exact hinv.2.2 k hk
        rcases hr : d.sessionId with _ | r0
        · simp only [hr, Option.some.injEq] at hstep
          have hst : st' = { st with socks := alSet st.socks sid { d with sessionId := none } } :=
            (congrArg Prod.fst hstep).symm
          subst hst
          exact hkeep
        · simp only [hr] at hstep
          rcases hx : alGet st.sessions r0 with _ | sess0
          · simp only [hx, Option.some.injEq] at hstep
            have hst : st' = { st with socks := alSet st.socks sid { d with sessionId := none } } :=
              (congrArg Prod.fst hstep).symm
            subst hst
            exact hkeep
          · simp only [hx, Option.some.injEq] at hstep
            have hst : st' = (leaveStep st sid d r0 sess0).1 :=
              (congrArg Prod.fst hstep).symm
            subst hst
            rw [leaveStep_fst]
            refine ⟨?_, ?_, ?_⟩
            · intro r2 sess2 g hl hg
              obtain ⟨s0, hl0, hu, hgc, hgs, hh⟩ := cleanup_lookup_some _ r0 r2 sess2 hl
              rw [hgs] at hg
              rw [alGet_alSet] at hl0
              have htokS : ∀ d2, alGet (cleanupSessionIfEmpty { st with sessions := alSet st.sessions r0 { sess0 with users := alErase sess0.users sid }, socks := alSet st.socks sid { d with sessionId := none, rooms := d.rooms.filter fun x => decide (x ≠ r0) } } r0).socks g = some d2 → alGet st.socks g = some d2 ∨ (g = sid ∧ d2.clientId = d.clientId) := by
                intro d2 hd2
                rw [cleanup_socks] at hd2
                rw [alGet_alSet] at hd2
                by_cases hgsid : sid = g
                · subst hgsid
                  rw [if_pos rfl] at hd2
                  injection hd2 with hd2
                  subst hd2
                  exact Or.inr ⟨rfl, rfl⟩
                · rw [if_neg hgsid] at hd2
                  exact Or.inl hd2
              by_cases hnr : r0 = r2
              · subst hnr
                rw [if_pos rfl] at hl0
                injection hl0 with hl0
                subst hl0
                obtain ⟨hin, hnn, htok⟩ := hinv.1 r0 sess0 g hx hg
                refine ⟨by rw [hJ]; exact hin, by rw [hgc]; exact hnn, ?_⟩
                intro d2 hd2
                rw [hgc]
                rcases htokS d2 hd2 with h1 | ⟨hgsid, hcl⟩
                · exact htok d2 h1
                · rw [hcl]
                  subst hgsid
                  exact htok d hd
              · rw [if_neg hnr] at hl0
                obtain ⟨hin, hnn, htok⟩ := hinv.1 r2 s0 g hl0 hg
                refine ⟨by rw [hJ]; exact hin, by rw [hgc]; exact hnn, ?_⟩
                intro d2 hd2
                rw [hgc]
                rcases htokS d2 hd2 with h1 | ⟨hgsid, hcl⟩
                · exact htok d2 h1
                · rw [hcl]
                  subst hgsid
                  exact htok d hd
            · intro r2 sess2 hl roll hm
              obtain ⟨s0, hl0, hu, hgc, hgs, hh⟩ := cleanup_lookup_some _ r0 r2 sess2 hl
              rw [hh] at hm
              rw [alGet_alSet] at hl0
              by_cases hnr : r0 = r2
              · subst hnr
                rw [if_pos rfl] at hl0
                injection hl0 with hl0
                subst hl0
                exact hinv.2.1 r0 sess0 hx roll hm
              · rw [if_neg hnr] at hl0
                exact hinv.2.1 r2 s0 hl0 roll hm
            · intro k hk
              rw [hJ] at hk
              rw [cleanup_usedSids]
              exact hinv.2.2 k hk
  | disconnect sid =>
      have hJ : joinSids (tr ++ [Event.disconnect sid]) = joinSids tr := by
        rw [joinSids_append]
        exact List.append_nil _
      simp only [stepFn] at hstep
      rcases hd : alGet st.socks sid with _ | d
      · simp only [hd] at hstep
        exact (nomatch hstep)
      · simp only [hd] at hstep
        have htokE : ∀ g d2, alGet (alErase st.socks sid) g = some d2 → g ≠ sid ∧ alGet st.socks g = some d2 := by
          intro g d2 hd2
          by_cases hgsid : g = sid
          · subst hgsid
            rw [alGet_alErase_self st.socks g hwf.2.1] at hd2
            exact (nomatch hd2)
          · rw [alGet_alErase_ne st.socks sid g (fun he => hgsid he.symm)] at hd2
            exact ⟨hgsid, hd2⟩
        have hkeep : C2Inv (tr ++ [Event.disconnect sid]) { st with socks := alErase st.socks sid } := by
          refine ⟨?_, hinv.2.1, ?_⟩
          · intro r sess g hl hg
            obtain ⟨hin, hnn, htok⟩ := hinv.1 r sess g hl hg
            refine ⟨by rw [hJ]; exact hin, hnn, ?_⟩
            intro d2 hd2
            exact htok d2 (htokE g d2 hd2).2
          · intro k hk
            rw [hJ] at hk
            exact hinv.2.2 k hk
        rcases hr : d.sessionId with _ | r0
        · simp only [hr, Option.some.injEq] at hstep
          have hst : st' = { st with socks := alErase st.socks sid } :=
            (congrArg Prod.fst hstep).symm
          subst hst
          exact hkeep
        · simp only [hr] at hstep
          rcases hx : alGet st.sessions r0 with _ | sess0
          · simp only [hx, Option.some.injEq] at hstep
            have hst : st' = { st with socks := alErase st.socks sid } :=
              (congrArg Prod.fst hstep).symm
            subst hst
            exact hkeep
          · simp only [hx, Option.some.injEq] at hstep
            have hst : st' = (disconnectStep { st with socks := alErase st.socks sid } sid r0 sess0).1 :=
              (congrArg Prod.fst hstep).symm
            subst hst
            rw [disconnectStep_fst]
            by_cases hgm : sess0.gmSocketId = some sid
            · rw [if_pos hgm]
              refine ⟨?_, ?_, ?_⟩
              · intro r2 sess2 g hl hg
                obtain ⟨s0, hl0, hu, hgc, hgs, hh⟩ := cleanup_lookup_some _ r0 r2 sess2 hl
                rw [hgs] at hg
                rw [alGet_alSet] at hl0
                by_cases hnr : r0 = r2
                · subst hnr
                  rw [if_pos rfl] at hl0
                  injection hl0 with hl0
                  subst hl0
                  exact (nomatch hg)
                · rw [if_neg hnr] at hl0
                  obtain ⟨hin, hnn, htok⟩ := hinv.1 r2 s0 g hl0 hg
                  refine ⟨by rw [hJ]; exact hin, by rw [hgc]; exact hnn, ?_⟩
                  intro d2 hd2
                  rw [hgc]
                  rw [cleanup_socks] at hd2
                  exact htok d2 (htokE g d2 hd2).2
              · intro r2 sess2 hl roll hm
                obtain ⟨s0, hl0, hu, hgc, hgs, hh⟩ := cleanup_lookup_some _ r0 r2 sess2 hl
                rw [hh] at hm
                rw [alGet_alSet] at hl0
                by_cases hnr : r0 = r2
                · subst hnr
                  rw [if_pos rfl] at hl0
                  injection hl0 with hl0
                  subst hl0
                  exact hinv.2.1 r0 sess0 hx roll hm
                · rw [if_neg hnr] at hl0
                  exact hinv.2.1 r2 s0 hl0 roll hm
              · intro k hk
                rw [hJ] at hk
                rw [cleanup_usedSids]
                exact hinv.2.2 k hk
            · rw [if_neg hgm]
              refine ⟨?_, ?_, ?_⟩
              · intro r2 sess2 g hl hg
                obtain ⟨s0, hl0, hu, hgc, hgs, hh⟩ := cleanup_lookup_some _ r0 r2 sess2 hl
                rw [hgs] at hg
                rw [alGet_alSet] at hl0
                by_cases hnr : r0 = r2
                · subst hnr
                  rw [if_pos rfl] at hl0
                  injection hl0 with hl0
                  subst hl0
                  obtain ⟨hin, hnn, htok⟩ := hinv.1 r0 sess0 g hx hg
                  refine ⟨by rw [hJ]; exact hin, by rw [hgc]; exact hnn, ?_⟩
                  intro d2 hd2
                  rw [hgc]
                  rw [cleanup_socks] at hd2
                  exact htok d2 (htokE g d2 hd2).2
                · rw [if_neg hnr] at hl0
                  obtain ⟨hin, hnn, htok⟩ := hinv.1 r2 s0 g hl0 hg
                  refine ⟨by rw [hJ]; exact hin, by rw [hgc]; exact hnn, ?_⟩
                  intro d2 hd2
                  rw [hgc]
                  rw [cleanup_socks] at hd2
                  exact htok d2 (htokE g d2 hd2).2
              · intro r2 sess2 hl roll hm
                obtain ⟨s0, hl0, hu, hgc, hgs, hh⟩ := cleanup_lookup_some _ r0 r2 sess2 hl
                rw [hh] at hm
                rw [alGet_alSet] at hl0
                by_cases hnr : r0 = r2
                · subst hnr
                  rw [if_pos rfl] at hl0
                  injection hl0 with hl0
                  subst hl0
                  exact hinv.2.1 r0 sess0 hx roll hm
                · rw [if_neg hnr] at hl0
                  exact hinv.2.1 r2 s0 hl0 roll hm
              · intro k hk
                rw [hJ] at hk
                rw [cleanup_usedSids]
                exact hinv.2.2 k hk
  | timerFire r0 =>
      have hJ : joinSids (tr ++ [Event.timerFire r0]) = joinSids tr := by
        rw [joinSids_append]
        exact List.append_nil _
      simp only [stepFn] at hstep
      rcases hx : alGet st.sessions r0 with _ | sess0
      · simp only [hx] at hstep
        exact (nomatch hstep)
      · simp only [hx] at hstep
        rcases ht : sess0.cleanupTimer with _ | t0
        · simp only [ht] at hstep
          exact (nomatch hstep)
        · simp only [ht] at hstep
          split_ifs at hstep with hemp
          · rw [Option.some.injEq] at hstep
            have hst : st' = { st with sessions := alErase st.sessions r0 } :=
              (congrArg Prod.fst hstep).symm
            subst hst
            refine ⟨?_, ?_, ?_⟩
            · intro r sess g hl hg
              by_cases hnr : r = r0
              · subst hnr
                rw [alGet_alErase_self st.sessions r hwf.1] at hl
                exact (nomatch hl)
              · rw [alGet_alErase_ne st.sessions r0 r (fun he => hnr he.symm)] at hl
                obtain ⟨hin, hnn, htok⟩ := hinv.1 r sess g hl hg
                exact ⟨by rw [hJ]; exact hin, hnn, htok⟩
            · intro r sess hl roll hm
              by_cases hnr : r = r0
              · subst hnr
                rw [alGet_alErase_self st.sessions r hwf.1] at hl
                exact (nomatch hl)
              · rw [alGet_alErase_ne st.sessions r0 r (fun he => hnr he.symm)] at hl
                exact hinv.2.1 r sess hl roll hm
            · intro k hk
              rw [hJ] at hk
              exact hinv.2.2 k hk
          · rw [Option.some.injEq] at hstep
            have hst : st' = { st with sessions := alSet st.sessions r0 { sess0 with cleanupTimer := none } } :=
              (congrArg Prod.fst hstep).symm
            subst hst
            refine ⟨?_, ?_, ?_⟩
            · intro r sess g hl hg
              rw [alGet_alSet] at hl
              by_cases hnr : r0 = r
              · subst hnr
                rw [if_pos rfl] at hl
                injection hl with hl
                subst hl
                obtain ⟨hin, hnn, htok⟩ := hinv.1 r0 sess0 g hx hg
                exact ⟨by rw [hJ]; exact hin, hnn, htok⟩
              · rw [if_neg hnr] at hl
                obtain ⟨hin, hnn, htok⟩ := hinv.1 r sess g hl hg
                exact ⟨by rw [hJ]; exact hin, hnn, htok⟩
            · intro r sess hl roll hm
              rw [alGet_alSet] at hl
              by_cases hnr : r0 = r
              · subst hnr
                rw [if_pos rfl] at hl
                injection hl with hl
                subst hl
                exact hinv.2.1 r0 sess0 hx roll hm
              · rw [if_neg hnr] at hl
                exact hinv.2.1 r sess hl roll hm
            · intro k hk
              rw [hJ] at hk
              exact hinv.2.2 k hk

/-- Along every `SingleJoin` trace the reached state is well-formed and
satisfies the C2 invariant. -/
theorem C2Inv_run : ∀ tr st, SingleJoin tr → run init tr = some st →
    StWF st ∧ C2Inv tr st := by
  intro tr
  induction tr using List.reverseRecOn with
  | nil =>
      intro st hsj hrun
      simp only [run] at hrun
      injection hrun with hrun
      subst hrun
      refine ⟨⟨List.nodup_nil, List.nodup_nil, ?_⟩, ?_, ?_, ?_⟩
      · intro k hk
        exact absurd hk (List.not_mem_nil _)
      · intro r sess g hl hg
        exact (nomatch hl)
      · intro r sess hl
        exact (nomatch hl)
      · intro k hk
        exact absurd hk (List.not_mem_nil _)
  | append_singleton tr e ih =>
      intro st hsj hrun
      rw [run_append] at hrun
      cases h0 : run init tr with
      | none =>
          rw [h0] at hrun
          exact (nomatch hrun)
      | some st0 =>
          rw [h0] at hrun
          have hsj0 : SingleJoin tr := by
            rw [SingleJoin, joinSids_append] at hsj
            exact (List.nodup_append.1 hsj).1
          obtain ⟨hwf0, hinv0⟩ := ih st0 hsj0 h0
          cases hs : stepFn st0 e with
          | none =>
              simp only [run, hs] at hrun
              exact (nomatch hrun)
          | some p =>
              obtain ⟨st1, out1⟩ := p
              simp only [run, hs] at hrun
              injection hrun with hrun
              subst hrun
              have hfresh : ∀ sid rRaw nm cid f,
                  e = .joinSession sid rRaw nm cid f → sid ∉ joinSids tr := by
                intro sid rRaw nm cid f he hmem
                subst he
                rw [SingleJoin, joinSids_append] at hsj
                obtain ⟨-, -, hdisj⟩ := List.nodup_append.1 hsj
                exact hdisj hmem (List.mem_singleton.2 rfl)
              exact ⟨StWF_step st0 _ e out1 hwf0 hs,
                C2Inv_step tr st0 _ e out1 hwf0 hinv0 hfresh hs⟩

/-- C2 (amended): hidden-roll confidentiality holds for every reachable
`SingleJoin` trace — when each connection joins at most once, every payload a
step delivers that carries a roll with `hidden = true` (live roll result, or
history inside a join acknowledgement or refresh snapshot) goes to a
connection whose stored identity token equals the roll\'s room\'s GM identity
token.  Without the `SingleJoin` side condition the property is false
(`C2_counterexample`): a rejoin under a fresh token leaves a stale
`gmSocketId` pointing at a connection whose token no longer matches. -/
theorem C2_hidden_roll_confidentiality
    (tr : List Event) (st st' : ServerState) (e : Event) (out : List Emit)
    (hsj : SingleJoin (tr ++ [e]))
    (hrun : run init tr = some st)
    (hstep : stepFn st e = some (st', out)) :
    ∀ c p, (c, p) ∈ out → ∀ roll ∈ rollsOf p, roll.hidden = true →
      ∃ d2 sess2, alGet st'.socks c = some d2 ∧
        alGet st'.sessions roll.sessionId = some sess2 ∧
        sess2.gmClientId ≠ none ∧ d2.clientId = sess2.gmClientId := by
  have hsj0 : SingleJoin tr := by
    rw [SingleJoin, joinSids_append] at hsj
    exact (List.nodup_append.1 hsj).1
  obtain ⟨hwf, hinv⟩ := C2Inv_run tr st hsj0 hrun
  intro c p hcp roll hroll hhid
  cases e with
  | connect sid =>
      simp only [stepFn] at hstep
      split_ifs at hstep
      rw [Option.some.injEq] at hstep
      have hout : out = [] := (congrArg Prod.snd hstep).symm
      rw [hout] at hcp
      exact absurd hcp (List.not_mem_nil _)
  | joinSession sid rRaw nm cid f =>
      simp only [stepFn] at hstep
      rcases hd : alGet st.socks sid with _ | d
      · simp only [hd] at hstep
        exact (nomatch hstep)
      · simp only [hd, Option.some.injEq] at hstep
        have hst : st' = (joinStep st sid d rRaw nm cid f).1 :=
          (congrArg Prod.fst hstep).symm
        have hout : out = (joinStep st sid d rRaw nm cid f).2 :=
          (congrArg Prod.snd hstep).symm
        subst hst
        subst hout
        rcases hn : joinNormalized rRaw with _ | n
        · have hsnd : (joinStep st sid d rRaw nm cid f).2
              = [(sid, Payload.errorMessage "Invalid session ID.")] := by
            simp [joinStep, hn]
          rw [hsnd] at hcp
          have h2 := List.mem_singleton.1 hcp
          rw [Prod.mk.injEq] at h2
          rw [h2.2] at hroll
          simp only [rollsOf] at hroll
          exact absurd hroll (List.not_mem_nil _)
        · rcases joinStep_snd_shape st sid d rRaw nm cid f n hn c p hcp with ⟨hc2, hp2⟩ | ⟨u, hp2⟩
          · rw [hc2]
            rw [hp2] at hroll
            simp only [rollsOf] at hroll
            simp only [buildHistoryForClient] at hroll
            by_cases hgm : (joinFinalSession st sid n nm cid f).gmClientId
                = some (joinSafeClientId cid f)
            · rw [if_pos hgm] at hroll
              have hrn : roll.sessionId = n := by
                rw [joinFinalSession_history] at hroll
                rcases hx : alGet st.sessions n with _ | s0
                · rw [getOrCreate_snd_of_none st n hx] at hroll
                  exact absurd hroll (List.not_mem_nil _)
                · rw [getOrCreate_snd_of_some st n s0 hx] at hroll
                  exact hinv.2.1 n s0 hx roll hroll
              rw [joinStep_fst st sid d rRaw nm cid f n hn]
              refine ⟨⟨some n, some (joinSafeName nm), some (joinSafeClientId cid f), if n ∈ d.rooms then d.rooms else d.rooms ++ [n]⟩, joinFinalSession st sid n nm cid f, ?_, ?_, ?_, ?_⟩
              · rw [alGet_alSet, if_pos rfl]
              · rw [hrn, alGet_alSet, if_pos rfl]
              · rw [hgm]
                exact Option.some_ne_none _
              · rw [hgm]
            · rw [if_neg hgm] at hroll
              have hf := (List.mem_filter.1 hroll).2
              rw [hhid] at hf
              exact absurd hf (by decide)
          · rw [hp2] at hroll
            simp only [rollsOf] at hroll
            exact absurd hroll (List.not_mem_nil _)
  | refreshSession sid =>
      simp only [stepFn] at hstep
      rcases hd : alGet st.socks sid with _ | d
      · simp only [hd] at hstep
        exact (nomatch hstep)
      · simp only [hd] at hstep
        rcases hr : d.sessionId with _ | r0
        · simp only [hr, Option.some.injEq] at hstep
          have hout : out = [(sid, Payload.errorMessage "Not in a session.")] :=
            (congrArg Prod.snd hstep).symm
          rw [hout] at hcp
          have h2 := List.mem_singleton.1 hcp
          rw [Prod.mk.injEq] at h2
          rw [h2.2] at hroll
          simp only [rollsOf] at hroll
          exact absurd hroll (List.not_mem_nil _)
        · simp only [hr] at hstep
          rcases hx : alGet st.sessions r0 with _ | sess0
          · simp only [hx, Option.some.injEq] at hstep
            have hout : out = [(sid, Payload.errorMessage "Not in a session.")] :=
              (congrArg Prod.snd hstep).symm
            rw [hout] at hcp
            have h2 := List.mem_singleton.1 hcp
            rw [Prod.mk.injEq] at h2
            rw [h2.2] at hroll
            simp only [rollsOf] at hroll
            exact absurd hroll (List.not_mem_nil _)
          · simp only [hx, Option.some.injEq] at hstep
            rw [Prod.mk.injEq] at hstep
            obtain ⟨hst, hout⟩ := hstep
            rw [← hout] at hcp
            have h2 := List.mem_singleton.1 hcp
            rw [Prod.mk.injEq] at h2
            obtain ⟨hceq, hpeq⟩ := h2
            rw [hceq]
            rw [hpeq] at hroll
            simp only [rollsOf] at hroll
            simp only [buildHistoryForClient] at hroll
            rcases hcid : d.clientId with _ | c0
            · simp only [hcid] at hroll
              have hf := (List.mem_filter.1 hroll).2
              rw [hhid] at hf
              exact absurd hf (by decide)
            · simp only [hcid] at hroll
              by_cases hgm : sess0.gmClientId = some c0
              · rw [if_pos hgm] at hroll
                have hrn := hinv.2.1 r0 sess0 hx roll hroll
                refine ⟨d, sess0, ?_, ?_, ?_, ?_⟩
                · rw [← hst]
                  exact hd
                · rw [← hst, hrn]
                  exact hx
                · rw [hgm]
                  exact Option.some_ne_none _
                · rw [hcid, hgm]
              · rw [if_neg hgm] at hroll
                have hf := (List.mem_filter.1 hroll).2
                rw [hhid] at hf
                exact absurd hf (by decide)
  | rollDice sid nD nG hidden rand rid ts =>
      simp only [stepFn] at hstep
      rcases hd : alGet st.socks sid with _ | d
      · simp only [hd] at hstep
        exact (nomatch hstep)
      · simp only [hd] at hstep
        rcases hr : d.sessionId with _ | r0
        · simp only [hr, Option.some.injEq] at hstep
          have hout : out = [(sid, Payload.errorMessage "You must join a session first.")] :=
            (congrArg Prod.snd hstep).symm
          rw [hout] at hcp
          have h2 := List.mem_singleton.1 hcp
          rw [Prod.mk.injEq] at h2
          rw [h2.2] at hroll
          simp only [rollsOf] at hroll
          exact absurd hroll (List.not_mem_nil _)
        · simp only [hr] at hstep
          rcases hx : alGet st.sessions r0 with _ | sess0
          · simp only [hx, Option.some.injEq] at hstep
            have hout : out = [(sid, Payload.errorMessage "You must join a session first.")] :=
              (congrArg Prod.snd hstep).symm
            rw [hout] at hcp
            have h2 := List.mem_singleton.1 hcp
            rw [Prod.mk.injEq] at h2
            rw [h2.2] at hroll
            simp only [rollsOf] at hroll
            exact absurd hroll (List.not_mem_nil _)
          · simp only [hx, Option.some.injEq] at hstep
            have hst : st' = (rollStep st sid d r0 sess0 nD nG hidden rand rid ts).1 :=
              (congrArg Prod.fst hstep).symm
            have hout : out = (rollStep st sid d r0 sess0 nD nG hidden rand rid ts).2 :=
              (congrArg Prod.snd hstep).symm
            subst hout
            cases hidden with
            | false =>
                rw [rollStep_snd_false] at hcp
                rcases List.mem_map.1 hcp with ⟨x, -, hxe⟩
                rw [Prod.mk.injEq] at hxe
                rw [← hxe.2] at hroll
                simp only [rollsOf] at hroll
                have hre := List.mem_singleton.1 hroll
                rw [hre] at hhid
                exact (nomatch hhid)
            | true =>
                rw [rollStep_snd_hidden] at hcp
                cases hgs : sess0.gmSocketId with
                | none =>
                    simp only [hgs] at hcp
                    have h2 := List.mem_singleton.1 hcp
                    rw [Prod.mk.injEq] at h2
                    rw [h2.2] at hroll
                    simp only [rollsOf] at hroll
                    exact absurd hroll (List.not_mem_nil _)
                | some g =>
                    simp only [hgs] at hcp
                    by_cases hlive : (alGet st.socks g).isSome = true
                    · rw [if_pos hlive] at hcp
                      have h2 := List.mem_singleton.1 hcp
                      rw [Prod.mk.injEq] at h2
                      obtain ⟨hceq, hpeq⟩ := h2
                      rw [hceq]
                      rw [hpeq] at hroll
                      simp only [rollsOf] at hroll
                      have hre := List.mem_singleton.1 hroll
                      subst hre
                      obtain ⟨hin, hnn, htok⟩ := hinv.1 r0 sess0 g hx hgs
                      rcases hdg : alGet st.socks g with _ | d2
                      · rw [hdg] at hlive
                        exact (nomatch hlive)
                      · rw [hst, rollStep_fst]
                        refine ⟨d2, histUpdated sess0 (mkRollRecord d r0 nD nG true rand rid ts), ?_, ?_, ?_, ?_⟩
                        · exact hdg
                        · have hrsid : (mkRollRecord d r0 nD nG true rand rid ts).sessionId = r0 := rfl
                          rw [hrsid, alGet_alSet, if_pos rfl]
                        · exact hnn
                        · exact htok d2 hdg
                    · rw [if_neg hlive] at hcp
                      have h2 := List.mem_singleton.1 hcp
                      rw [Prod.mk.injEq] at h2
                      rw [h2.2] at hroll
                      simp only [rollsOf] at hroll
                      exact absurd hroll (List.not_mem_nil _)
  | clearHistory sid =>
      simp only [stepFn] at hstep
      rcases hd : alGet st.socks sid with _ | d
      · simp only [hd] at hstep
        exact (nomatch hstep)
      · simp only [hd] at hstep
        rcases hr : d.sessionId with _ | r0
        · simp only [hr, Option.some.injEq] at hstep
          have hout : out = [(sid, Payload.errorMessage "You must join a session first.")] :=
            (congrArg Prod.snd hstep).symm
          rw [hout] at hcp
          have h2 := List.mem_singleton.1 hcp
          rw [Prod.mk.injEq] at h2
          rw [h2.2] at hroll
          simp only [rollsOf] at hroll
          exact absurd hroll (List.not_mem_nil _)
        · simp only [hr] at hstep
          rcases hx : alGet st.sessions r0 with _ | sess0
          · simp only [hx, Option.some.injEq] at hstep
            have hout : out = [(sid, Payload.errorMessage "You must join a session first.")] :=
              (congrArg Prod.snd hstep).symm
            rw [hout] at hcp
            have h2 := List.mem_singleton.1 hcp
            rw [Prod.mk.injEq] at h2
            rw [h2.2] at hroll
            simp only [rollsOf] at hroll
            exact absurd hroll (List.not_mem_nil _)
          · simp only [hx] at hstep
            rcases hc : d.clientId with _ | c0
            · simp only [hc, Option.some.injEq] at hstep
              have hout : out = [(sid, Payload.errorMessage "Only the GM can clear history.")] :=
                (congrArg Prod.snd hstep).symm
              rw [hout] at hcp
              have h2 := List.mem_singleton.1 hcp
              rw [Prod.mk.injEq] at h2
              rw [h2.2] at hroll
              simp only [rollsOf] at hroll
              exact absurd hroll (List.not_mem_nil _)
            · simp only [hc] at hstep
              split_ifs at hstep with hgm
              · rw [Option.some.injEq, Prod.mk.injEq] at hstep
                obtain ⟨-, hout⟩ := hstep
                rw [← hout] at hcp
                rcases List.mem_map.1 hcp with ⟨x, -, hxe⟩
                rw [Prod.mk.injEq] at hxe
                rw [← hxe.2] at hroll
                simp only [rollsOf] at hroll
                exact absurd hroll (List.not_mem_nil _)
              · rw [Option.some.injEq] at hstep
                have hout : out = [(sid, Payload.errorMessage "Only the GM can clear history.")] :=
                  (congrArg Prod.snd hstep).symm
                rw [hout] at hcp
                have h2 := List.mem_singleton.1 hcp
                rw [Prod.mk.injEq] at h2
                rw [h2.2] at hroll
                simp only [rollsOf] at hroll
                exact absurd hroll (List.not_mem_nil _)
  | leaveSession sid =>
      simp only [stepFn] at hstep
      rcases hd : alGet st.socks sid with _ | d
      · simp only [hd] at hstep
        exact (nomatch hstep)
      · simp only [hd] at hstep
        rcases hr : d.sessionId with _ | r0
        · simp only [hr, Option.some.injEq] at hstep
          have hout : out = [] := (congrArg Prod.snd hstep).symm
          rw [hout] at hcp
          exact absurd hcp (List.not_mem_nil _)
        · simp only [hr] at hstep
          rcases hx : alGet st.sessions r0 with _ | sess0
          · simp only [hx, Option.some.injEq] at hstep
            have hout : out = [] := (congrArg Prod.snd hstep).symm
            rw [hout] at hcp
            exact absurd hcp (List.not_mem_nil _)
          · simp only [hx, Option.some.injEq] at hstep
            have hout : out = (leaveStep st sid d r0 sess0).2 :=
              (congrArg Prod.snd hstep).symm
            rw [hout] at hcp
            obtain ⟨u, hp2⟩ := leaveStep_snd_shape st sid d r0 sess0 c p hcp
            rw [hp2] at hroll
            simp only [rollsOf] at hroll
            exact absurd hroll (List.not_mem_nil _)
  | disconnect sid =>
      simp only [stepFn] at hstep
      rcases hd : alGet st.socks sid with _ | d
      · simp only [hd] at hstep
        exact (nomatch hstep)
      · simp only [hd] at hstep
        rcases hr : d.sessionId with _ | r0
        · simp only [hr, Option.some.injEq] at hstep
          have hout : out = [] := (congrArg Prod.snd hstep).symm
          rw [hout] at hcp
          exact absurd hcp (List.not_mem_nil _)
        · simp only [hr] at hstep
          rcases hx : alGet st.sessions r0 with _ | sess0
          · simp only [hx, Option.some.injEq] at hstep
            have hout : out = [] := (congrArg Prod.snd hstep).symm
            rw [hout] at hcp
            exact absurd hcp (List.not_mem_nil _)
          · simp only [hx, Option.some.injEq] at hstep
            have hout : out = (disconnectStep { st with socks := alErase st.socks sid } sid r0 sess0).2 :=
              (congrArg Prod.snd hstep).symm
            rw [hout] at hcp
            obtain ⟨u, hp2⟩ := disconnectStep_snd_shape _ sid r0 sess0 c p hcp
            rw [hp2] at hroll
            simp only [rollsOf] at hroll
            exact absurd hroll (List.not_mem_nil _)
  | timerFire r0 =>
      simp only [stepFn] at hstep
      rcases hx : alGet st.sessions r0 with _ | sess0
      · simp only [hx] at hstep
        exact (nomatch hstep)
      · simp only [hx] at hstep
        rcases ht : sess0.cleanupTimer with _ | t0
        · simp only [ht] at hstep
          exact (nomatch hstep)
        · simp only [ht] at hstep
          split_ifs at hstep with hemp
          · rw [Option.some.injEq] at hstep
            have hout : out = [] := (congrArg Prod.snd hstep).symm
            rw [hout] at hcp
            exact absurd hcp (List.not_mem_nil _)
          · rw [Option.some.injEq] at hstep
            have hout : out = [] := (congrArg Prod.snd hstep).symm
            rw [hout] at hcp
            exact absurd hcp (List.not_mem_nil _)

/-- The single-join witness trace: Gale founds room `"A"` as GM, Bryn joins;
it reaches `wSt`. -/
def wTrace : List Event :=
  [Event.connect "s1",
   Event.joinSession "s1" (some "a") (some "Gale") (some "c1") "f1",
   Event.connect "s2",
   Event.joinSession "s2" (some "a") (some "Bryn") (some "c2") "f2"]

/-- C2 witness: along the single-join trace `wTrace`, Bryn\'s hidden roll is
delivered to a connection (`"s1"`) whose stored token equals the room\'s GM
identity token. -/
theorem C2_hidden_roll_confidentiality_witness :
    ∃ d2 sess2, alGet wStH.socks "s1" = some d2 ∧
      alGet wStH.sessions wRoll.sessionId = some sess2 ∧
      sess2.gmClientId ≠ none ∧ d2.clientId = sess2.gmClientId :=
  C2_hidden_roll_confidentiality wTrace wSt wStH
    (.rollDice "s2" (some 1) (some 0) true (fun _ => 0) "rid" "ts")
    [("s1", Payload.diceRolled wRoll)]
    (by unfold SingleJoin; decide) (by decide)
    (by simp only [stepFn, rollStep, sanitizeNd_one, sanitizeNg_one_zero,
          genDice_one_zero]
        decide)
    "s1" (Payload.diceRolled wRoll) (List.mem_singleton.2 rfl)
    wRoll (List.mem_singleton.2 rfl) rfl

end DiceServer
